import Mathlib

/-!
# sys_mmapper: shallow embedding of rpcs3/Emu/Cell/lv2/sys_mmapper.cpp

The system calls of `sys_mmapper.cpp` and the reservation functions of
`rpcs3/Emu/Memory/vm_reservation.h` are embedded as pure functions that pass the
process-wide state explicitly.  Unsigned machine integers are natural numbers; where a
C++ operation can wrap, the wrap is written out (`% 2 ^ 32`, `% 2 ^ 64`).

Code that the system calls use but that is not part of the sources at hand
(`vm.cpp`, `sys_memory.h`, the id manager) is either taken as a parameter or modelled
from the specification; each such definition says so in its doc comment.

The format parser `cfmt_append` of `Utilities/cfmt.h` is embedded as a loop over the
characters of the format string that passes `out`, the read pointer, the context and the
state of the argument provider; the provider itself is a parameter.
-/

namespace rpcs3

/-! ## Error codes and constants -/

/-- Error kinds returned by the lv2 system calls (`CellError`); `CELL_OK` is success. -/
inductive CellError where
  | CELL_OK
  | CELL_EAGAIN
  | CELL_EINVAL
  | CELL_ENOMEM
  | CELL_ESRCH
  | CELL_EBUSY
  | CELL_EALIGN
  | CELL_EEXIST
  deriving DecidableEq

open CellError

/-- Modelled from the spec: the page-size flag constants `SYS_MEMORY_PAGE_SIZE_1M`,
`SYS_MEMORY_PAGE_SIZE_64K` and `SYS_MEMORY_PAGE_SIZE_MASK` are declared in `sys_memory.h`,
which is missing; the spec names two page-size classes without giving the flag values, so
the three constants are parameters of the embedding. -/
structure sys_memory where
  SYS_MEMORY_PAGE_SIZE_1M : Nat
  SYS_MEMORY_PAGE_SIZE_64K : Nat
  SYS_MEMORY_PAGE_SIZE_MASK : Nat
  deriving DecidableEq

/-- The constant `UINT32_MAX`. -/
def UINT32_MAX : Nat := 0xFFFFFFFF

/-! ## Association tables (object directory, `std::map`) -/

/-- Lookup of the first entry stored under key `k`. -/
def assoc_get {α : Type} : List (Nat × α) → Nat → Option α
  | [], _ => none
  | (i, v) :: xs, k => if i = k then some v else assoc_get xs k

/-- In-place update of the first entry stored under key `k`. -/
def assoc_modify {α : Type} : List (Nat × α) → Nat → (α → α) → List (Nat × α)
  | [], _, _ => []
  | (i, v) :: xs, k, f => if i = k then (i, f v) :: xs else (i, v) :: assoc_modify xs k f

/-- Removal of the first entry stored under key `k`. -/
def assoc_erase {α : Type} : List (Nat × α) → Nat → List (Nat × α)
  | [], _ => []
  | (i, v) :: xs, k => if i = k then xs else (i, v) :: assoc_erase xs k

/-- The keys of a table. -/
def assoc_keys {α : Type} (l : List (Nat × α)) : List Nat := l.map Prod.fst

/-! ## Data model -/

/-- Modelled from the spec: `lv2_memory_container` is declared in `sys_memory.h`, which is
missing.  The spec gives it the fields `total` and `used` (both `u64`). -/
structure lv2_memory_container where
  total : Nat
  used : Nat
  deriving DecidableEq

/-- Modelled from the spec: `lv2_memory_container::take` is declared in `sys_memory.h`,
which is missing.  The spec: "`take(n)` atomically succeeds only if `used + n <= total`",
"no-op and returns false if insufficient".  `none` is the answer `false`; `some ct1` is the
answer `true` together with the container after the reservation. -/
def lv2_memory_container.take (ct : lv2_memory_container) (n : Nat) :
    Option lv2_memory_container :=
  if ct.used + n ≤ ct.total then some { ct with used := ct.used + n } else none

/-- The record `lv2_memory`, as built by the constructor
`lv2_memory::lv2_memory(size, align, flags, ct)`: `ct` refers to the owning container
(`none` is the default container, `some cid` the container registered under `cid`), `shm`
is the handle of the backing segment created by the constructor and `counter` (a `u32`)
counts the live mappings, zero for a new object. -/
structure lv2_memory where
  size : Nat
  align : Nat
  flags : Nat
  ct : Option Nat
  shm : Nat
  counter : Nat
  deriving DecidableEq

/-- Modelled from the spec: `vm::block_t` is declared in `vm.h`, which is missing.  The
spec gives an area `addr`, `size`, `flags` and the set of attached segments keyed by
sub-address (`map`, an entry is address, size, segment handle).  `use_count` is the
reference count of the shared handle of the area; the area table itself is one owner. -/
structure block_t where
  addr : Nat
  size : Nat
  flags : Nat
  use_count : Nat
  map : List (Nat × Nat × Nat)
  deriving DecidableEq

/-- An entry of the subscription table (`page_fault_notification_entry`). -/
structure page_fault_notification_entry where
  start_addr : Nat
  event_queue_id : Nat
  port_id : Nat
  deriving DecidableEq

/-- The process-wide state touched by the system calls of `sys_mmapper.cpp`:
the area table of `vm`, the default memory container (`fxm::get<lv2_memory_container>`),
the containers and the `lv2_memory` objects of the object directory (`idm`), the
pending-fault table (`page_fault_event_entries::events`, thread id to fault address) and
the subscription table (`page_fault_notification_entries::entries`). -/
structure State where
  areas : List block_t := []
  dct : lv2_memory_container := { total := 0, used := 0 }
  cts : List (Nat × lv2_memory_container) := []
  mems : List (Nat × lv2_memory) := []
  pf_events : List (Nat × Nat) := []
  pf_entries : List page_fault_notification_entry := []
  deriving DecidableEq

/-! ## The address space manager (`vm`) -/

/-- Modelled from the spec: `vm::get(vm::any, addr)` is defined in `vm.cpp`, which is
missing.  The spec: "`get(addr) -> area?` — lookup covering area for an address". -/
def vm_get : List block_t → Nat → Option block_t
  | [], _ => none
  | b :: bs, addr => if b.addr ≤ addr ∧ addr < b.addr + b.size then some b else vm_get bs addr

/-- Modelled from the spec: `vm::unmap(addr, force)` is defined in `vm.cpp`, which is
missing.  The spec: "removes an area; returns failure unless the reference count of the
area is exactly one (no other mapping still referencing it)", and "`unmap` on an area with
reference count > 1 fails with `Busy` and leaves the area intact".  The result is the
returned handle, if any, with the `use_count()` the caller observes on it, and the area
table afterwards:
* no area has base `addr`: no handle;
* the area is referenced by the table alone: it is removed and the caller owns it alone;
* otherwise the area stays in the table and the caller holds one more reference to it.
The spec states this one behaviour, whatever `force` is. -/
def vm_unmap (areas : List block_t) (addr : Nat) (_force : Bool) :
    Option (block_t × Nat) × List block_t :=
  match areas.find? (fun b => b.addr = addr) with
  | none => (none, areas)
  | some b =>
    if b.use_count = 1 then (some (b, 1), areas.eraseP (fun b => b.addr = addr))
    else (some (b, b.use_count + 1), areas)

/-- Replacement of the area that `vm_get` finds for `addr`: the in-place mutation of an
area through the shared handle that `vm::get` returned. -/
def vm_put : List block_t → Nat → block_t → List block_t
  | [], _, _ => []
  | b :: bs, addr, b1 =>
    if b.addr ≤ addr ∧ addr < b.addr + b.size then b1 :: bs else b :: vm_put bs addr b1

/-! ## The object directory (`idm`) and the containers -/

/-- Modelled from the spec: `idm::get(id, func)` belongs to the id manager, which is
missing.  The spec: "`get(id, optional mutator) -> ref|fail`".  The mutator runs on the
object found and yields the mutated object and its verdict; the result is the object
after mutation with the verdict (`none` when the id is unknown) and the directory
afterwards. -/
def idm_get {α : Type} (tbl : List (Nat × α)) (id : Nat) (func : α → α × Option CellError) :
    Option (α × Option CellError) × List (Nat × α) :=
  match assoc_get tbl id with
  | none => (none, tbl)
  | some x => (some (func x), assoc_modify tbl id (fun y => (func y).1))

/-- Modelled from the spec: `idm::withdraw(id, func)` belongs to the id manager, which is
missing.  The spec: "`withdraw(id, predicate) -> removed|fail`", and for the caller at
hand "if `counter != 0` fail with `Busy` without removing the record; otherwise remove the
record".  The record is removed exactly when the predicate reports no error. -/
def idm_withdraw {α : Type} (tbl : List (Nat × α)) (id : Nat) (func : α → Option CellError) :
    Option (α × Option CellError) × List (Nat × α) :=
  match assoc_get tbl id with
  | none => (none, tbl)
  | some x =>
    match func x with
    | some e => (some (x, some e), tbl)
    | none => (some (x, none), assoc_erase tbl id)

/-- Modelled from the spec: `idm::make` belongs to the id manager, which is missing.  The
spec: "`create<T>(args) -> id`", "an opaque numeric id is returned".  The model registers
the object under an id above every id in use. -/
def idm_make {α : Type} (tbl : List (Nat × α)) (x : α) : Nat × List (Nat × α) :=
  let id := (assoc_keys tbl).foldr max 0 + 1
  (id, tbl ++ [(id, x)])

/-- The handle of a segment created by `std::make_shared<utils::shm>(size)`: a handle
that no live object and no area holds. -/
def new_shm (s : State) : Nat :=
  ((s.mems.map (fun e => e.2.shm)) ++
    (s.areas.map (fun b => (b.map.map (fun e => e.2.2)).foldr max 0))).foldr max 0 + 1

/-- The container a `lv2_memory::ct` reference points to. -/
def ct_get (s : State) : Option Nat → Option lv2_memory_container
  | none => some s.dct
  | some cid => assoc_get s.cts cid

/-- In-place update of the container a `lv2_memory::ct` reference points to. -/
def ct_modify (s : State) (c : Option Nat) (f : lv2_memory_container → lv2_memory_container) :
    State :=
  match c with
  | none => { s with dct := f s.dct }
  | some cid => { s with cts := assoc_modify s.cts cid f }

/-! ## The system calls -/

/-- The system call `sys_mmapper_allocate_address(size, flags, alignment, alloc_addr)`.
`vm::find_map` is defined in `vm.cpp`, which is missing, and the spec leaves open where
it places an area, so it is the parameter `find_map`: called on the area table with the
size, the alignment and the page flags, it answers with the new area and the table that
holds it, or with nothing.  The third component of the result is the value written through
`alloc_addr`, if any. -/
def sys_mmapper_allocate_address (K : sys_memory)
    (find_map : List block_t → Nat → Nat → Nat → Option (block_t × List block_t))
    (s : State) (size flags alignment : Nat) : State × CellError × Option Nat :=
  if size % 0x10000000 ≠ 0 then (s, CELL_EALIGN, none)
  else if size > UINT32_MAX then (s, CELL_ENOMEM, none)
  else
    let alignment := if alignment = 0 then 0x10000000 else alignment
    if alignment = 0x10000000 ∨ alignment = 0x20000000 ∨ alignment = 0x40000000 ∨
        alignment = 0x80000000 then
      match find_map s.areas (size % 2 ^ 32) (alignment % 2 ^ 32)
          (flags &&& K.SYS_MEMORY_PAGE_SIZE_MASK) with
      | some (area, areas1) => ({ s with areas := areas1 }, CELL_OK, some area.addr)
      | none => (s, CELL_ENOMEM, none)
    else (s, CELL_EALIGN, none)

/-- The system call `sys_mmapper_allocate_shared_memory(unk, size, flags, mem_id)`.  The
third component of the result is the id written through `mem_id`, if any. -/
def sys_mmapper_allocate_shared_memory (K : sys_memory) (s : State) (_unk size flags : Nat) :
    State × CellError × Option Nat :=
  let c := flags &&& K.SYS_MEMORY_PAGE_SIZE_MASK
  -- Check page granularity
  let verdict : Option CellError :=
    if c = 0 ∨ c = K.SYS_MEMORY_PAGE_SIZE_1M then
      (if size % 0x100000 ≠ 0 then some CELL_EALIGN else none)
    else if c = K.SYS_MEMORY_PAGE_SIZE_64K then
      (if size % 0x10000 ≠ 0 then some CELL_EALIGN else none)
    else some CELL_EINVAL
  match verdict with
  | some e => (s, e, none)
  | none =>
    -- Get "default" memory container
    match s.dct.take size with
    | none => (s, CELL_ENOMEM, none)
    | some dct1 =>
      let s1 := { s with dct := dct1 }
      -- Generate a new mem ID
      let r := idm_make s1.mems
        { size := size,
          align := if flags &&& K.SYS_MEMORY_PAGE_SIZE_64K ≠ 0 then 0x10000 else 0x100000,
          flags := flags, ct := none, shm := new_shm s1, counter := 0 }
      ({ s1 with mems := r.2 }, CELL_OK, some r.1)

/-- The system call
`sys_mmapper_allocate_shared_memory_from_container(unk, size, cid, flags, mem_id)`.  The
third component of the result is the id written through `mem_id`, if any. -/
def sys_mmapper_allocate_shared_memory_from_container (K : sys_memory) (s : State)
    (_unk size cid flags : Nat) : State × CellError × Option Nat :=
  let c := flags &&& K.SYS_MEMORY_PAGE_SIZE_MASK
  -- Check page granularity.
  let verdict : Option CellError :=
    if c = 0 ∨ c = K.SYS_MEMORY_PAGE_SIZE_1M then
      (if size % 0x100000 ≠ 0 then some CELL_EALIGN else none)
    else if c = K.SYS_MEMORY_PAGE_SIZE_64K then
      (if size % 0x10000 ≠ 0 then some CELL_EALIGN else none)
    else some CELL_EINVAL
  match verdict with
  | some e => (s, e, none)
  | none =>
    let ct := idm_get s.cts cid (fun ct =>
      -- Try to get "physical memory"
      match ct.take size with
      | none => (ct, some CELL_ENOMEM)
      | some ct1 => (ct1, none))
    match ct.1 with
    | none => (s, CELL_ESRCH, none)
    | some (_, some e) => ({ s with cts := ct.2 }, e, none)
    | some (_, none) =>
      let s1 := { s with cts := ct.2 }
      -- Generate a new mem ID
      let r := idm_make s1.mems
        { size := size,
          align := if flags &&& K.SYS_MEMORY_PAGE_SIZE_64K ≠ 0 then 0x10000 else 0x100000,
          flags := flags, ct := some cid, shm := new_shm s1, counter := 0 }
      ({ s1 with mems := r.2 }, CELL_OK, some r.1)

/-- The system call `sys_mmapper_free_address(addr)`.  The bound of the guard,
`addr + mem->size - 1`, is computed in `u32`. -/
def sys_mmapper_free_address (s : State) (addr : Nat) : State × CellError :=
  if addr < 0x20000000 ∨ addr ≥ 0xC0000000 then (s, CELL_EINVAL)
  -- If page fault notify exists and an address in this area is faulted, the memory cannot be freed.
  else if s.pf_events.any (fun ev =>
      match vm_get s.areas addr with
      | some mem =>
        decide (addr ≤ ev.2) && decide (ev.2 ≤ (addr + mem.size + (2 ^ 32 - 1)) % 2 ^ 32)
      | none => false) then (s, CELL_EBUSY)
  else
    -- Try to unmap area
    match vm_unmap s.areas addr true with
    | (none, areas1) => ({ s with areas := areas1 }, CELL_EINVAL)
    | (some (_, use_count), areas1) =>
      if use_count ≠ 1 then ({ s with areas := areas1 }, CELL_EBUSY)
      else
        -- If a memory block is freed, remove it from page notification table.
        ({ s with areas := areas1,
                  pf_entries := s.pf_entries.eraseP (fun e => addr = e.start_addr) }, CELL_OK)

/-- The system call `sys_mmapper_free_shared_memory(mem_id)`.  The statement
`mem->ct->used -= mem->size` is a subtraction on the `u64` counter of the container. -/
def sys_mmapper_free_shared_memory (s : State) (mem_id : Nat) : State × CellError :=
  -- Conditionally remove memory ID
  let mem := idm_withdraw s.mems mem_id (fun mem =>
    if mem.counter ≠ 0 then some CELL_EBUSY else none)
  match mem.1 with
  | none => (s, CELL_ESRCH)
  | some (_, some e) => ({ s with mems := mem.2 }, e)
  | some (m, none) =>
    -- Return "physical memory" to the memory container
    (ct_modify { s with mems := mem.2 } m.ct
      (fun ct => { ct with used := (ct.used + (2 ^ 64 - m.size % 2 ^ 64)) % 2 ^ 64 }), CELL_OK)

/-- The system call `sys_mmapper_map_shared_memory(addr, mem_id, flags)`.
`block_t::falloc` is defined in `vm.cpp`, which is missing, so it is the parameter
`falloc`: called on the area with the address, the size, the segment handle and the page
flags, it answers whether the attach succeeded, together with the area afterwards.
`mem.counter++` and `mem->counter--` act on a `u32`. -/
def sys_mmapper_map_shared_memory (K : sys_memory)
    (falloc : block_t → Nat → Nat → Nat → Nat → Bool × block_t)
    (s : State) (addr mem_id _flags : Nat) : State × CellError :=
  match vm_get s.areas addr with
  | none => (s, CELL_EINVAL)
  | some area =>
    if addr < 0x20000000 ∨ addr ≥ 0xC0000000 then (s, CELL_EINVAL)
    else
      let mem := idm_get s.mems mem_id (fun mem =>
        let page_alignment :=
          if area.flags &&& K.SYS_MEMORY_PAGE_SIZE_64K ≠ 0 then 0x10000 else 0x100000
        if mem.align < page_alignment then (mem, some CELL_EINVAL)
        else if addr % page_alignment ≠ 0 then (mem, some CELL_EALIGN)
        else ({ mem with counter := (mem.counter + 1) % 2 ^ 32 }, none))
      match mem.1 with
      | none => (s, CELL_ESRCH)
      | some (_, some e) => ({ s with mems := mem.2 }, e)
      | some (m, none) =>
        let r := falloc area addr m.size m.shm
          (if m.align = 0x10000 then K.SYS_MEMORY_PAGE_SIZE_64K
           else K.SYS_MEMORY_PAGE_SIZE_1M)
        if r.1 = false then
          ({ s with mems := assoc_modify mem.2 mem_id (fun m =>
              { m with counter := (m.counter + (2 ^ 32 - 1)) % 2 ^ 32 }),
                    areas := vm_put s.areas addr r.2 }, CELL_EBUSY)
        else
          ({ s with mems := mem.2, areas := vm_put s.areas addr r.2 }, CELL_OK)

/-- The system call `sys_mmapper_search_and_map(start_addr, mem_id, flags, alloc_addr)`.
`block_t::alloc` is defined in `vm.cpp`, which is missing, and the spec leaves open which
offset it finds, so it is the parameter `alloc`: called on the area with the size, the
alignment, the segment handle and the page flags, it answers with the address found
(zero when none is) and the area afterwards.  The third component of the result is the
value written through `alloc_addr`, if any. -/
def sys_mmapper_search_and_map (K : sys_memory)
    (alloc : block_t → Nat → Nat → Nat → Nat → Nat × block_t)
    (s : State) (start_addr mem_id _flags : Nat) : State × CellError × Option Nat :=
  match vm_get s.areas start_addr with
  | none => (s, CELL_EINVAL, none)
  | some area =>
    if start_addr < 0x20000000 ∨ start_addr ≥ 0xC0000000 then (s, CELL_EINVAL, none)
    else
      let mem := idm_get s.mems mem_id (fun mem =>
        ({ mem with counter := (mem.counter + 1) % 2 ^ 32 }, none))
      match mem.1 with
      | none => (s, CELL_ESRCH, none)
      | some (m, _) =>
        let r := alloc area m.size m.align m.shm
          (if m.align = 0x10000 then K.SYS_MEMORY_PAGE_SIZE_64K
           else K.SYS_MEMORY_PAGE_SIZE_1M)
        if r.1 = 0 then
          ({ s with mems := assoc_modify mem.2 mem_id (fun m =>
              { m with counter := (m.counter + (2 ^ 32 - 1)) % 2 ^ 32 }),
                    areas := vm_put s.areas start_addr r.2 }, CELL_ENOMEM, none)
        else
          ({ s with mems := mem.2, areas := vm_put s.areas start_addr r.2 },
            CELL_OK, some r.1)

/-- The function `mmapper_thread_recover_page_fault(id)`.  `cond.notify_all()` wakes the
waiting threads and changes nothing in the tables. -/
def mmapper_thread_recover_page_fault (s : State) (id : Nat) : State × CellError :=
  -- We can only wake a thread if it is being suspended for a page fault.
  match assoc_get s.pf_events id with
  | none => (s, CELL_EINVAL)
  | some _ => ({ s with pf_events := assoc_erase s.pf_events id }, CELL_OK)

/-! ## Sequences of allocate and free calls -/

/-- One call of the shared-memory allocation interface. -/
inductive Call where
  | allocate_shared_memory (unk size flags : Nat)
  | allocate_shared_memory_from_container (unk size cid flags : Nat)
  | free_shared_memory (mem_id : Nat)
  deriving DecidableEq

/-- The state after one call, whatever the call returns. -/
def Call.run (K : sys_memory) (s : State) : Call → State
  | .allocate_shared_memory unk size flags =>
    (sys_mmapper_allocate_shared_memory K s unk size flags).1
  | .allocate_shared_memory_from_container unk size cid flags =>
    (sys_mmapper_allocate_shared_memory_from_container K s unk size cid flags).1
  | .free_shared_memory mem_id => (sys_mmapper_free_shared_memory s mem_id).1

/-- The state after a finite sequence of calls. -/
def run_calls (K : sys_memory) (s : State) (calls : List Call) : State :=
  calls.foldl (Call.run K) s

/-- The sum of the sizes of the live `lv2_memory` objects owned by container `c`. -/
def live_size (mems : List (Nat × lv2_memory)) (c : Option Nat) : Nat :=
  ((mems.filter (fun e => e.2.ct = c)).map (fun e => e.2.size)).sum

/-! ## Well-formedness of the tables -/

/-- Two areas overlap. -/
def overlap (a b : block_t) : Prop :=
  a.addr < b.addr + b.size ∧ b.addr < a.addr + a.size

instance overlap_decidable (a b : block_t) : Decidable (overlap a b) := by
  unfold overlap; infer_instance

/-- The invariant of the area table stated by the spec ("no two areas overlap"), for
areas that are non-empty ranges. -/
def areas_wf (areas : List block_t) : Prop :=
  (∀ b ∈ areas, 0 < b.size) ∧ areas.Pairwise (fun a b => ¬ overlap a b)

instance areas_wf_decidable (areas : List block_t) : Decidable (areas_wf areas) := by
  unfold areas_wf; infer_instance

/-! ## The quota invariant -/

/-- The quota invariant of container `c` with budget `T`: the container exists, its budget
is `T`, and `used` is the total size of the live objects it owns and is within budget. -/
def quota_inv (T : Nat) (c : Option Nat) (s : State) : Prop :=
  ∃ ct, ct_get s c = some ct ∧ ct.total = T ∧ ct.used = live_size s.mems c ∧ ct.used ≤ T

/-! ## Example inputs -/

/-- Example values of the page-size flags used to run the embedding on concrete inputs. -/
def K0 : sys_memory :=
  { SYS_MEMORY_PAGE_SIZE_1M := 0x400, SYS_MEMORY_PAGE_SIZE_64K := 0x200,
    SYS_MEMORY_PAGE_SIZE_MASK := 0xf00 }

/-- Example state: a default container of 3 MiB and a container of 1 MiB under id 7. -/
def quota_state : State :=
  { dct := { total := 0x300000, used := 0 }, cts := [(7, { total := 0x100000, used := 0 })] }

/-- Example sequence of calls: successful and failing allocations and frees. -/
def quota_calls : List Call :=
  [.allocate_shared_memory 0 0x100000 0x400,
   .allocate_shared_memory 0 0x100001 0x400,
   .allocate_shared_memory_from_container 0 0x100000 7 0x400,
   .allocate_shared_memory 0 0x200000 0,
   .allocate_shared_memory 0 0x100000 0,
   .free_shared_memory 1,
   .free_shared_memory 1,
   .allocate_shared_memory_from_container 0 0x10000 7 0x200]

/-- Example state for the mapping calls: one area of 256 MiB at 0x30000000 with 1 MiB
pages and one object of 1 MiB under id 1 that is mapped twice already. -/
def map_state : State :=
  { areas := [{ addr := 0x30000000, size := 0x10000000, flags := 0x400, use_count := 1,
                map := [] }],
    dct := { total := 0x300000, used := 0x100000 },
    mems := [(1, { size := 0x100000, align := 0x100000, flags := 0x400, ct := none, shm := 1,
                   counter := 2 })] }

/-- Example area of 256 MiB at 0x30000000, referenced by the area table alone. -/
def area_3 : block_t :=
  { addr := 0x30000000, size := 0x10000000, flags := 0x400, use_count := 1, map := [] }

/-- Example area of 256 MiB at 0x50000000, with a second owner. -/
def area_5 : block_t :=
  { addr := 0x50000000, size := 0x10000000, flags := 0x400, use_count := 2, map := [] }

/-- Example answer of `vm::find_map`: the example area at 0x30000000 is found for every
request and added to the area table. -/
def find_map_3 (areas : List block_t) (_size _align _flags : Nat) :
    Option (block_t × List block_t) :=
  some (area_3, areas ++ [area_3])

/-- Example state for the free calls: the two example areas, a fault of thread 5 pending
at 0x30001000, and a subscription for each area. -/
def fault_state : State :=
  { areas := [area_3, area_5],
    pf_events := [(5, 0x30001000)],
    pf_entries := [{ start_addr := 0x30000000, event_queue_id := 9, port_id := 3 },
                   { start_addr := 0x50000000, event_queue_id := 9, port_id := 4 }] }

/-- Example state for the unmap calls: the example state after thread 5 has recovered. -/
def unmap_state : State := { fault_state with pf_events := [] }

/-- Example state for the shared-memory free calls: object 1 is mapped once, object 2 is
not mapped; both are owned by the default container. -/
def free_state : State :=
  { dct := { total := 0x300000, used := 0x200000 },
    mems := [(1, { size := 0x100000, align := 0x100000, flags := 0x400, ct := none, shm := 1,
                   counter := 1 }),
             (2, { size := 0x100000, align := 0x100000, flags := 0x400, ct := none, shm := 2,
                   counter := 0 })] }

/-! ## Attached segments of an area (`vm::block_t`) -/

/-- Modelled from the spec: `block_t::falloc(addr, size, shm, flags)` is defined in
`vm.cpp`, which is missing.  The spec: "attach a Shared Memory Object's backing segment
into an area at a found or fixed offset; fails if misaligned or already occupied", and the
invariant "an area's attached segments never exceed the area's bounds".  The attach fails
when `addr` is not a multiple of the page size of the requested class, when the range
leaves the area, or when an attached segment has this address or overlaps the range;
otherwise the segment is recorded under `addr`.  The answer is whether the attach
succeeded, together with the area afterwards. -/
def block_t.falloc (K : sys_memory) (b : block_t) (addr size shm flags : Nat) :
    Bool × block_t :=
  let page := if flags = K.SYS_MEMORY_PAGE_SIZE_64K then 0x10000 else 0x100000
  if addr % page ≠ 0 then (false, b)
  else if addr < b.addr ∨ b.addr + b.size < addr + size then (false, b)
  else if b.map.any (fun e =>
      decide (e.1 = addr) || (decide (e.1 < addr + size) && decide (addr < e.1 + e.2.1)))
    then (false, b)
  else (true, { b with map := b.map ++ [(addr, size, shm)] })

/-- Modelled from the spec: `block_t::get(addr)` is defined in `vm.cpp`, which is missing.
The spec keeps the attached segments of an area "keyed by sub-address"; the answer is the
address together with the handle of the segment attached at exactly this address, if
any. -/
def block_t.get (b : block_t) (addr : Nat) : Nat × Option Nat :=
  match assoc_get b.map addr with
  | some e => (addr, some e.2)
  | none => (addr, none)

/-- Modelled from the spec: `block_t::dealloc(addr, shm)` is defined in `vm.cpp`, which is
missing.  The spec: "`dealloc(addr, segment) -> bool` — detach a segment from an area".
The detach succeeds when the segment `shm` is the one attached at `addr`; the answer is
whether it succeeded, together with the area afterwards. -/
def block_t.dealloc (b : block_t) (addr shm : Nat) : Bool × block_t :=
  match assoc_get b.map addr with
  | some e =>
    if e.2 = shm then (true, { b with map := assoc_erase b.map addr }) else (false, b)
  | none => (false, b)

/-! ## Scanning the object directory -/

/-- Modelled from the spec: `idm::select(func)` belongs to the id manager, which is
missing.  The spec: "the directory is scanned for the record whose segment equals the one
physically unmapped at that address, and its id is reported back".  The scan stops at the
first record for which `func` answers a non-zero value; the result is the id of that
record, the record and the value. -/
def idm_select {α : Type} : List (Nat × α) → (Nat → α → Nat) → Option (Nat × α × Nat)
  | [], _ => none
  | (id, x) :: xs, func =>
    if func id x ≠ 0 then some (id, x, func id x) else idm_select xs func

/-- In-place update of the record that `idm_select` returns: the mutation of the object
through the handle that `idm::select` returned. -/
def idm_select_modify {α : Type} : List (Nat × α) → (Nat → α → Nat) → (α → α) →
    List (Nat × α)
  | [], _, _ => []
  | (id, x) :: xs, func, f =>
    if func id x ≠ 0 then (id, f x) :: xs else (id, x) :: idm_select_modify xs func f

/-! ## More system calls -/

/-- The system call `sys_mmapper_unmap_shared_memory(addr, mem_id)`.  `block_t::get` and
`block_t::dealloc` are defined in `vm.cpp`, which is missing, so they are the parameters
`get` (the address and the segment handle attached there, if any) and `dealloc` (whether
the detach succeeded, and the area afterwards).  The third component of the result is the
id written through `mem_id`, if any.  `mem->counter--` acts on a `u32`. -/
def sys_mmapper_unmap_shared_memory
    (get : block_t → Nat → Nat × Option Nat)
    (dealloc : block_t → Nat → Nat → Bool × block_t)
    (s : State) (addr : Nat) : State × CellError × Option Nat :=
  match vm_get s.areas addr with
  | none => (s, CELL_EINVAL, none)
  | some area =>
    if addr < 0x20000000 ∨ addr ≥ 0xC0000000 then (s, CELL_EINVAL, none)
    else
      match (get area addr).2 with
      | none => (s, CELL_EINVAL, none)
      | some shm =>
        match idm_select s.mems (fun id mem => if mem.shm = shm then id else 0) with
        | none => (s, CELL_EINVAL, none)
        | some (_, _, ret) =>
          let r := dealloc area addr shm
          if r.1 = false then
            ({ s with areas := vm_put s.areas addr r.2 }, CELL_EINVAL, none)
          else
            -- Write out the ID, acknowledge
            ({ s with areas := vm_put s.areas addr r.2,
                      mems := idm_select_modify s.mems
                        (fun id mem => if mem.shm = shm then id else 0)
                        (fun m => { m with counter := (m.counter + (2 ^ 32 - 1)) % 2 ^ 32 }) },
              CELL_OK, some ret)

/-- A call issued to the event port transport (`sys_event_port_create`,
`sys_event_port_connect_local`, `sys_event_port_disconnect`, `sys_event_port_destroy`). -/
inductive port_call where
  | create
  | connect_local (port_id queue_id : Nat)
  | disconnect (port_id : Nat)
  | destroy (port_id : Nat)
  deriving DecidableEq

/-- Modelled from the spec: the event queues and the event port transport (`sys_event`)
are missing; the spec names them external collaborators.  Their answers to one call of
`sys_mmapper_enable_page_fault_notification` are parameters: whether
`idm::get<lv2_obj, lv2_event_queue>` finds the queue, the result of
`sys_event_port_create` and the value of `port_id` after it. -/
structure sys_event where
  queue : Bool
  res : CellError
  port_id : Nat
  deriving DecidableEq

/-- The system call `sys_mmapper_enable_page_fault_notification(start_addr,
event_queue_id)`.  The third component of the result lists the calls issued to the event
port transport, in order. -/
def sys_mmapper_enable_page_fault_notification (E : sys_event) (s : State)
    (start_addr event_queue_id : Nat) : State × CellError × List port_call :=
  match vm_get s.areas start_addr with
  | none => (s, CELL_EINVAL, [])
  | some mem =>
    if start_addr ≠ mem.addr ∨ start_addr < 0x20000000 ∨ start_addr ≥ 0xC0000000 then
      (s, CELL_EINVAL, [])
    else if E.queue = false then
      -- The queue cannot be connected if it does not exist.
      (s, CELL_ESRCH, [])
    else if E.res = CELL_EAGAIN then
      -- Not enough system resources.
      (s, CELL_EAGAIN, [.create, .connect_local E.port_id event_queue_id])
    -- Return error code if page fault notifications are already enabled
    else if s.pf_entries.any (fun entry => entry.start_addr = start_addr) then
      (s, CELL_EBUSY, [.create, .connect_local E.port_id event_queue_id,
        .disconnect E.port_id, .destroy E.port_id])
    else
      ({ s with pf_entries := s.pf_entries ++
          [{ start_addr := start_addr, event_queue_id := event_queue_id,
             port_id := E.port_id }] },
        CELL_OK, [.create, .connect_local E.port_id event_queue_id])

/-! ## Sequences of subscription and free calls -/

/-- One call that touches the subscription table. -/
inductive PfCall where
  | enable_page_fault_notification (E : sys_event) (start_addr event_queue_id : Nat)
  | free_address (addr : Nat)
  deriving DecidableEq

/-- The state after one such call, whatever the call returns. -/
def PfCall.run (s : State) : PfCall → State
  | .enable_page_fault_notification E start_addr event_queue_id =>
    (sys_mmapper_enable_page_fault_notification E s start_addr event_queue_id).1
  | .free_address addr => (sys_mmapper_free_address s addr).1

/-- The state after a finite sequence of such calls. -/
def run_pf_calls (s : State) (calls : List PfCall) : State :=
  calls.foldl PfCall.run s

/-! ## The reservation table (`vm_reservation.h`) -/

/-- The function `vm::reservation_acquire(addr, size)`: the word of `g_reservations`,
viewed as an array of `u64`, at index `addr / 128`.  The table is a function from the
index to the word. -/
def reservation_acquire (g_reservations : Nat → Nat) (addr _size : Nat) : Nat :=
  g_reservations (addr / 128)

/-- The function `vm::reservation_update(addr, size, lsb)`:
`reservation_acquire(addr, size) += 128` on a `u64`.  The result is the table
afterwards. -/
def reservation_update (g_reservations : Nat → Nat) (addr size : Nat) (_lsb : Bool) :
    Nat → Nat :=
  fun i =>
    if i = addr / 128 then (reservation_acquire g_reservations addr size + 128) % 2 ^ 64
    else g_reservations i

/-! ## More example inputs -/

/-- Example object of 64 KiB alignment, for an area of 1 MiB pages. -/
def mem_64k : lv2_memory :=
  { size := 0x10000, align := 0x10000, flags := 0x200, ct := none, shm := 2, counter := 0 }

/-- Example state for the mapping validation: the area and the 1 MiB object of
`map_state`, and the 64 KiB object under id 2. -/
def validation_state : State :=
  { map_state with mems := map_state.mems ++ [(2, mem_64k)] }

/-- Example answers of the event transport: the queue exists and port 3 is created. -/
def E0 : sys_event := { queue := true, res := CELL_OK, port_id := 3 }

/-- Example state for the subscription calls: the two example areas, no pending fault
and an empty subscription table. -/
def pf_state : State := { areas := [area_3, area_5] }

/-- Example sequence of subscription and free calls: a subscription, a second one for the
same address (refused), one for the other area, a free and a new subscription. -/
def pf_calls : List PfCall :=
  [.enable_page_fault_notification E0 0x30000000 9,
   .enable_page_fault_notification E0 0x30000000 9,
   .enable_page_fault_notification E0 0x50000000 9,
   .free_address 0x30000000,
   .free_address 0x50000000,
   .enable_page_fault_notification E0 0x50000000 8]

/-- Example reservation table: every word holds the stamp 256, unlocked. -/
def g0 : Nat → Nat := fun _ => 256

/-- Example reservation table: every word holds the greatest stamp, unlocked. -/
def g_top : Nat → Nat := fun _ => 2 ^ 64 - 128

/-- Example state for the round trip: the area and the object of `map_state`, and a second
object. -/
def round_trip_state : State :=
  { map_state with mems := [(2, mem_64k)] ++ map_state.mems }

/-! ## Utilities/cfmt.h: the C-style format parser `cfmt_append`

The output container `out` and the format string are lists of characters.  The format
list holds the characters in front of the terminating NUL; reading at or past its end
yields the NUL character, and the parser stops at the first NUL it reads.  The argument
provider `src` is a parameter (`cfmt_src`): the header is a template over it. -/

/-- The constant `size_dropped`, `std::numeric_limits<size_t>::max()`: the value of
`ctx.size` after a sequence was dropped. -/
def size_dropped : Nat := 2 ^ 64 - 1

/-- The constant `UINT_MAX` of a 32-bit `uint`. -/
def UINT_MAX : Nat := 2 ^ 32 - 1

/-- The terminating character of a C string. -/
def NUL : Char := Char.ofNat 0

/-- The space character. -/
def SPACE : Char := Char.ofNat 32

/-- The local structure `cfmt_context`: `size` is a `size_t` (format strings are shorter
than `2 ^ 64` characters, so the counter is a natural number), `args` and `type` are `u8`,
`width` and `prec` are `uint`; the narrowing is applied where a value is stored. -/
structure cfmt_context where
  size : Nat
  args : Nat
  type : Nat
  dot : Bool
  left : Bool
  sign : Bool
  space : Bool
  alter : Bool
  zeros : Bool
  width : Nat
  prec : Nat
  deriving DecidableEq

/-- The value `cfmt_context{0}`. -/
def cfmt_context.zero : cfmt_context :=
  ⟨0, 0, 0, false, false, false, false, false, false, 0, 0⟩

/-- The argument provider `Src` and the constants of `types.h` that `cfmt_append` reads.
`test`, `get<int>`, `get<Char>`, `get<u64>`, `type`, `skip` and the `size_*` constants are
the members the header uses.  `fmt_string` yields the characters the provider appends to
`out` and the size it returns.  `snprintf` stands for the floating-point fallback: it
yields the characters `std::snprintf` produces for the sequence text and the arguments.
`int_max n` is `std::numeric_limits<get_int_t<n>>::max()`; `types.h` is not part of the
sources at hand, so it is a parameter. -/
structure cfmt_src (σ : Type) where
  test : σ → Nat → Bool
  get_int : σ → Nat → Int
  get_char : σ → Nat → Char
  get_u64 : σ → Nat → Nat
  type : σ → Nat → Nat
  fmt_string : σ → Nat → List Char × Nat
  snprintf : List Char → σ → Nat → List Char
  skip : σ → Nat → σ
  size_char : Nat
  size_short : Nat
  size_int : Nat
  size_long : Nat
  size_llong : Nat
  size_size : Nat
  size_max : Nat
  size_diff : Nat
  int_max : Nat → Nat

/-- The variables of `cfmt_append` that change while it runs: the container `out`, the
read pointer `fmt` (an index into the format list), the context `ctx` and the provider
state `src`. -/
structure cfmt_state (σ : Type) where
  out : List Char
  fmt : Nat
  ctx : cfmt_context
  src : σ

/-- The character `fmt[i]` of the null-terminated format string. -/
def peek (f : List Char) (i : Nat) : Char := f.getD i NUL

/-- The lambda `drop_sequence`: `out.insert(out.end(), fmt - ctx.size, fmt)` and
`ctx.size = size_dropped`. -/
def drop_sequence {σ : Type} (f : List Char) (st : cfmt_state σ) : cfmt_state σ :=
  { st with out := st.out ++ (f.take st.fmt).drop (st.fmt - st.ctx.size), ctx := { st.ctx with size := size_dropped } }

/-- The loop of `read_decimal` over the characters at the read pointer: the result and
the number of characters consumed.  The `uint` arithmetic wraps at `2 ^ 32`. -/
def read_decimal_loop : List Char → Nat → Nat × Nat
  | [], result => (result, 0)
  | c :: cs, result =>
    if 48 ≤ c.toNat ∧ c.toNat ≤ 57 ∧ result ≤ UINT_MAX / 10 then
      ((read_decimal_loop cs ((result * 10 + (c.toNat - 48)) % 2 ^ 32)).1, (read_decimal_loop cs ((result * 10 + (c.toNat - 48)) % 2 ^ 32)).2 + 1)
    else (result, 0)

/-- The lambda `read_decimal`: the state after the digits were consumed (`fmt++` and
`ctx.size++` for each) and the number read. -/
def read_decimal {σ : Type} (f : List Char) (st : cfmt_state σ) (result : Nat) : cfmt_state σ × Nat :=
  ({ st with fmt := st.fmt + (read_decimal_loop (f.drop st.fmt) result).2, ctx := { st.ctx with size := st.ctx.size + (read_decimal_loop (f.drop st.fmt) result).2 } }, (read_decimal_loop (f.drop st.fmt) result).1)

/-- Number of significant bits of `x`, counted over at most `n` halvings. -/
def bit_width : Nat → Nat → Nat
  | 0, _ => 0
  | n + 1, x => if x = 0 then 0 else bit_width n (x / 2) + 1

/-- Modelled from the spec: `utils::cntlz64` is declared in `asm.h`, which is missing; it
is the number of leading zero bits of a 64-bit value. -/
def cntlz64 (x : Nat) : Nat := 64 - bit_width 64 x

/-- The loop `for (auto i = out.rbegin(); value; i++, value /= base) *i = digit(value % base)`
shared by `write_octal` and `write_hex`; `i` counts the steps of the reverse iterator.  A
value below `2 ^ 64` is exhausted after at most 64 rounds. -/
def write_rev (base : Nat) (digit : Nat → Char) : Nat → List Char → Nat → Nat → List Char
  | 0, out, _, _ => out
  | n + 1, out, i, value =>
    if value = 0 then out
    else write_rev base digit n (if i < out.length then out.set (out.length - 1 - i) (digit (value % base)) else out) (i + 1) (value / base)

/-- The digit table `"0123456789abcdef"`. -/
def hex_lower : List Char := "0123456789abcdef".toList

/-- The digit table `"0123456789ABCDEF"`. -/
def hex_upper : List Char := "0123456789ABCDEF".toList

/-- The digit `value % 8 + '0'` of `write_octal`. -/
def octal_digit (d : Nat) : Char := Char.ofNat (d + 48)

/-- The digit `(upper ? "0123456789ABCDEF" : "0123456789abcdef")[value % 16]` of
`write_hex`. -/
def hex_digit (upper : Bool) (d : Nat) : Char :=
  (if upper then hex_upper else hex_lower).getD d NUL

/-- The lambda `write_octal`. -/
def write_octal (out : List Char) (value min_num : Nat) : List Char :=
  write_rev 8 octal_digit 64 (out ++ List.replicate (max min_num (66 / 3 - (cntlz64 (value ||| 1) + 2) / 3)) '0') 0 value

/-- The lambda `write_hex`. -/
def write_hex (out : List Char) (value : Nat) (upper : Bool) (min_num : Nat) : List Char :=
  write_rev 16 (hex_digit upper) 64 (out ++ List.replicate (max min_num (64 / 4 - cntlz64 (value ||| 1) / 4)) '0') 0 value

/-- The digit `value % 10 + '0'` of `write_decimal`. -/
def decimal_digit (d : Nat) : Char := Char.ofNat (d + 48)

/-- The `do ... while (0 < --min_size || value)` loop of `write_decimal`. -/
def write_decimal_loop : Nat → List Char → Nat → Int → List Char
  | 0, out, _, _ => out
  | n + 1, out, value, min_size =>
    if 0 < min_size - 1 ∨ value / 10 ≠ 0 then
      write_decimal_loop n (out ++ [decimal_digit (value % 10)]) (value / 10) (min_size - 1)
    else out ++ [decimal_digit (value % 10)]

/-- The loop `for (i = start, j = out.size() - 1; i < j; i++, j--) std::swap(out[i], out[j])`
of `write_decimal`. -/
def swap_loop : Nat → List Char → Nat → Nat → List Char
  | 0, out, _, _ => out
  | n + 1, out, i, j =>
    if i < j then swap_loop n ((out.set i (out.getD j NUL)).set j (out.getD i NUL)) (i + 1) (j - 1)
    else out

/-- The lambda `write_decimal`.  A value below `2 ^ 64` has at most 20 decimal digits, so
the first loop ends within `min_size + 21` rounds; the second loop ends within
`out.size()` rounds. -/
def write_decimal (out : List Char) (value : Nat) (min_size : Int) : List Char :=
  swap_loop (write_decimal_loop (min_size.toNat + 21) out value min_size).length (write_decimal_loop (min_size.toNat + 21) out value min_size) out.length ((write_decimal_loop (min_size.toNat + 21) out value min_size).length - 1)

/-- The call `out.insert(out.begin() + pos, n, c)`. -/
def str_insert (out : List Char) (pos n : Nat) (c : Char) : List Char :=
  out.take pos ++ List.replicate n c ++ out.drop pos

/-- The call `out.resize(n, c)`. -/
def str_resize (out : List Char) (n : Nat) (c : Char) : List Char :=
  out.take n ++ List.replicate (n - out.length) c

/-- The end of a completed conversion: the new `out`, `src.skip(ctx.args)` and
`ctx = {0}`. -/
def finish_arg {σ : Type} (P : cfmt_src σ) (st : cfmt_state σ) (out : List Char) : cfmt_state σ :=
  { st with out := out, src := P.skip st.src st.ctx.args, ctx := cfmt_context.zero }

/-- The integral type size of the argument: `ctx.type`, or `(u8)src.type(ctx.args)` when
no length modifier was given, or `src.size_int` when that is zero too. -/
def resolve_type {σ : Type} (P : cfmt_src σ) (st : cfmt_state σ) : Nat :=
  if st.ctx.type ≠ 0 then st.ctx.type
  else if P.type st.src st.ctx.args % 256 ≠ 0 then P.type st.src st.ctx.args % 256
  else P.size_int % 256

/-- The `mask` of the unsigned conversions for the type size `ty`. -/
def int_mask {σ : Type} (P : cfmt_src σ) (ty : Nat) : Nat :=
  (if ty = 1 then P.int_max 1 else if ty = 2 then P.int_max 2 else if ty = 4 then P.int_max 4 else P.int_max 8) % 2 ^ 64

/-- The value `src.get<u64>(ctx.args) & mask` of the unsigned conversions. -/
def masked_val {σ : Type} (P : cfmt_src σ) (st : cfmt_state σ) : Nat :=
  (P.get_u64 st.src st.ctx.args % 2 ^ 64) &&& int_mask P (resolve_type P st)

/-- The padding `out.insert(ctx.left ? out.end() : out.begin() + start, ctx.width - size2, c)`
that is applied when `size2 < ctx.width`, with `size2 = out.size() - start`. -/
def pad_field (ctx : cfmt_context) (start : Nat) (c : Char) (out : List Char) : List Char :=
  if out.length - start < ctx.width then
    str_insert out (if ctx.left then out.length else start) (ctx.width - (out.length - start)) c
  else out

/-- The cases `'1'` to `'9'`: the field width. -/
def case_width {σ : Type} (f : List Char) (ch : Char) (st : cfmt_state σ) : cfmt_state σ :=
  if st.ctx.width ≠ 0 then drop_sequence f st
  else { (read_decimal f st (ch.toNat - 48)).1 with ctx := { (read_decimal f st (ch.toNat - 48)).1.ctx with width := (read_decimal f st (ch.toNat - 48)).2 } }

/-- The case `'*'`: the field width taken from an argument. -/
def case_star {σ : Type} (P : cfmt_src σ) (f : List Char) (st : cfmt_state σ) : cfmt_state σ :=
  if st.ctx.width ≠ 0 ∨ P.test st.src st.ctx.args = false then drop_sequence f st
  else { st with ctx := { st.ctx with args := (st.ctx.args + 1) % 256, width := (P.get_int st.src st.ctx.args).natAbs % 2 ^ 32, left := st.ctx.left || decide (P.get_int st.src st.ctx.args < 0) } }

/-- The case `'.'`: the precision. -/
def case_dot {σ : Type} (P : cfmt_src σ) (f : List Char) (st : cfmt_state σ) : cfmt_state σ :=
  if st.ctx.dot = true ∨ st.ctx.prec ≠ 0 then drop_sequence f st
  else if 48 ≤ (peek f st.fmt).toNat ∧ (peek f st.fmt).toNat ≤ 57 then
    { (read_decimal f st 0).1 with ctx := { (read_decimal f st 0).1.ctx with prec := (read_decimal f st 0).2, dot := true } }
  else if peek f st.fmt = '*' then
    if P.test st.src st.ctx.args = false then drop_sequence f st
    else { st with fmt := st.fmt + 1, ctx := { st.ctx with size := st.ctx.size + 1, args := (st.ctx.args + 1) % 256, prec := (max (P.get_int st.src st.ctx.args) 0).toNat % 2 ^ 32, dot := decide (0 ≤ P.get_int st.src st.ctx.args) } }
  else { st with ctx := { st.ctx with prec := 0, dot := true } }

/-- The cases `'h'` and `'l'`: a length modifier that may be doubled; `single` and
`double` are the type sizes stored for the one-letter and the two-letter form. -/
def case_double {σ : Type} (f : List Char) (ch : Char) (single double : Nat) (st : cfmt_state σ) : cfmt_state σ :=
  if st.ctx.type ≠ 0 then drop_sequence f st
  else if peek f st.fmt = ch then { st with fmt := st.fmt + 1, ctx := { st.ctx with size := st.ctx.size + 1, type := double % 256 } }
  else { st with ctx := { st.ctx with type := single % 256 } }

/-- The cases `'z'`, `'j'` and `'t'`: a one-letter length modifier. -/
def case_single {σ : Type} (f : List Char) (ty : Nat) (st : cfmt_state σ) : cfmt_state σ :=
  if st.ctx.type ≠ 0 then drop_sequence f st
  else { st with ctx := { st.ctx with type := ty % 256 } }

/-- The case `'c'`. -/
def case_c {σ : Type} (P : cfmt_src σ) (f : List Char) (st : cfmt_state σ) : cfmt_state σ :=
  if st.ctx.type ≠ 0 ∨ P.test st.src st.ctx.args = false then drop_sequence f st
  else finish_arg P st
    (if 1 < st.ctx.width then
      str_insert (st.out ++ [P.get_char st.src st.ctx.args]) (st.out.length + (if st.ctx.left then 1 else 0)) (st.ctx.width - 1) SPACE
    else st.out ++ [P.get_char st.src st.ctx.args])

/-- The string of case `'s'` after the optional shrink `out.resize(start + ctx.prec)`. -/
def string_field {σ : Type} (P : cfmt_src σ) (st : cfmt_state σ) : List Char :=
  if st.ctx.dot = true ∧ st.ctx.prec < (P.fmt_string st.src st.ctx.args).2 then
    str_resize (st.out ++ (P.fmt_string st.src st.ctx.args).1) (st.out.length + st.ctx.prec) NUL
  else st.out ++ (P.fmt_string st.src st.ctx.args).1

/-- The case `'s'`. -/
def case_s {σ : Type} (P : cfmt_src σ) (f : List Char) (st : cfmt_state σ) : cfmt_state σ :=
  if st.ctx.type ≠ 0 ∨ P.test st.src st.ctx.args = false then drop_sequence f st
  else finish_arg P st (pad_field st.ctx st.out.length SPACE (string_field P st))

/-- The sign character of cases `'d'` and `'i'`. -/
def sign_char (negative : Bool) (ctx : cfmt_context) : List Char :=
  if negative then ['-'] else if ctx.sign then ['+'] else if ctx.space then [SPACE] else []

/-- The digits of cases `'d'` and `'i'` for the argument `val` of type size `ty`, before
padding. -/
def signed_field (ctx : cfmt_context) (ty val : Nat) (out : List Char) : List Char :=
  if ctx.dot = false ∨ ctx.prec ≠ 0 then
    write_decimal (out ++ sign_char (decide (ty ≠ 0 ∧ 2 ^ 63 ≤ val)) ctx) (if ty ≠ 0 ∧ 2 ^ 63 ≤ val then (2 ^ 64 - val) % 2 ^ 64 else val) ctx.prec
  else out

/-- The padding of cases `'d'` and `'i'`. -/
def signed_pad (ctx : cfmt_context) (ty val start : Nat) (out : List Char) : List Char :=
  if out.length - start < ctx.width then
    if ctx.zeros = true ∧ ctx.left = false ∧ ctx.dot = false then
      str_insert out (start + (if (ty ≠ 0 ∧ 2 ^ 63 ≤ val) ∨ ctx.sign = true ∨ ctx.space = true then 1 else 0)) (ctx.width - (out.length - start)) '0'
    else str_insert out (if ctx.left then out.length else start) (ctx.width - (out.length - start)) SPACE
  else out

/-- The cases `'d'` and `'i'`. -/
def case_d {σ : Type} (P : cfmt_src σ) (f : List Char) (st : cfmt_state σ) : cfmt_state σ :=
  if P.test st.src st.ctx.args = false then drop_sequence f st
  else finish_arg P st
    (signed_pad st.ctx (resolve_type P st) (P.get_u64 st.src st.ctx.args % 2 ^ 64) st.out.length
      (signed_field st.ctx (resolve_type P st) (P.get_u64 st.src st.ctx.args % 2 ^ 64) st.out))

/-- The padding character `ctx.zeros && !ctx.left && !ctx.dot ? '0' : ' '`. -/
def pad_char (ctx : cfmt_context) : Char :=
  if ctx.zeros = true ∧ ctx.left = false ∧ ctx.dot = false then '0' else SPACE

/-- The digits of case `'o'` before padding. -/
def octal_field (ctx : cfmt_context) (val : Nat) (out : List Char) : List Char :=
  if ctx.alter = true then
    if val ≠ 0 then write_octal (out ++ ['0']) val (if ctx.prec ≠ 0 then ctx.prec - 1 else 0)
    else out ++ ['0']
  else if ctx.dot = false ∨ ctx.prec ≠ 0 then write_octal out val ctx.prec
  else out

/-- The case `'o'`. -/
def case_o {σ : Type} (P : cfmt_src σ) (f : List Char) (st : cfmt_state σ) : cfmt_state σ :=
  if P.test st.src st.ctx.args = false then drop_sequence f st
  else finish_arg P st (pad_field st.ctx st.out.length (pad_char st.ctx) (octal_field st.ctx (masked_val P st) st.out))

/-- The digits of cases `'x'` and `'X'` before padding. -/
def hex_field (ctx : cfmt_context) (ch : Char) (val : Nat) (out : List Char) : List Char :=
  if ctx.alter = true then
    if val ≠ 0 then write_hex (out ++ ['0'] ++ [ch]) val (decide (ch = 'X')) ctx.prec
    else out ++ ['0']
  else if ctx.dot = false ∨ ctx.prec ≠ 0 then write_hex out val (decide (ch = 'X')) ctx.prec
  else out

/-- The padding of cases `'x'` and `'X'`. -/
def hex_pad (ctx : cfmt_context) (val start : Nat) (out : List Char) : List Char :=
  if out.length - start < ctx.width then
    if ctx.zeros = true ∧ ctx.left = false ∧ ctx.dot = false then
      str_insert out (start + (if ctx.alter = true ∧ val ≠ 0 then 2 else 0)) (ctx.width - (out.length - start)) '0'
    else str_insert out (if ctx.left then out.length else start) (ctx.width - (out.length - start)) SPACE
  else out

/-- The cases `'x'` and `'X'`. -/
def case_x {σ : Type} (P : cfmt_src σ) (f : List Char) (ch : Char) (st : cfmt_state σ) : cfmt_state σ :=
  if P.test st.src st.ctx.args = false then drop_sequence f st
  else finish_arg P st (hex_pad st.ctx (masked_val P st) st.out.length (hex_field st.ctx ch (masked_val P st) st.out))

/-- The digits of case `'u'` before padding. -/
def unsigned_field (ctx : cfmt_context) (val : Nat) (out : List Char) : List Char :=
  if ctx.dot = false ∨ ctx.prec ≠ 0 then write_decimal out val ctx.prec else out

/-- The case `'u'`. -/
def case_u {σ : Type} (P : cfmt_src σ) (f : List Char) (st : cfmt_state σ) : cfmt_state σ :=
  if P.test st.src st.ctx.args = false then drop_sequence f st
  else finish_arg P st (pad_field st.ctx st.out.length (pad_char st.ctx) (unsigned_field st.ctx (masked_val P st) st.out))

/-- The case `'p'`; `sizeof(void*) * 2` is 16 on the 64-bit targets of the emulator. -/
def case_p {σ : Type} (P : cfmt_src σ) (f : List Char) (st : cfmt_state σ) : cfmt_state σ :=
  if P.test st.src st.ctx.args = false ∨ st.ctx.type ≠ 0 then drop_sequence f st
  else finish_arg P st (pad_field st.ctx st.out.length SPACE (write_hex st.out (P.get_u64 st.src st.ctx.args % 2 ^ 64) false 16))

/-- The floating-point cases `'f'`, `'F'`, `'e'`, `'E'`, `'a'`, `'A'`, `'g'`, `'G'`: the
text of the sequence is handed to `std::snprintf`, whose output is appended. -/
def case_float {σ : Type} (P : cfmt_src σ) (f : List Char) (st : cfmt_state σ) : cfmt_state σ :=
  if P.test st.src st.ctx.args = false ∨ st.ctx.type ≠ 0 then drop_sequence f st
  else finish_arg P st (st.out ++ P.snprintf ((f.take st.fmt).drop (st.fmt - st.ctx.size)) st.src st.ctx.args)

/-- The `switch (ctx.size++, ch)` of the main loop; `st` is the state after `fmt++` and
`ctx.size++`.  The cases `'L'`, `'n'` and `default` drop the sequence. -/
def cfmt_switch {σ : Type} (P : cfmt_src σ) (f : List Char) (ch : Char) (st : cfmt_state σ) : cfmt_state σ :=
  if ch = '-' then { st with ctx := { st.ctx with left := true } }
  else if ch = '+' then { st with ctx := { st.ctx with sign := true } }
  else if ch = SPACE then { st with ctx := { st.ctx with space := true } }
  else if ch = '#' then { st with ctx := { st.ctx with alter := true } }
  else if ch = '0' then { st with ctx := { st.ctx with zeros := true } }
  else if 49 ≤ ch.toNat ∧ ch.toNat ≤ 57 then case_width f ch st
  else if ch = '*' then case_star P f st
  else if ch = '.' then case_dot P f st
  else if ch = 'h' then case_double f ch P.size_short P.size_char st
  else if ch = 'l' then case_double f ch P.size_long P.size_llong st
  else if ch = 'z' then case_single f P.size_size st
  else if ch = 'j' then case_single f P.size_max st
  else if ch = 't' then case_single f P.size_diff st
  else if ch = 'c' then case_c P f st
  else if ch = 's' then case_s P f st
  else if ch = 'd' ∨ ch = 'i' then case_d P f st
  else if ch = 'o' then case_o P f st
  else if ch = 'x' ∨ ch = 'X' then case_x P f ch st
  else if ch = 'u' then case_u P f st
  else if ch = 'p' then case_p P f st
  else if ch = 'f' ∨ ch = 'F' ∨ ch = 'e' ∨ ch = 'E' ∨ ch = 'a' ∨ ch = 'A' ∨ ch = 'g' ∨ ch = 'G' then case_float P f st
  else drop_sequence f st

/-- The body of the main loop for the character `ch = *fmt++`, which is not NUL. -/
def cfmt_iter {σ : Type} (P : cfmt_src σ) (f : List Char) (st : cfmt_state σ) : cfmt_state σ :=
  if st.ctx.size = 0 then
    if peek f st.fmt = '%' then { st with fmt := st.fmt + 1, ctx := { st.ctx with size := 1 } }
    else { st with fmt := st.fmt + 1, out := st.out ++ [peek f st.fmt] }
  else if st.ctx.size = 1 ∧ peek f st.fmt = '%' then
    { st with fmt := st.fmt + 1, ctx := cfmt_context.zero, out := st.out ++ [peek f st.fmt] }
  else if st.ctx.size = size_dropped then
    { st with fmt := st.fmt + 1, out := st.out ++ [peek f st.fmt] }
  else cfmt_switch P f (peek f st.fmt) { st with fmt := st.fmt + 1, ctx := { st.ctx with size := st.ctx.size + 1 } }

/-- The main loop `while (const Char ch = *fmt++) ...`, run for at most `n` rounds: the
state at the exit of the loop (the pointer has passed the NUL), or `none` when `n` rounds
do not reach the NUL. -/
def cfmt_loop {σ : Type} (P : cfmt_src σ) (f : List Char) : Nat → cfmt_state σ → Option (cfmt_state σ)
  | 0, _ => none
  | n + 1, st =>
    if peek f st.fmt = NUL then some { st with fmt := st.fmt + 1 }
    else cfmt_loop P f n (cfmt_iter P f st)

/-- The state after `k` rounds of the main loop, `none` when the loop has ended before. -/
def cfmt_steps {σ : Type} (P : cfmt_src σ) (f : List Char) : Nat → cfmt_state σ → Option (cfmt_state σ)
  | 0, st => some st
  | k + 1, st =>
    if peek f st.fmt = NUL then none
    else cfmt_steps P f k (cfmt_iter P f st)

/-- The statement after the loop: `if (ctx.size && ctx.size != size_dropped) { fmt--, drop_sequence(); }`. -/
def cfmt_finish {σ : Type} (f : List Char) (st : cfmt_state σ) : cfmt_state σ :=
  if st.ctx.size ≠ 0 ∧ st.ctx.size ≠ size_dropped then drop_sequence f { st with fmt := st.fmt - 1 }
  else st

/-- The state of `cfmt_append` at its start. -/
def cfmt_start {σ : Type} (out : List Char) (src : σ) : cfmt_state σ :=
  ⟨out, 0, cfmt_context.zero, src⟩

/-- The state of `cfmt_append` at its `return`.  Every round of the loop consumes at least
one character, so `f.length + 1` rounds reach the NUL. -/
def cfmt_run {σ : Type} (P : cfmt_src σ) (f : List Char) (out : List Char) (src : σ) : Option (cfmt_state σ) :=
  (cfmt_loop P f (f.length + 1) (cfmt_start out src)).map (cfmt_finish f)

/-- The function `cfmt_append`: the final `out` and the returned `out.size() - start_pos`,
a `size_t` subtraction. -/
def cfmt_append {σ : Type} (P : cfmt_src σ) (f : List Char) (out : List Char) (src : σ) : Option (List Char × Nat) :=
  (cfmt_run P f out src).map (fun st => (st.out, (st.out.length + (2 ^ 64 - out.length % 2 ^ 64)) % 2 ^ 64))

/-! ### Reading a written number back -/

/-- The value of a digit character: `0` to `9`, `a` to `f`, `A` to `F`. -/
def digit_val (c : Char) : Nat :=
  if 48 ≤ c.toNat ∧ c.toNat ≤ 57 then c.toNat - 48
  else if 97 ≤ c.toNat ∧ c.toNat ≤ 102 then c.toNat - 87
  else if 65 ≤ c.toNat ∧ c.toNat ≤ 70 then c.toNat - 55
  else 0

/-- The number that the digit string `t` denotes in base `b`. -/
def parse_base (b : Nat) (t : List Char) : Nat :=
  t.foldl (fun acc c => acc * b + digit_val c) 0

/-- The signed number that a decimal string with an optional leading `-` denotes. -/
def parse_signed (t : List Char) : Int :=
  if t.head? = some '-' then - (parse_base 10 t.tail : Int) else (parse_base 10 t : Int)

/-- The digits of `v` in base `b`, most significant first, as characters of `digit`; no
digit for `v = 0`. -/
def digits_msb (b : Nat) (digit : Nat → Char) (v : Nat) : List Char :=
  ((Nat.digits b v).map digit).reverse

/-! ### An example provider -/

/-- An argument of the example provider: its integer value and its string. -/
abbrev example_arg : Type := Nat × List Char

/-- The 32-bit `int` that the low half of `v` denotes. -/
def to_int32 (v : Nat) : Int :=
  if v % 2 ^ 32 < 2 ^ 31 then (v % 2 ^ 32 : Nat) else (v % 2 ^ 32 : Nat) - 2 ^ 32

/-- An example argument provider over a list of arguments: argument `i` exists when the
list has it, integers are 64-bit values, every type size is unknown to the provider
(`type` answers 0) and `skip` removes the arguments used. -/
def list_src : cfmt_src (List example_arg) where
  test := fun s i => decide (i < s.length)
  get_int := fun s i => to_int32 (s.getD i (0, [])).1
  get_char := fun s i => Char.ofNat ((s.getD i (0, [])).1 % 128)
  get_u64 := fun s i => (s.getD i (0, [])).1
  type := fun _ _ => 0
  fmt_string := fun s i => ((s.getD i (0, [])).2, (s.getD i (0, [])).2.length)
  snprintf := fun _ _ _ => []
  skip := fun s n => s.drop (n + 1)
  size_char := 1
  size_short := 2
  size_int := 4
  size_long := 8
  size_llong := 8
  size_size := 8
  size_max := 8
  size_diff := 8
  int_max := fun n => 2 ^ (8 * n) - 1

/-! ### Outcomes of one case of the switch -/

/-- The three outcomes of one case of the switch, entered in state `s` and left in state
`s'`: the sequence goes on (`out` is untouched, the pointer and `ctx.size` advance by the
same number of characters, within the string), the conversion is complete (`ctx = {0}`,
`out` has grown at its end), or the sequence is dropped. -/
def step_shape {σ : Type} (f : List Char) (s s' : cfmt_state σ) : Prop :=
  (s'.out = s.out ∧ ∃ d, s'.fmt = s.fmt + d ∧ s'.ctx.size = s.ctx.size + d ∧ (s.fmt ≤ f.length → s.fmt + d ≤ f.length))
  ∨ (s'.ctx = cfmt_context.zero ∧ s'.fmt = s.fmt ∧ s.out <+: s'.out)
  ∨ s' = drop_sequence f s

/-! ### Sequences in progress -/

/-- State `s` is reached by the main loop from `s0` and stands at the `%` that starts a
format sequence. -/
def seq_start {σ : Type} (P : cfmt_src σ) (f : List Char) (s0 s : cfmt_state σ) : Prop :=
  (∃ k, cfmt_steps P f k s0 = some s) ∧ s.ctx.size = 0 ∧ f[s.fmt]? = some '%'

/-- The invariant of the main loop: outside a sequence `ctx.size` is 0; inside a sequence
that started in state `s`, `ctx.size` counts the characters read since its `%` and `out`
is as it was there; after a drop, `out` followed by the unread characters is the `out` of
`s` followed by the format string from the `%` on. -/
def seq_inv {σ : Type} (P : cfmt_src σ) (f : List Char) (s0 st : cfmt_state σ) : Prop :=
  st.fmt ≤ f.length ∧
    (st.ctx.size = 0 ∨ ∃ s, seq_start P f s0 s ∧
      ((st.ctx.size ≠ 0 ∧ st.ctx.size < size_dropped ∧ s.fmt + st.ctx.size = st.fmt ∧ st.out = s.out) ∨
        (st.ctx.size = size_dropped ∧ st.out ++ f.drop st.fmt = s.out ++ f.drop s.fmt)))

/-! ### Example format strings -/

/-- Format strings with a sequence that is dropped, one for each cause: the unsupported
conversions `%n` and `%L`, an unknown character, a repeated width, a repeated precision, a
repeated length modifier, a missing argument, and a sequence that the end of the string
leaves unfinished; each comes with the arguments of the call. -/
def dropped_examples : List (List Char × List example_arg) :=
  [(['a', '%', 'n', 'b'], [(1, [])]),
   (['a', '%', 'L', 'f', 'b'], [(1, [])]),
   (['a', '%', 'q', 'b'], [(1, [])]),
   (['a', '%', '5', '-', '5', 'd', 'b'], [(1, [])]),
   (['a', '%', '.', '1', '.', '2', 'd', 'b'], [(1, [])]),
   (['a', '%', 'h', 'l', 'd', 'b'], [(1, [])]),
   (['a', '%', 'd', '%', 'd', 'b'], [(1, [])]),
   (['a', '%', 'd', '%', '5'], [(1, [])])]

/-- The outcome of a call with the example provider on an empty `out`: whether it ended
in dropped mode, and the final `out`. -/
def run_summary (e : List Char × List example_arg) : Option (Bool × List Char) :=
  (cfmt_run list_src e.1 [] e.2).map (fun s => (decide (s.ctx.size = size_dropped), s.out))

/-! ## Lemmas on association tables -/

theorem assoc_get_modify {α : Type} (l : List (Nat × α)) (k j : Nat) (f : α → α) :
    assoc_get (assoc_modify l k f) j =
      if k = j then (assoc_get l j).map f else assoc_get l j := by
  induction l with
  | nil => simp [assoc_modify, assoc_get]
  | cons x xs ih =>
    obtain ⟨i, v⟩ := x
    by_cases hik : i = k
    · subst hik
      by_cases hij : i = j
      · simp [assoc_modify, assoc_get, hij]
      · simp [assoc_modify, assoc_get, hij]
    · by_cases hij : i = j
      · subst hij
        have hki : ¬ k = i := fun h => hik h.symm
        simp [assoc_modify, assoc_get, hik, hki]
      · simp [assoc_modify, assoc_get, hik, hij, ih]

theorem assoc_modify_eq_self {α : Type} (l : List (Nat × α)) (k : Nat) (f : α → α)
    (h : ∀ v, assoc_get l k = some v → f v = v) : assoc_modify l k f = l := by
  induction l with
  | nil => simp [assoc_modify]
  | cons x xs ih =>
    obtain ⟨i, v⟩ := x
    by_cases hik : i = k
    · have hv : f v = v := h v (by simp [assoc_get, hik])
      simp [assoc_modify, hik, hv]
    · have h1 : ∀ w, assoc_get xs k = some w → f w = w := by
        intro w hw
        exact h w (by simpa [assoc_get, hik] using hw)
      simp [assoc_modify, hik, ih h1]

theorem assoc_modify_modify {α : Type} (l : List (Nat × α)) (k : Nat) (f g : α → α) :
    assoc_modify (assoc_modify l k f) k g = assoc_modify l k (fun v => g (f v)) := by
  induction l with
  | nil => simp [assoc_modify]
  | cons x xs ih =>
    obtain ⟨i, v⟩ := x
    by_cases hik : i = k
    · simp [assoc_modify, hik]
    · simp [assoc_modify, hik, ih]

theorem assoc_get_erase_ne {α : Type} (l : List (Nat × α)) (k j : Nat) (h : k ≠ j) :
    assoc_get (assoc_erase l k) j = assoc_get l j := by
  induction l with
  | nil => simp [assoc_erase]
  | cons x xs ih =>
    obtain ⟨i, v⟩ := x
    by_cases hik : i = k
    · subst hik
      simp [assoc_erase, assoc_get, h]
    · by_cases hij : i = j
      · subst hij
        simp [assoc_erase, assoc_get, hik]
      · simp [assoc_erase, assoc_get, hik, hij, ih]

theorem assoc_get_none_of_not_mem {α : Type} (l : List (Nat × α)) (k : Nat)
    (h : k ∉ assoc_keys l) : assoc_get l k = none := by
  induction l with
  | nil => simp [assoc_get]
  | cons x xs ih =>
    obtain ⟨i, v⟩ := x
    simp only [assoc_keys, List.map_cons, List.mem_cons, not_or] at h
    have hik : ¬ i = k := fun e => h.1 e.symm
    simp only [assoc_get, hik, if_false]
    exact ih h.2

theorem assoc_get_erase_self {α : Type} (l : List (Nat × α)) (k : Nat)
    (h : (assoc_keys l).Nodup) : assoc_get (assoc_erase l k) k = none := by
  induction l with
  | nil => simp [assoc_erase, assoc_get]
  | cons x xs ih =>
    obtain ⟨i, v⟩ := x
    simp only [assoc_keys, List.map_cons, List.nodup_cons] at h
    by_cases hik : i = k
    · subst hik
      simp only [assoc_erase, if_true]
      exact assoc_get_none_of_not_mem xs i h.1
    · simp only [assoc_erase, hik, if_false, assoc_get]
      exact ih h.2

theorem assoc_modify_congr {α : Type} (l : List (Nat × α)) (k : Nat) (f : α → α) (m : α)
    (h : assoc_get l k = some m) : assoc_modify l k f = assoc_modify l k (fun _ => f m) := by
  induction l with
  | nil => simp [assoc_modify]
  | cons x xs ih =>
    obtain ⟨i, v⟩ := x
    by_cases hik : i = k
    · simp only [assoc_get, hik, if_true, Option.some.injEq] at h
      subst h
      simp [assoc_modify, hik]
    · simp only [assoc_get, hik, if_false] at h
      simp [assoc_modify, hik, ih h]

theorem assoc_modify_const_self {α : Type} (l : List (Nat × α)) (k : Nat) (m : α)
    (h : assoc_get l k = some m) : assoc_modify l k (fun _ => m) = l :=
  assoc_modify_eq_self l k (fun _ => m) (fun v hv => by rw [h] at hv; exact Option.some.inj hv)

theorem mem_of_mem_assoc_erase {α : Type} (l : List (Nat × α)) (k : Nat) (e : Nat × α)
    (h : e ∈ assoc_erase l k) : e ∈ l := by
  induction l with
  | nil => simp [assoc_erase] at h
  | cons x xs ih =>
    obtain ⟨i, v⟩ := x
    by_cases hik : i = k
    · simp only [assoc_erase, hik, if_true] at h
      exact List.mem_cons_of_mem _ h
    · simp only [assoc_erase, hik, if_false, List.mem_cons] at h
      rcases h with h | h
      · exact List.mem_cons.mpr (Or.inl h)
      · exact List.mem_cons_of_mem _ (ih h)

theorem key_ne_of_mem_assoc_erase {α : Type} (l : List (Nat × α)) (k : Nat) (e : Nat × α)
    (hk : (assoc_keys l).Nodup) (h : e ∈ assoc_erase l k) : e.1 ≠ k := by
  induction l with
  | nil => simp [assoc_erase] at h
  | cons x xs ih =>
    obtain ⟨i, v⟩ := x
    simp only [assoc_keys, List.map_cons, List.nodup_cons] at hk
    by_cases hik : i = k
    · simp only [assoc_erase, hik, if_true] at h
      intro he
      apply hk.1
      rw [hik, ← he]
      exact List.mem_map_of_mem Prod.fst h
    · simp only [assoc_erase, hik, if_false, List.mem_cons] at h
      rcases h with h | h
      · rw [h]; exact hik
      · exact ih hk.2 h

theorem mem_of_assoc_get {α : Type} (l : List (Nat × α)) (k : Nat) (v : α)
    (h : assoc_get l k = some v) : (k, v) ∈ l := by
  induction l with
  | nil => simp [assoc_get] at h
  | cons x xs ih =>
    obtain ⟨i, w⟩ := x
    by_cases hik : i = k
    · simp only [assoc_get, hik, if_true, Option.some.injEq] at h
      rw [hik, h]
      exact List.mem_cons_self _ _
    · simp only [assoc_get, hik, if_false] at h
      exact List.mem_cons_of_mem _ (ih h)

/-! ## Quota accounting -/

theorem live_size_append (l : List (Nat × lv2_memory)) (id : Nat) (m : lv2_memory)
    (c : Option Nat) :
    live_size (l ++ [(id, m)]) c = live_size l c + (if m.ct = c then m.size else 0) := by
  unfold live_size
  by_cases h : m.ct = c
  · simp [List.filter_append, List.filter_cons, h]
  · simp [List.filter_append, List.filter_cons, h]

theorem live_size_erase (l : List (Nat × lv2_memory)) (id : Nat) (m : lv2_memory)
    (c : Option Nat) (h : assoc_get l id = some m) :
    live_size l c = live_size (assoc_erase l id) c + (if m.ct = c then m.size else 0) := by
  induction l with
  | nil => simp [assoc_get] at h
  | cons x xs ih =>
    obtain ⟨i, v⟩ := x
    by_cases hik : i = id
    · simp only [assoc_get, hik, if_true, Option.some.injEq] at h
      subst h
      by_cases hc : v.ct = c
      · simp [assoc_erase, hik, live_size, List.filter_cons, hc]; omega
      · simp [assoc_erase, hik, live_size, List.filter_cons, hc]
    · simp only [assoc_get, hik, if_false] at h
      have ih1 := ih h
      unfold live_size at ih1 ⊢
      by_cases hc : v.ct = c
      · simp only [assoc_erase, hik, if_false, List.filter_cons, hc, decide_True, if_true,
          List.map_cons, List.sum_cons]
        omega
      · simp only [assoc_erase, hik, if_false, List.filter_cons, hc, decide_False]
        simpa using ih1

theorem ct_get_modify (s : State) (c d : Option Nat)
    (f : lv2_memory_container → lv2_memory_container) :
    ct_get (ct_modify s c f) d = if c = d then (ct_get s d).map f else ct_get s d := by
  cases c with
  | none =>
    cases d with
    | none => simp [ct_modify, ct_get]
    | some j => simp [ct_modify, ct_get]
  | some k =>
    cases d with
    | none => simp [ct_modify, ct_get]
    | some j => simp [ct_modify, ct_get, assoc_get_modify]

theorem quota_inv_allocate_shared_memory (K : sys_memory) (T : Nat) (c : Option Nat)
    (s : State) (unk size flags : Nat) (h : quota_inv T c s) :
    quota_inv T c (sys_mmapper_allocate_shared_memory K s unk size flags).1 := by
  obtain ⟨ct, hget, htot, hused, hle⟩ := h
  unfold sys_mmapper_allocate_shared_memory
  simp only
  split
  · exact ⟨ct, hget, htot, hused, hle⟩
  · unfold lv2_memory_container.take
    by_cases hq : s.dct.used + size ≤ s.dct.total
    · simp only [hq, if_true, idm_make]
      cases c with
      | none =>
        simp only [ct_get, Option.some.injEq] at hget
        subst hget
        refine ⟨_, rfl, htot, ?_, ?_⟩
        · simp only [live_size_append, if_true]
          omega
        · simp only; omega
      | some j =>
        refine ⟨ct, hget, htot, ?_, hle⟩
        simp only [live_size_append]
        simpa using hused
    · simp only [hq, if_false]
      exact ⟨ct, hget, htot, hused, hle⟩

theorem quota_inv_allocate_from_container (K : sys_memory) (T : Nat) (c : Option Nat)
    (s : State) (unk size cid flags : Nat) (h : quota_inv T c s) :
    quota_inv T c (sys_mmapper_allocate_shared_memory_from_container K s unk size cid flags).1 := by
  obtain ⟨ct, hget, htot, hused, hle⟩ := h
  unfold sys_mmapper_allocate_shared_memory_from_container
  simp only
  split
  · exact ⟨ct, hget, htot, hused, hle⟩
  · unfold idm_get
    cases hcid : assoc_get s.cts cid with
    | none => exact ⟨ct, hget, htot, hused, hle⟩
    | some ct0 =>
      simp only
      unfold lv2_memory_container.take
      by_cases hq : ct0.used + size ≤ ct0.total
      · simp only [hq, if_true, idm_make]
        cases c with
        | none =>
          refine ⟨ct, hget, htot, ?_, hle⟩
          simp only [live_size_append]
          simpa using hused
        | some j =>
          by_cases hj : cid = j
          · subst hj
            simp only [ct_get] at hget
            rw [hcid] at hget
            simp only [Option.some.injEq] at hget
            subst hget
            refine ⟨{ ct0 with used := ct0.used + size }, ?_, htot, ?_, ?_⟩
            · simp [ct_get, assoc_get_modify, hcid, hq]
            · simp only [live_size_append, if_true]
              omega
            · simp only; omega
          · refine ⟨ct, ?_, htot, ?_, hle⟩
            · simpa [ct_get, assoc_get_modify, hj] using hget
            · simp only [live_size_append]
              have : ¬ (some cid = some j) := by simpa using hj
              simpa [this] using hused
      · simp only [hq, if_false]
        have hsame : assoc_modify s.cts cid (fun y =>
            (match (if y.used + size ≤ y.total then
                some { y with used := y.used + size } else none : Option lv2_memory_container) with
              | none => (y, some CELL_ENOMEM)
              | some ct1 => (ct1, none)).1) = s.cts := by
          apply assoc_modify_eq_self
          intro v hv
          rw [hcid] at hv
          simp only [Option.some.injEq] at hv
          subst hv
          simp [hq]
        rw [hsame]
        exact ⟨ct, hget, htot, hused, hle⟩

theorem ct_modify_mems (s : State) (c : Option Nat)
    (f : lv2_memory_container → lv2_memory_container) : (ct_modify s c f).mems = s.mems := by
  cases c <;> rfl

theorem u64_sub_eq (a b : Nat) (ha : a < 2 ^ 64) (hb : b ≤ a) :
    (a + (2 ^ 64 - b % 2 ^ 64)) % 2 ^ 64 = a - b := by
  omega

theorem quota_inv_free_shared_memory (T : Nat) (hT : T < 2 ^ 64) (c : Option Nat)
    (s : State) (mem_id : Nat) (h : quota_inv T c s) :
    quota_inv T c (sys_mmapper_free_shared_memory s mem_id).1 := by
  obtain ⟨ct, hget, htot, hused, hle⟩ := h
  unfold sys_mmapper_free_shared_memory idm_withdraw
  cases hm : assoc_get s.mems mem_id with
  | none => exact ⟨ct, hget, htot, hused, hle⟩
  | some m =>
    by_cases hc : m.counter = 0
    · simp only [hc, ne_eq, not_true_eq_false, if_false]
      have hsz := live_size_erase s.mems mem_id m c hm
      have hget1 : ct_get { s with mems := assoc_erase s.mems mem_id } c = some ct := by
        cases c <;> exact hget
      by_cases hmc : m.ct = c
      · simp only [hmc, if_true] at hsz
        have h1 : m.size ≤ ct.used := by omega
        have h3 := u64_sub_eq ct.used m.size (by omega) h1
        refine ⟨{ ct with used := ct.used - m.size }, ?_, htot, ?_, ?_⟩
        · rw [ct_get_modify, if_pos hmc, hget1]
          simp only [Option.map_some', h3]
        · rw [ct_modify_mems]
          simp only; omega
        · simp only; omega
      · simp only [hmc, if_false, Nat.add_zero] at hsz
        refine ⟨ct, ?_, htot, ?_, hle⟩
        · rw [ct_get_modify, if_neg hmc]
          exact hget1
        · rw [ct_modify_mems, hused, hsz]
    · simp only [hc, ne_eq, not_false_eq_true, if_true]
      exact ⟨ct, hget, htot, hused, hle⟩

theorem quota_inv_run_calls (K : sys_memory) (T : Nat) (hT : T < 2 ^ 64) (c : Option Nat)
    (calls : List Call) :
    ∀ s : State, quota_inv T c s → quota_inv T c (run_calls K s calls) := by
  induction calls with
  | nil => intro s h; exact h
  | cons call rest ih =>
    intro s h
    have hstep : quota_inv T c (Call.run K s call) := by
      cases call with
      | allocate_shared_memory unk size flags =>
        exact quota_inv_allocate_shared_memory K T c s unk size flags h
      | allocate_shared_memory_from_container unk size cid flags =>
        exact quota_inv_allocate_from_container K T c s unk size cid flags h
      | free_shared_memory mem_id =>
        exact quota_inv_free_shared_memory T hT c s mem_id h
    exact ih _ hstep

theorem live_size_eq_zero (l : List (Nat × lv2_memory)) (c : Option Nat)
    (h : ∀ e ∈ l, e.2.ct ≠ c) : live_size l c = 0 := by
  unfold live_size
  have : l.filter (fun e => e.2.ct = c) = [] := by
    rw [List.filter_eq_nil_iff]
    intro e he
    simpa using h e he
  simp [this]

/-! ## Lemmas on the mapping counter -/

theorem counter_inc_dec (n : Nat) (h : n < 2 ^ 32) :
    ((n + 1) % 2 ^ 32 + (2 ^ 32 - 1)) % 2 ^ 32 = n := by
  omega

theorem lv2_memory_inc_dec (m : lv2_memory) (h : m.counter < 2 ^ 32) :
    ({ m with counter := ((m.counter + 1) % 2 ^ 32 + (2 ^ 32 - 1)) % 2 ^ 32 } : lv2_memory) = m := by
  rw [counter_inc_dec m.counter h]

theorem map_shared_memory_counter (K : sys_memory)
    (falloc : block_t → Nat → Nat → Nat → Nat → Bool × block_t)
    (s : State) (addr mem_id flags : Nat)
    (hu32 : ∀ m, assoc_get s.mems mem_id = some m → m.counter + 1 < 2 ^ 32) :
    ((sys_mmapper_map_shared_memory K falloc s addr mem_id flags).2 = CELL_OK →
      ∃ m, assoc_get s.mems mem_id = some m ∧
        assoc_get (sys_mmapper_map_shared_memory K falloc s addr mem_id flags).1.mems mem_id
          = some { m with counter := m.counter + 1 }) ∧
    ((sys_mmapper_map_shared_memory K falloc s addr mem_id flags).2 ≠ CELL_OK →
      (sys_mmapper_map_shared_memory K falloc s addr mem_id flags).1.mems = s.mems) ∧
    (∀ id, id ≠ mem_id →
      assoc_get (sys_mmapper_map_shared_memory K falloc s addr mem_id flags).1.mems id
        = assoc_get s.mems id) := by
  unfold sys_mmapper_map_shared_memory idm_get
  cases harea : vm_get s.areas addr with
  | none => simp
  | some area =>
    simp only
    generalize (if area.flags &&& K.SYS_MEMORY_PAGE_SIZE_64K ≠ 0 then 0x10000 else 0x100000) = pa
    by_cases hwin : addr < 0x20000000 ∨ addr ≥ 0xC0000000
    · simp [hwin]
    · simp only [hwin, if_false]
      cases hm : assoc_get s.mems mem_id with
      | none => simp
      | some m =>
        have hc := hu32 m hm
        simp only
        rw [assoc_modify_congr _ _ _ _ hm]
        by_cases h1 : m.align < pa
        · simp only [h1, if_true]
          rw [assoc_modify_const_self _ _ _ hm]
          simp
        · by_cases h2 : addr % pa = 0
          swap
          · simp only [h1, h2, ne_eq, not_false_eq_true, if_true, if_false]
            rw [assoc_modify_const_self _ _ _ hm]
            simp
          · simp only [h1, h2, ne_eq, not_true_eq_false, if_false]
            by_cases hf : (falloc area addr m.size m.shm
                (if m.align = 0x10000 then K.SYS_MEMORY_PAGE_SIZE_64K
                 else K.SYS_MEMORY_PAGE_SIZE_1M)).1 = false
            · rw [if_pos hf]
              rw [assoc_modify_modify]
              simp only [lv2_memory_inc_dec m (by omega)]
              rw [assoc_modify_const_self _ _ _ hm]
              simp
            · rw [if_neg hf]
              refine ⟨fun _ => ⟨m, rfl, ?_⟩, fun h => absurd rfl h, ?_⟩
              · rw [assoc_get_modify, if_pos rfl, hm]
                simp only [Option.map_some']
                rw [Nat.mod_eq_of_lt hc]
              · intro id hid
                rw [assoc_get_modify, if_neg (fun e => hid e.symm)]

theorem search_and_map_counter (K : sys_memory)
    (alloc : block_t → Nat → Nat → Nat → Nat → Nat × block_t)
    (s : State) (start_addr mem_id flags : Nat)
    (hu32 : ∀ m, assoc_get s.mems mem_id = some m → m.counter + 1 < 2 ^ 32) :
    ((sys_mmapper_search_and_map K alloc s start_addr mem_id flags).2.1 = CELL_OK →
      ∃ m, assoc_get s.mems mem_id = some m ∧
        assoc_get (sys_mmapper_search_and_map K alloc s start_addr mem_id flags).1.mems mem_id
          = some { m with counter := m.counter + 1 }) ∧
    ((sys_mmapper_search_and_map K alloc s start_addr mem_id flags).2.1 ≠ CELL_OK →
      (sys_mmapper_search_and_map K alloc s start_addr mem_id flags).1.mems = s.mems) ∧
    (∀ id, id ≠ mem_id →
      assoc_get (sys_mmapper_search_and_map K alloc s start_addr mem_id flags).1.mems id
        = assoc_get s.mems id) := by
  unfold sys_mmapper_search_and_map idm_get
  cases harea : vm_get s.areas start_addr with
  | none => simp
  | some area =>
    simp only
    by_cases hwin : start_addr < 0x20000000 ∨ start_addr ≥ 0xC0000000
    · simp [hwin]
    · simp only [hwin, if_false]
      cases hm : assoc_get s.mems mem_id with
      | none => simp
      | some m =>
        have hc := hu32 m hm
        simp only
        rw [assoc_modify_congr _ _ _ _ hm]
        by_cases hf : (alloc area m.size m.align m.shm
            (if m.align = 0x10000 then K.SYS_MEMORY_PAGE_SIZE_64K
             else K.SYS_MEMORY_PAGE_SIZE_1M)).1 = 0
        · rw [if_pos hf]
          rw [assoc_modify_modify]
          simp only [lv2_memory_inc_dec m (by omega)]
          rw [assoc_modify_const_self _ _ _ hm]
          simp
        · rw [if_neg hf]
          refine ⟨fun _ => ⟨m, rfl, ?_⟩, fun h => absurd rfl h, ?_⟩
          · rw [assoc_get_modify, if_pos rfl, hm]
            simp only [Option.map_some']
            rw [Nat.mod_eq_of_lt hc]
          · intro id hid
            rw [assoc_get_modify, if_neg (fun e => hid e.symm)]

/-! ## Lemmas on the area table and the guard of `sys_mmapper_free_address` -/

theorem areas_wf_cons (b : block_t) (bs : List block_t) (h : areas_wf (b :: bs)) :
    0 < b.size ∧ (∀ c ∈ bs, 0 < c.size ∧ ¬ overlap b c) ∧ areas_wf bs := by
  obtain ⟨hsz, hpw⟩ := h
  rw [List.pairwise_cons] at hpw
  refine ⟨hsz b (List.mem_cons_self _ _), ?_, ?_, hpw.2⟩
  · intro c hc
    exact ⟨hsz c (List.mem_cons_of_mem _ hc), hpw.1 c hc⟩
  · intro c hc
    exact hsz c (List.mem_cons_of_mem _ hc)

theorem vm_get_none_of_disjoint (bs : List block_t) (a : block_t) (ha : 0 < a.size)
    (h : ∀ c ∈ bs, 0 < c.size ∧ ¬ overlap a c) : vm_get bs a.addr = none := by
  induction bs with
  | nil => rfl
  | cons b bs ih =>
    have hb := h b (List.mem_cons_self _ _)
    have hcov : ¬ (b.addr ≤ a.addr ∧ a.addr < b.addr + b.size) := by
      intro hc
      apply hb.2
      unfold overlap
      omega
    simp only [vm_get, hcov, if_false]
    exact ih (fun c hc => h c (List.mem_cons_of_mem _ hc))

theorem vm_get_of_mem (areas : List block_t) (hwf : areas_wf areas) (a : block_t)
    (ha : a ∈ areas) : vm_get areas a.addr = some a := by
  induction areas with
  | nil => simp at ha
  | cons b bs ih =>
    obtain ⟨hb, hbs, hwf1⟩ := areas_wf_cons b bs hwf
    rcases List.mem_cons.mp ha with hab | hmem
    · subst hab
      have : a.addr ≤ a.addr ∧ a.addr < a.addr + a.size := by omega
      simp only [vm_get, this, and_self, if_true]
    · have hc := hbs a hmem
      have hcov : ¬ (b.addr ≤ a.addr ∧ a.addr < b.addr + b.size) := by
        intro hc1
        apply hc.2
        unfold overlap
        omega
      simp only [vm_get, hcov, if_false]
      exact ih hwf1 hmem

theorem find_base_of_mem (areas : List block_t) (hwf : areas_wf areas) (a : block_t)
    (ha : a ∈ areas) : areas.find? (fun b => b.addr = a.addr) = some a := by
  induction areas with
  | nil => simp at ha
  | cons b bs ih =>
    obtain ⟨hb, hbs, hwf1⟩ := areas_wf_cons b bs hwf
    rcases List.mem_cons.mp ha with hab | hmem
    · subst hab
      simp [List.find?]
    · have hc := hbs a hmem
      have hne : ¬ b.addr = a.addr := by
        intro he
        apply hc.2
        unfold overlap
        omega
      simp only [List.find?, hne, decide_False]
      exact ih hwf1 hmem

theorem vm_get_eraseP_base (areas : List block_t) (hwf : areas_wf areas) (a : block_t)
    (ha : a ∈ areas) : vm_get (areas.eraseP (fun b => b.addr = a.addr)) a.addr = none := by
  induction areas with
  | nil => simp at ha
  | cons b bs ih =>
    obtain ⟨hb, hbs, hwf1⟩ := areas_wf_cons b bs hwf
    rcases List.mem_cons.mp ha with hab | hmem
    · subst hab
      simp only [List.eraseP_cons, decide_True, cond_true]
      exact vm_get_none_of_disjoint bs a hb hbs
    · have hc := hbs a hmem
      have hne : ¬ b.addr = a.addr := by
        intro he
        apply hc.2
        unfold overlap
        omega
      have hcov : ¬ (b.addr ≤ a.addr ∧ a.addr < b.addr + b.size) := by
        intro hc1
        apply hc.2
        unfold overlap
        omega
      simp only [List.eraseP_cons, hne, decide_False, cond_false, vm_get, hcov, if_false]
      exact ih hwf1 hmem

/-- The guard of `sys_mmapper_free_address` fires when a pending fault lies in the range. -/
theorem free_address_guard_fires (s : State) (addr : Nat) (area : block_t)
    (hget : vm_get s.areas addr = some area) (hfit : addr + area.size ≤ 2 ^ 32)
    (hpf : ∃ ev ∈ s.pf_events, addr ≤ ev.2 ∧ ev.2 < addr + area.size) :
    (s.pf_events.any (fun ev =>
      match vm_get s.areas addr with
      | some mem =>
        decide (addr ≤ ev.2) && decide (ev.2 ≤ (addr + mem.size + (2 ^ 32 - 1)) % 2 ^ 32)
      | none => false)) = true := by
  obtain ⟨ev, hev, h1, h2⟩ := hpf
  rw [List.any_eq_true]
  refine ⟨ev, hev, ?_⟩
  rw [hget]
  simp only [Bool.and_eq_true, decide_eq_true_eq]
  omega

/-- The guard of `sys_mmapper_free_address` stays silent when no pending fault lies in
the range. -/
theorem free_address_guard_silent (s : State) (addr : Nat) (area : block_t)
    (hget : vm_get s.areas addr = some area) (hsize : 0 < area.size)
    (hpf : ∀ ev ∈ s.pf_events, ¬ (addr ≤ ev.2 ∧ ev.2 < addr + area.size)) :
    (s.pf_events.any (fun ev =>
      match vm_get s.areas addr with
      | some mem =>
        decide (addr ≤ ev.2) && decide (ev.2 ≤ (addr + mem.size + (2 ^ 32 - 1)) % 2 ^ 32)
      | none => false)) = false := by
  rw [List.any_eq_false]
  intro ev hev
  rw [hget]
  have h := hpf ev hev
  simp only [Bool.and_eq_true, decide_eq_true_eq]
  intro hc
  apply h
  have hle : (addr + area.size + (2 ^ 32 - 1)) % 2 ^ 32 ≤ addr + area.size - 1 := by
    omega
  omega

/-! ## Lemmas on `sys_mmapper_free_shared_memory` -/

/-- The result of `sys_mmapper_free_shared_memory` on an object that is not mapped. -/
theorem free_shared_memory_ok (s : State) (mem_id : Nat) (m : lv2_memory)
    (hm : assoc_get s.mems mem_id = some m) (hc : m.counter = 0) :
    sys_mmapper_free_shared_memory s mem_id =
      (ct_modify { s with mems := assoc_erase s.mems mem_id } m.ct
        (fun ct => { ct with used := (ct.used + (2 ^ 64 - m.size % 2 ^ 64)) % 2 ^ 64 }),
        CELL_OK) := by
  unfold sys_mmapper_free_shared_memory idm_withdraw
  rw [hm]
  simp only [hc, ne_eq, not_true_eq_false, if_false]

/-- The result of `sys_mmapper_free_shared_memory` on an object that is mapped. -/
theorem free_shared_memory_busy (s : State) (mem_id : Nat) (m : lv2_memory)
    (hm : assoc_get s.mems mem_id = some m) (hc : m.counter ≠ 0) :
    sys_mmapper_free_shared_memory s mem_id = (s, CELL_EBUSY) := by
  unfold sys_mmapper_free_shared_memory idm_withdraw
  rw [hm]
  simp only [hc, ne_eq, not_false_eq_true, if_true]

/-! ## Claims -/

/-- C1 (quota conservation).  Take a container `c` (the default container or a container
of the object directory) whose `used` is 0, whose budget `total` is a `u64`, and that owns
no live object.  After every finite sequence of `sys_mmapper_allocate_shared_memory`,
`sys_mmapper_allocate_shared_memory_from_container` and `sys_mmapper_free_shared_memory`
calls, successful or failing, the container still exists with the same budget, its `used`
equals the sum of the sizes of the live `lv2_memory` objects it owns, and
`used <= total`. -/
theorem C1_quota_conservation (K : sys_memory) (s0 : State) (c : Option Nat)
    (ct0 : lv2_memory_container) (h0 : ct_get s0 c = some ct0) (hused : ct0.used = 0)
    (htotal : ct0.total < 2 ^ 64) (hlive : ∀ e ∈ s0.mems, e.2.ct ≠ c) (calls : List Call) :
    ∃ ct, ct_get (run_calls K s0 calls) c = some ct ∧ ct.total = ct0.total ∧
      ct.used = live_size (run_calls K s0 calls).mems c ∧ ct.used ≤ ct.total := by
  have hinit : quota_inv ct0.total c s0 :=
    ⟨ct0, h0, rfl, by rw [hused, live_size_eq_zero s0.mems c hlive], by omega⟩
  obtain ⟨ct, h1, h2, h3, h4⟩ := quota_inv_run_calls K ct0.total htotal c calls s0 hinit
  exact ⟨ct, h1, h2, h3, by omega⟩

/-- Witness of C1 on the example state and sequence, for the default container: the
sequence ends with one live object of 2 MiB owned by it. -/
theorem C1_quota_conservation_witness :
    ct_get quota_state none = some { total := 0x300000, used := 0 } ∧
    live_size (run_calls K0 quota_state quota_calls).mems none = 0x200000 ∧
    ∃ ct, ct_get (run_calls K0 quota_state quota_calls) none = some ct ∧
      ct.total = 0x300000 ∧
      ct.used = live_size (run_calls K0 quota_state quota_calls).mems none ∧
      ct.used ≤ ct.total :=
  ⟨rfl, by decide,
    C1_quota_conservation K0 quota_state none { total := 0x300000, used := 0 } rfl rfl
      (by decide) (by decide) quota_calls⟩

/-- C2 (mapping-counter exactness).  For every call of `sys_mmapper_map_shared_memory`
and of `sys_mmapper_search_and_map`, whatever `falloc` and `alloc` do, on a target object
whose `u32` counter is not saturated (`counter + 1 < 2 ^ 32`): when the call returns
`CELL_OK` the target object is unchanged except that its `counter` is exactly one greater;
on every other return (`CELL_EINVAL`, `CELL_EALIGN`, `CELL_ESRCH`, `CELL_EBUSY`,
`CELL_ENOMEM`), also when the attach itself fails, the object directory is exactly what it
was; and no other object changes in either case. -/
theorem C2_mapping_counter_exact (K : sys_memory)
    (falloc : block_t → Nat → Nat → Nat → Nat → Bool × block_t)
    (alloc : block_t → Nat → Nat → Nat → Nat → Nat × block_t)
    (s : State) (addr mem_id flags : Nat)
    (hu32 : ∀ m, assoc_get s.mems mem_id = some m → m.counter + 1 < 2 ^ 32) :
    (((sys_mmapper_map_shared_memory K falloc s addr mem_id flags).2 = CELL_OK →
        ∃ m, assoc_get s.mems mem_id = some m ∧
          assoc_get (sys_mmapper_map_shared_memory K falloc s addr mem_id flags).1.mems mem_id
            = some { m with counter := m.counter + 1 }) ∧
      ((sys_mmapper_map_shared_memory K falloc s addr mem_id flags).2 ≠ CELL_OK →
        (sys_mmapper_map_shared_memory K falloc s addr mem_id flags).1.mems = s.mems) ∧
      (∀ id, id ≠ mem_id →
        assoc_get (sys_mmapper_map_shared_memory K falloc s addr mem_id flags).1.mems id
          = assoc_get s.mems id)) ∧
    (((sys_mmapper_search_and_map K alloc s addr mem_id flags).2.1 = CELL_OK →
        ∃ m, assoc_get s.mems mem_id = some m ∧
          assoc_get (sys_mmapper_search_and_map K alloc s addr mem_id flags).1.mems mem_id
            = some { m with counter := m.counter + 1 }) ∧
      ((sys_mmapper_search_and_map K alloc s addr mem_id flags).2.1 ≠ CELL_OK →
        (sys_mmapper_search_and_map K alloc s addr mem_id flags).1.mems = s.mems) ∧
      (∀ id, id ≠ mem_id →
        assoc_get (sys_mmapper_search_and_map K alloc s addr mem_id flags).1.mems id
          = assoc_get s.mems id)) :=
  ⟨map_shared_memory_counter K falloc s addr mem_id flags hu32,
    search_and_map_counter K alloc s addr mem_id flags hu32⟩

/-- Witness of C2 on the example state: a map whose attach fails returns `CELL_EBUSY` and
leaves the directory as it was, and a search-and-map that finds 0x30000000 returns
`CELL_OK` with the counter of object 1 going from 2 to 3. -/
theorem C2_mapping_counter_exact_witness :
    (∀ m, assoc_get map_state.mems 1 = some m → m.counter + 1 < 2 ^ 32) ∧
    (sys_mmapper_map_shared_memory K0 (fun b _ _ _ _ => (false, b)) map_state
        0x30000000 1 0).2 = CELL_EBUSY ∧
    (sys_mmapper_map_shared_memory K0 (fun b _ _ _ _ => (false, b)) map_state
        0x30000000 1 0).1.mems = map_state.mems ∧
    (sys_mmapper_search_and_map K0 (fun b _ _ _ _ => (0x30000000, b)) map_state
        0x30000000 1 0).2.1 = CELL_OK ∧
    ∃ m, assoc_get map_state.mems 1 = some m ∧
      assoc_get (sys_mmapper_search_and_map K0 (fun b _ _ _ _ => (0x30000000, b)) map_state
        0x30000000 1 0).1.mems 1 = some { m with counter := m.counter + 1 } :=
  have hu32 : ∀ m, assoc_get map_state.mems 1 = some m → m.counter + 1 < 2 ^ 32 := by
    intro m hm
    have : m = { size := 0x100000, align := 0x100000, flags := 0x400, ct := none, shm := 1,
                 counter := 2 } := by
      simpa [map_state, assoc_get] using hm.symm
    subst this
    decide
  have h := C2_mapping_counter_exact K0 (fun b _ _ _ _ => (false, b))
    (fun b _ _ _ _ => (0x30000000, b)) map_state 0x30000000 1 0 hu32
  ⟨hu32, by decide, h.1.2.1 (by decide), by decide, h.2.1 (by decide)⟩

/-- C3 (free-guard).  Let `vm::get` find the area `area` for `addr` (in particular when
`addr` is its base), with `addr` inside the user window [0x20000000, 0xC0000000) and the
range [addr, addr + size) inside the 32-bit address space.  If the pending-fault table
holds an entry whose fault address lies in [addr, addr + size), then
`sys_mmapper_free_address(addr)` returns `CELL_EBUSY` and the whole state (area table,
pending-fault table, subscription table) is unchanged. -/
theorem C3_free_guard (s : State) (addr : Nat) (area : block_t)
    (hget : vm_get s.areas addr = some area)
    (hwin : 0x20000000 ≤ addr ∧ addr < 0xC0000000)
    (hfit : addr + area.size ≤ 2 ^ 32)
    (hpf : ∃ ev ∈ s.pf_events, addr ≤ ev.2 ∧ ev.2 < addr + area.size) :
    sys_mmapper_free_address s addr = (s, CELL_EBUSY) := by
  have hw : ¬ (addr < 0x20000000 ∨ addr ≥ 0xC0000000) := by omega
  unfold sys_mmapper_free_address
  rw [if_neg hw, if_pos (free_address_guard_fires s addr area hget hfit hpf)]

/-- Witness of C3 on the example state: thread 5 is faulted at 0x30001000, inside the
area at 0x30000000. -/
theorem C3_free_guard_witness :
    vm_get fault_state.areas 0x30000000 = some area_3 ∧
    (∃ ev ∈ fault_state.pf_events, 0x30000000 ≤ ev.2 ∧ ev.2 < 0x30000000 + 0x10000000) ∧
    sys_mmapper_free_address fault_state 0x30000000 = (fault_state, CELL_EBUSY) :=
  ⟨by decide, ⟨(5, 0x30001000), by decide, by decide, by decide⟩,
    C3_free_guard fault_state 0x30000000
      area_3
      (by decide) (by decide) (by decide)
      ⟨(5, 0x30001000), by decide, by decide, by decide⟩⟩

/-- C4 (free after recover).  In an area table that satisfies the invariant of the spec,
take an area at `base` inside the user window and the 32-bit address space whose
reference count is one, and a pending-fault table (one entry per thread) in which the
fault of thread `t` at `A`, with `A` in [base, base + size), is the only fault inside the
area.  Then `sys_mmapper_free_address(base)` returns `CELL_EBUSY`,
`mmapper_thread_recover_page_fault(t)` returns `CELL_OK`, and after it the same call
`sys_mmapper_free_address(base)` returns `CELL_OK`. -/
theorem C4_free_after_recover (s : State) (base t A : Nat) (area : block_t)
    (hwf : areas_wf s.areas) (hmem : area ∈ s.areas) (hbase : area.addr = base)
    (hwin : 0x20000000 ≤ base ∧ base < 0xC0000000)
    (hfit : base + area.size ≤ 2 ^ 32)
    (hcount : area.use_count = 1)
    (hkeys : (assoc_keys s.pf_events).Nodup)
    (hfault : assoc_get s.pf_events t = some A)
    (hin : base ≤ A ∧ A < base + area.size)
    (honly : ∀ ev ∈ s.pf_events, base ≤ ev.2 ∧ ev.2 < base + area.size → ev.1 = t) :
    (sys_mmapper_free_address s base).2 = CELL_EBUSY ∧
    (mmapper_thread_recover_page_fault s t).2 = CELL_OK ∧
    (sys_mmapper_free_address (mmapper_thread_recover_page_fault s t).1 base).2 = CELL_OK := by
  subst hbase
  have hw : ¬ (area.addr < 0x20000000 ∨ area.addr ≥ 0xC0000000) := by omega
  have hget := vm_get_of_mem s.areas hwf area hmem
  have hfind := find_base_of_mem s.areas hwf area hmem
  have hsize : 0 < area.size := hwf.1 area hmem
  refine ⟨?_, ?_, ?_⟩
  · unfold sys_mmapper_free_address
    rw [if_neg hw, if_pos (free_address_guard_fires s area.addr area hget hfit
      ⟨(t, A), mem_of_assoc_get _ _ _ hfault, hin.1, hin.2⟩)]
  · unfold mmapper_thread_recover_page_fault
    rw [hfault]
  · unfold mmapper_thread_recover_page_fault
    rw [hfault]
    simp only
    unfold sys_mmapper_free_address
    rw [if_neg hw]
    have hsilent := free_address_guard_silent
      { s with pf_events := assoc_erase s.pf_events t } area.addr area hget hsize
      (by
        intro ev hev hrange
        exact key_ne_of_mem_assoc_erase s.pf_events t ev hkeys hev
          (honly ev (mem_of_mem_assoc_erase s.pf_events t ev hev) hrange))
    rw [if_neg (by rw [hsilent]; simp)]
    simp only [vm_unmap, hfind, hcount, if_true, ne_eq, not_true_eq_false, if_false]

/-- Witness of C4 on the example state: the area at 0x30000000 and thread 5. -/
theorem C4_free_after_recover_witness :
    areas_wf fault_state.areas ∧
    assoc_get fault_state.pf_events 5 = some 0x30001000 ∧
    (sys_mmapper_free_address fault_state 0x30000000).2 = CELL_EBUSY ∧
    (mmapper_thread_recover_page_fault fault_state 5).2 = CELL_OK ∧
    (sys_mmapper_free_address (mmapper_thread_recover_page_fault fault_state 5).1
      0x30000000).2 = CELL_OK :=
  ⟨by decide, by decide,
    C4_free_after_recover fault_state 0x30000000 5 0x30001000
      area_3
      (by decide) (by decide) rfl (by decide) (by decide) rfl (by decide) (by decide)
      (by decide) (by decide)⟩

/-- C5 (unmap safety).  In an area table that satisfies the invariant of the spec, take an
area with base `addr` inside the user window and no pending fault inside it.  If its
reference count is greater than one, `sys_mmapper_free_address(addr)` returns `CELL_EBUSY`
and leaves the whole state as it was, so that `vm::get` still returns the area and the
subscription table is untouched.  If its reference count is exactly one, the call returns
`CELL_OK` and `vm::get` finds no area for `addr` afterwards. -/
theorem C5_unmap_safety (s : State) (addr : Nat) (area : block_t)
    (hwf : areas_wf s.areas) (hmem : area ∈ s.areas) (hbase : area.addr = addr)
    (hwin : 0x20000000 ≤ addr ∧ addr < 0xC0000000)
    (hpf : ∀ ev ∈ s.pf_events, ¬ (addr ≤ ev.2 ∧ ev.2 < addr + area.size)) :
    (1 < area.use_count →
      sys_mmapper_free_address s addr = (s, CELL_EBUSY) ∧
      vm_get (sys_mmapper_free_address s addr).1.areas addr = some area) ∧
    (area.use_count = 1 →
      (sys_mmapper_free_address s addr).2 = CELL_OK ∧
      vm_get (sys_mmapper_free_address s addr).1.areas addr = none) := by
  subst hbase
  have hw : ¬ (area.addr < 0x20000000 ∨ area.addr ≥ 0xC0000000) := by omega
  have hget := vm_get_of_mem s.areas hwf area hmem
  have hfind := find_base_of_mem s.areas hwf area hmem
  have hsize : 0 < area.size := hwf.1 area hmem
  have hsilent := free_address_guard_silent s area.addr area hget hsize hpf
  have hguard : ¬ ((s.pf_events.any (fun ev =>
      match vm_get s.areas area.addr with
      | some mem =>
        decide (area.addr ≤ ev.2) &&
          decide (ev.2 ≤ (area.addr + mem.size + (2 ^ 32 - 1)) % 2 ^ 32)
      | none => false)) = true) := by
    rw [hsilent]; simp
  constructor
  · intro hcount
    have h1 : ¬ area.use_count = 1 := by omega
    have h2 : area.use_count + 1 ≠ 1 := by omega
    have hres : sys_mmapper_free_address s area.addr = (s, CELL_EBUSY) := by
      unfold sys_mmapper_free_address
      rw [if_neg hw, if_neg hguard]
      simp only [vm_unmap, hfind, h1, if_false, h2, ne_eq, not_false_eq_true, if_true]
    rw [hres]
    exact ⟨rfl, hget⟩
  · intro hcount
    unfold sys_mmapper_free_address
    rw [if_neg hw, if_neg hguard]
    simp only [vm_unmap, hfind, hcount, if_true, ne_eq, not_true_eq_false, if_false]
    exact ⟨trivial, vm_get_eraseP_base s.areas hwf area hmem⟩

/-- Witness of C5 on the example state: the area at 0x50000000 has two owners and stays,
the area at 0x30000000 has one and goes. -/
theorem C5_unmap_safety_witness :
    areas_wf unmap_state.areas ∧
    sys_mmapper_free_address unmap_state 0x50000000 = (unmap_state, CELL_EBUSY) ∧
    (sys_mmapper_free_address unmap_state 0x30000000).2 = CELL_OK ∧
    vm_get (sys_mmapper_free_address unmap_state 0x30000000).1.areas 0x30000000 = none :=
  ⟨by decide,
    ((C5_unmap_safety unmap_state 0x50000000
      area_5
      (by decide) (by decide) rfl (by decide) (by decide)).1 (by decide)).1,
    (C5_unmap_safety unmap_state 0x30000000
      area_3
      (by decide) (by decide) rfl (by decide) (by decide)).2 rfl⟩

/-- C6.  `sys_mmapper_free_shared_memory(mem_id)` on an existing object `m`: if
`m.counter != 0` it returns `CELL_EBUSY` and the whole state is unchanged (the record
stays, `used` is what it was); if `m.counter == 0` it returns `CELL_OK`, the record is
removed from the directory (no record is found under `mem_id` afterwards when ids are
unique), and the `used` of the owning container `ct`, a `u64` that accounts for the
object (`m.size <= ct.used`), decreases by exactly `m.size`. -/
theorem C6_free_shared_memory (s : State) (mem_id : Nat) (m : lv2_memory)
    (hm : assoc_get s.mems mem_id = some m) :
    (m.counter ≠ 0 → sys_mmapper_free_shared_memory s mem_id = (s, CELL_EBUSY)) ∧
    (m.counter = 0 →
      (sys_mmapper_free_shared_memory s mem_id).2 = CELL_OK ∧
      (sys_mmapper_free_shared_memory s mem_id).1.mems = assoc_erase s.mems mem_id ∧
      ((assoc_keys s.mems).Nodup →
        assoc_get (sys_mmapper_free_shared_memory s mem_id).1.mems mem_id = none) ∧
      (∀ ct, ct_get s m.ct = some ct → ct.used < 2 ^ 64 → m.size ≤ ct.used →
        ct_get (sys_mmapper_free_shared_memory s mem_id).1 m.ct =
          some { ct with used := ct.used - m.size })) := by
  refine ⟨free_shared_memory_busy s mem_id m hm, ?_⟩
  intro hc
  rw [free_shared_memory_ok s mem_id m hm hc]
  refine ⟨rfl, ct_modify_mems _ _ _, ?_, ?_⟩
  · intro hkeys
    simp only [ct_modify_mems]
    exact assoc_get_erase_self s.mems mem_id hkeys
  · intro ct hct hlt hle
    simp only
    rw [ct_get_modify, if_pos rfl]
    have hget1 : ct_get { s with mems := assoc_erase s.mems mem_id } m.ct = some ct := by
      cases h : m.ct <;> rw [h] at hct <;> exact hct
    rw [hget1]
    simp only [Option.map_some', u64_sub_eq ct.used m.size hlt hle]

/-- Witness of C6 on the example state: object 1 is mapped, object 2 is not. -/
theorem C6_free_shared_memory_witness :
    sys_mmapper_free_shared_memory free_state 1 = (free_state, CELL_EBUSY) ∧
    (sys_mmapper_free_shared_memory free_state 2).2 = CELL_OK ∧
    assoc_get (sys_mmapper_free_shared_memory free_state 2).1.mems 2 = none ∧
    ct_get (sys_mmapper_free_shared_memory free_state 2).1 none =
      some { total := 0x300000, used := 0x100000 } :=
  have h1 := C6_free_shared_memory free_state 1
    { size := 0x100000, align := 0x100000, flags := 0x400, ct := none, shm := 1, counter := 1 }
    (by decide)
  have h2 := (C6_free_shared_memory free_state 2
    { size := 0x100000, align := 0x100000, flags := 0x400, ct := none, shm := 2, counter := 0 }
    (by decide)).2 rfl
  ⟨h1.1 (by decide), h2.1, h2.2.2.1 (by decide),
    h2.2.2.2 { total := 0x300000, used := 0x200000 } rfl (by decide) (by decide)⟩

/-- C7 (double free).  In a directory with unique ids, for every id whose first
`sys_mmapper_free_shared_memory` call returns `CELL_OK`, an immediately following second
call with the same id returns `CELL_ESRCH` and leaves the whole state, the `used` of every
container included, as the first call left it. -/
theorem C7_double_free (s : State) (mem_id : Nat) (hkeys : (assoc_keys s.mems).Nodup)
    (hfirst : (sys_mmapper_free_shared_memory s mem_id).2 = CELL_OK) :
    sys_mmapper_free_shared_memory (sys_mmapper_free_shared_memory s mem_id).1 mem_id =
      ((sys_mmapper_free_shared_memory s mem_id).1, CELL_ESRCH) := by
  cases hm : assoc_get s.mems mem_id with
  | none =>
    have : sys_mmapper_free_shared_memory s mem_id = (s, CELL_ESRCH) := by
      unfold sys_mmapper_free_shared_memory idm_withdraw
      rw [hm]
    rw [this] at hfirst
    exact absurd hfirst (by simp)
  | some m =>
    by_cases hc : m.counter = 0
    · rw [free_shared_memory_ok s mem_id m hm hc]
      simp only
      have hnone : assoc_get (ct_modify { s with mems := assoc_erase s.mems mem_id } m.ct
          (fun ct => { ct with used := (ct.used + (2 ^ 64 - m.size % 2 ^ 64)) % 2 ^ 64 })).mems
          mem_id = none := by
        rw [ct_modify_mems]
        exact assoc_get_erase_self s.mems mem_id hkeys
      unfold sys_mmapper_free_shared_memory idm_withdraw
      rw [hnone]
    · rw [free_shared_memory_busy s mem_id m hm hc] at hfirst
      exact absurd hfirst (by simp)

/-- Witness of C7 on the example state: object 2 is freed twice. -/
theorem C7_double_free_witness :
    (sys_mmapper_free_shared_memory free_state 2).2 = CELL_OK ∧
    sys_mmapper_free_shared_memory (sys_mmapper_free_shared_memory free_state 2).1 2 =
      ((sys_mmapper_free_shared_memory free_state 2).1, CELL_ESRCH) :=
  ⟨by decide, C7_double_free free_state 2 (by decide) (by decide)⟩

/-- C8.  For every size that is not a multiple of 256 MiB (0x10000000), every flags and
alignment value and whatever `vm::find_map` would answer,
`sys_mmapper_allocate_address` returns `CELL_EALIGN`, leaves the state as it was (no area
is searched for or created) and writes nothing through `alloc_addr`. -/
theorem C8_allocate_address_size_align (K : sys_memory)
    (find_map : List block_t → Nat → Nat → Nat → Option (block_t × List block_t))
    (s : State) (size flags alignment : Nat) (hsize : size % 0x10000000 ≠ 0) :
    sys_mmapper_allocate_address K find_map s size flags alignment =
      (s, CELL_EALIGN, none) := by
  unfold sys_mmapper_allocate_address
  rw [if_pos hsize]

/-- Witness of C8 at size = 0x0FFFFFFF, with a `find_map` that would find an area. -/
theorem C8_allocate_address_size_align_witness :
    0x0FFFFFFF % 0x10000000 ≠ 0 ∧
    sys_mmapper_allocate_address K0 find_map_3 quota_state 0x0FFFFFFF 0x400 0x10000000 =
      (quota_state, CELL_EALIGN, none) :=
  ⟨by decide,
    C8_allocate_address_size_align K0 find_map_3 quota_state 0x0FFFFFFF 0x400 0x10000000
      (by decide)⟩

/-- Counterexample to C9 as stated: size = 0x100000001 exceeds 4 GiB, yet the call returns
`CELL_EALIGN`, not `CELL_ENOMEM`, because the test `size % 0x10000000` comes first. -/
theorem C9_counterexample :
    0x100000000 < 0x100000001 ∧
    sys_mmapper_allocate_address K0 find_map_3 quota_state 0x100000001 0x400 0x10000000 =
      (quota_state, CELL_EALIGN, none) ∧
    (sys_mmapper_allocate_address K0 find_map_3 quota_state
      0x100000001 0x400 0x10000000).2.1 ≠ CELL_ENOMEM := by
  decide

/-- C9, amended.  For every size that exceeds 4 GiB, every flags and alignment value and
whatever `vm::find_map` would answer, `sys_mmapper_allocate_address` fails, leaves the
state as it was and writes nothing through `alloc_addr`; the error is `CELL_ENOMEM` when
the size is a multiple of 256 MiB and `CELL_EALIGN` when it is not (as for
size = 0x100000001). -/
theorem C9_allocate_address_above_4GiB (K : sys_memory)
    (find_map : List block_t → Nat → Nat → Nat → Option (block_t × List block_t))
    (s : State) (size flags alignment : Nat) (hsize : 0x100000000 < size) :
    sys_mmapper_allocate_address K find_map s size flags alignment =
      (s, if size % 0x10000000 = 0 then CELL_ENOMEM else CELL_EALIGN, none) := by
  unfold sys_mmapper_allocate_address UINT32_MAX
  by_cases h : size % 0x10000000 = 0
  · have h2 : size > 0xFFFFFFFF := by omega
    simp only [h, ne_eq, not_true_eq_false, if_false, h2, if_true]
  · simp only [h, ne_eq, not_false_eq_true, if_true, if_false]

/-- Witness of C9, amended, at size = 0x110000000, a multiple of 256 MiB. -/
theorem C9_allocate_address_above_4GiB_witness :
    0x100000000 < 0x110000000 ∧
    sys_mmapper_allocate_address K0 find_map_3 quota_state 0x110000000 0x400 0x10000000 =
      (quota_state, CELL_ENOMEM, none) :=
  ⟨by decide,
    C9_allocate_address_above_4GiB K0 find_map_3 quota_state 0x110000000 0x400 0x10000000
      (by decide)⟩

/-- Counterexample to C10 as stated: size = 0x100000000 is a multiple of 256 MiB and is
not greater than 4 GiB, the alignment is allowed and `find_map` finds an area for every
request, yet the call returns `CELL_ENOMEM` and leaves the area table as it was: the size
is rejected by the test `size > UINT32_MAX`. -/
theorem C10_counterexample :
    0x100000000 % 0x10000000 = 0 ∧ 0x100000000 ≤ 0x100000000 ∧
    (find_map_3 quota_state.areas (0x100000000 % 2 ^ 32) 0x10000000
      (0x400 &&& K0.SYS_MEMORY_PAGE_SIZE_MASK)).isSome = true ∧
    sys_mmapper_allocate_address K0 find_map_3 quota_state 0x100000000 0x400 0x10000000 =
      (quota_state, CELL_ENOMEM, none) := by
  decide

/-- C10, amended.  Size acceptance of `sys_mmapper_allocate_address` is exactly "size is
a multiple of 256 MiB and size <= UINT32_MAX", that is size <= 0xF0000000.  For every
allowed alignment (0 stands for 0x10000000): such a size passes size validation, the
answer of `vm::find_map` for the size, the alignment and the masked flags decides the
result, and the call returns `CELL_OK` with the base of the area found whenever
`vm::find_map` finds one; every other size, 0x100000000 included, is rejected without a
search, with `CELL_EALIGN` when it is not a multiple of 256 MiB and `CELL_ENOMEM` when it
is. -/
theorem C10_allocate_address_size_acceptance (K : sys_memory)
    (find_map : List block_t → Nat → Nat → Nat → Option (block_t × List block_t))
    (s : State) (size flags alignment : Nat)
    (halign : alignment = 0 ∨ alignment = 0x10000000 ∨ alignment = 0x20000000 ∨
      alignment = 0x40000000 ∨ alignment = 0x80000000) :
    (size % 0x10000000 = 0 ∧ size ≤ UINT32_MAX →
      sys_mmapper_allocate_address K find_map s size flags alignment =
        match find_map s.areas size (if alignment = 0 then 0x10000000 else alignment)
            (flags &&& K.SYS_MEMORY_PAGE_SIZE_MASK) with
        | some (area, areas1) => ({ s with areas := areas1 }, CELL_OK, some area.addr)
        | none => (s, CELL_ENOMEM, none)) ∧
    (¬ (size % 0x10000000 = 0 ∧ size ≤ UINT32_MAX) →
      sys_mmapper_allocate_address K find_map s size flags alignment =
        (s, if size % 0x10000000 = 0 then CELL_ENOMEM else CELL_EALIGN, none)) ∧
    ((sys_mmapper_allocate_address K find_map s size flags alignment).2.1 = CELL_OK ↔
      size % 0x10000000 = 0 ∧ size ≤ UINT32_MAX ∧
        (find_map s.areas size (if alignment = 0 then 0x10000000 else alignment)
          (flags &&& K.SYS_MEMORY_PAGE_SIZE_MASK)).isSome = true) := by
  have hcore : size % 0x10000000 = 0 ∧ size ≤ UINT32_MAX →
      sys_mmapper_allocate_address K find_map s size flags alignment =
        match find_map s.areas size (if alignment = 0 then 0x10000000 else alignment)
            (flags &&& K.SYS_MEMORY_PAGE_SIZE_MASK) with
        | some (area, areas1) => ({ s with areas := areas1 }, CELL_OK, some area.addr)
        | none => (s, CELL_ENOMEM, none) := by
    rintro ⟨h1, h2⟩
    have h3 : ¬ size > UINT32_MAX := by omega
    have h4 : size % 2 ^ 32 = size := Nat.mod_eq_of_lt (by unfold UINT32_MAX at h2; omega)
    have h5 : (if alignment = 0 then 0x10000000 else alignment) % 2 ^ 32 =
        (if alignment = 0 then 0x10000000 else alignment) := by
      rcases halign with h | h | h | h | h <;> subst h <;> decide
    have h6 : (if alignment = 0 then 0x10000000 else alignment) = 0x10000000 ∨
        (if alignment = 0 then 0x10000000 else alignment) = 0x20000000 ∨
        (if alignment = 0 then 0x10000000 else alignment) = 0x40000000 ∨
        (if alignment = 0 then 0x10000000 else alignment) = 0x80000000 := by
      rcases halign with h | h | h | h | h <;> subst h <;> decide
    unfold sys_mmapper_allocate_address
    simp only [h1, ne_eq, not_true_eq_false, if_false, h3]
    rw [if_pos h6, h4, h5]
  have hrej : ¬ (size % 0x10000000 = 0 ∧ size ≤ UINT32_MAX) →
      sys_mmapper_allocate_address K find_map s size flags alignment =
        (s, if size % 0x10000000 = 0 then CELL_ENOMEM else CELL_EALIGN, none) := by
    intro h
    unfold sys_mmapper_allocate_address
    by_cases h1 : size % 0x10000000 = 0
    · have h2 : size > UINT32_MAX := by
        by_contra h3
        exact h ⟨h1, by omega⟩
      simp only [h1, ne_eq, not_true_eq_false, if_false, h2, if_true]
    · simp only [h1, ne_eq, not_false_eq_true, if_true, if_false]
  refine ⟨hcore, hrej, ?_⟩
  by_cases hacc : size % 0x10000000 = 0 ∧ size ≤ UINT32_MAX
  · rw [hcore hacc]
    cases hfm : find_map s.areas size (if alignment = 0 then 0x10000000 else alignment)
        (flags &&& K.SYS_MEMORY_PAGE_SIZE_MASK) with
    | none => simp
    | some r => simp [hacc.1, hacc.2]
  · rw [hrej hacc]
    constructor
    · intro h
      by_cases h1 : size % 0x10000000 = 0
      · simp [h1] at h
      · simp [h1] at h
    · intro h
      exact absurd ⟨h.1, h.2.1⟩ hacc

/-- Witness of C10, amended, at size = 0x10000000 with alignment 0: `find_map` finds the
area at 0x30000000 and the call returns `CELL_OK` with that address. -/
theorem C10_allocate_address_size_acceptance_witness :
    (0x10000000 % 0x10000000 = 0 ∧ 0x10000000 ≤ UINT32_MAX) ∧
    sys_mmapper_allocate_address K0 find_map_3 quota_state 0x10000000 0x400 0 =
      ({ quota_state with areas := [area_3] }, CELL_OK, some 0x30000000) :=
  ⟨by decide,
    ((C10_allocate_address_size_acceptance K0 find_map_3 quota_state 0x10000000 0x400 0
      (Or.inl rfl)).1 (by decide)).trans (by decide)⟩

/-! ## Lemmas on `sys_mmapper_map_shared_memory` -/

/-- The result of `sys_mmapper_map_shared_memory` for an address in a known area of the
user window and an existing object, as a chain of tests. -/
theorem map_shared_memory_eq (K : sys_memory)
    (falloc : block_t → Nat → Nat → Nat → Nat → Bool × block_t)
    (s : State) (addr mem_id flags : Nat) (area : block_t) (m : lv2_memory)
    (hget : vm_get s.areas addr = some area)
    (hwin : ¬ (addr < 0x20000000 ∨ addr ≥ 0xC0000000))
    (hm : assoc_get s.mems mem_id = some m) :
    sys_mmapper_map_shared_memory K falloc s addr mem_id flags =
      if m.align < (if area.flags &&& K.SYS_MEMORY_PAGE_SIZE_64K ≠ 0 then 0x10000
          else 0x100000) then (s, CELL_EINVAL)
      else if addr % (if area.flags &&& K.SYS_MEMORY_PAGE_SIZE_64K ≠ 0 then 0x10000
          else 0x100000) ≠ 0 then (s, CELL_EALIGN)
      else if (falloc area addr m.size m.shm
          (if m.align = 0x10000 then K.SYS_MEMORY_PAGE_SIZE_64K
           else K.SYS_MEMORY_PAGE_SIZE_1M)).1 = false then
        ({ s with
            mems := assoc_modify s.mems mem_id (fun _ =>
              { m with counter := ((m.counter + 1) % 2 ^ 32 + (2 ^ 32 - 1)) % 2 ^ 32 }),
            areas := vm_put s.areas addr (falloc area addr m.size m.shm
              (if m.align = 0x10000 then K.SYS_MEMORY_PAGE_SIZE_64K
               else K.SYS_MEMORY_PAGE_SIZE_1M)).2 }, CELL_EBUSY)
      else
        ({ s with
            mems := assoc_modify s.mems mem_id (fun _ =>
              { m with counter := (m.counter + 1) % 2 ^ 32 }),
            areas := vm_put s.areas addr (falloc area addr m.size m.shm
              (if m.align = 0x10000 then K.SYS_MEMORY_PAGE_SIZE_64K
               else K.SYS_MEMORY_PAGE_SIZE_1M)).2 }, CELL_OK) := by
  unfold sys_mmapper_map_shared_memory idm_get
  rw [hget]
  simp only
  generalize (if area.flags &&& K.SYS_MEMORY_PAGE_SIZE_64K ≠ 0 then 0x10000 else 0x100000) = pa
  rw [if_neg hwin, hm]
  simp only
  rw [assoc_modify_congr _ _ _ _ hm]
  by_cases h1 : m.align < pa
  · simp only [h1, if_true]
    rw [assoc_modify_const_self _ _ _ hm]
  · by_cases h2 : addr % pa = 0
    swap
    · simp only [h1, h2, ne_eq, not_false_eq_true, if_true, if_false]
      rw [assoc_modify_const_self _ _ _ hm]
    · simp only [h1, h2, ne_eq, not_true_eq_false, if_false]
      by_cases hf : (falloc area addr m.size m.shm
          (if m.align = 0x10000 then K.SYS_MEMORY_PAGE_SIZE_64K
           else K.SYS_MEMORY_PAGE_SIZE_1M)).1 = false
      · rw [if_pos hf, if_pos hf, assoc_modify_modify]
      · rw [if_neg hf, if_neg hf]

/-! ## Lemmas on the subscription table -/

/-- The subscription table after `sys_mmapper_free_address`: the first entry for `addr`
is erased when the call returns `CELL_OK`, and nothing changes otherwise. -/
theorem free_address_pf_entries (s : State) (addr : Nat) :
    (sys_mmapper_free_address s addr).1.pf_entries =
      if (sys_mmapper_free_address s addr).2 = CELL_OK then
        s.pf_entries.eraseP (fun e => addr = e.start_addr)
      else s.pf_entries := by
  unfold sys_mmapper_free_address
  split
  · simp
  · split
    · simp
    · split
      · simp
      · split
        · simp
        · simp

theorem eraseP_eq_filter_of_nodup (l : List page_fault_notification_entry) (addr : Nat)
    (h : (l.map (fun e => e.start_addr)).Nodup) :
    l.eraseP (fun e => addr = e.start_addr) =
      l.filter (fun e => decide (e.start_addr ≠ addr)) := by
  induction l with
  | nil => rfl
  | cons x xs ih =>
    simp only [List.map_cons, List.nodup_cons] at h
    by_cases hx : addr = x.start_addr
    · have hnone : ∀ e ∈ xs, e.start_addr ≠ addr := by
        intro e he hea
        apply h.1
        rw [← hx, ← hea]
        exact List.mem_map_of_mem (fun e => e.start_addr) he
      subst hx
      simp only [List.eraseP_cons, decide_True, cond_true, List.filter_cons, ne_eq,
        not_true_eq_false, decide_False, Bool.false_eq_true, if_false]
      exact (List.filter_eq_self.mpr (fun e he => by simpa using hnone e he)).symm
    · have hx' : ¬ x.start_addr = addr := fun e => hx e.symm
      simp [List.eraseP_cons, hx, hx', List.filter_cons, ih h.2]

theorem filter_length_le_one_of_nodup (l : List page_fault_notification_entry) (a : Nat)
    (h : (l.map (fun e => e.start_addr)).Nodup) :
    (l.filter (fun e => decide (e.start_addr = a))).length ≤ 1 := by
  induction l with
  | nil => simp
  | cons x xs ih =>
    simp only [List.map_cons, List.nodup_cons] at h
    by_cases hx : x.start_addr = a
    · have hnil : xs.filter (fun e => decide (e.start_addr = a)) = [] := by
        rw [List.filter_eq_nil_iff]
        intro e he
        simp only [decide_eq_true_eq]
        intro hea
        apply h.1
        rw [hx, ← hea]
        exact List.mem_map_of_mem (fun e => e.start_addr) he
      simp [List.filter_cons, hx, hnil]
    · simp only [List.filter_cons, hx, decide_False]
      exact ih h.2

theorem nodup_of_filter_length_le_one (l : List page_fault_notification_entry)
    (h : ∀ a, (l.filter (fun e => decide (e.start_addr = a))).length ≤ 1) :
    (l.map (fun e => e.start_addr)).Nodup := by
  induction l with
  | nil => simp
  | cons x xs ih =>
    simp only [List.map_cons, List.nodup_cons]
    constructor
    · intro hx
      obtain ⟨e, he, hea⟩ := List.mem_map.mp hx
      have h1 := h x.start_addr
      have h2 : e ∈ xs.filter (fun e => decide (e.start_addr = x.start_addr)) := by
        rw [List.mem_filter]
        exact ⟨he, by simpa using hea⟩
      have h3 : 0 < (xs.filter (fun e => decide (e.start_addr = x.start_addr))).length :=
        List.length_pos_of_mem h2
      simp only [List.filter_cons, decide_True, if_true, List.length_cons] at h1
      omega
    · apply ih
      intro a
      have h1 := h a
      by_cases hx : x.start_addr = a
      · simp only [List.filter_cons, hx, decide_True, if_true, List.length_cons] at h1
        omega
      · simpa only [List.filter_cons, hx, decide_False, Bool.false_eq_true, if_false] using h1

/-- The invariant of the subscription table: no two entries have the same `start_addr`. -/
theorem PfCall_run_nodup (s : State) (call : PfCall)
    (h : (s.pf_entries.map (fun e => e.start_addr)).Nodup) :
    ((PfCall.run s call).pf_entries.map (fun e => e.start_addr)).Nodup := by
  cases call with
  | enable_page_fault_notification E start_addr event_queue_id =>
    unfold PfCall.run sys_mmapper_enable_page_fault_notification
    simp only
    split
    · exact h
    · split
      · exact h
      · split
        · exact h
        · split
          · exact h
          · split
            · exact h
            · rename_i hany
              simp only [List.map_append, List.map_cons, List.map_nil]
              rw [List.nodup_append]
              refine ⟨h, List.nodup_singleton _, ?_⟩
              intro a ha hb
              simp only [List.mem_singleton] at hb
              subst hb
              apply hany
              rw [List.any_eq_true]
              obtain ⟨e, he, hea⟩ := List.mem_map.mp ha
              exact ⟨e, he, by simpa using hea⟩
  | free_address addr =>
    unfold PfCall.run
    simp only
    rw [free_address_pf_entries]
    split
    · exact List.Nodup.sublist ((List.eraseP_sublist _).map _) h
    · exact h

theorem run_pf_calls_nodup (calls : List PfCall) :
    ∀ s : State, (s.pf_entries.map (fun e => e.start_addr)).Nodup →
      ((run_pf_calls s calls).pf_entries.map (fun e => e.start_addr)).Nodup := by
  induction calls with
  | nil => intro s h; exact h
  | cons call rest ih =>
    intro s h
    exact ih _ (PfCall_run_nodup s call h)

/-! ## Lemmas on the map and unmap round trip -/

theorem vm_get_put (l : List block_t) (addr : Nat) (b b1 : block_t)
    (hget : vm_get l addr = some b) (haddr : b1.addr = b.addr) (hsize : b1.size = b.size) :
    vm_get (vm_put l addr b1) addr = some b1 := by
  induction l with
  | nil => simp [vm_get] at hget
  | cons x xs ih =>
    by_cases hx : x.addr ≤ addr ∧ addr < x.addr + x.size
    · simp only [vm_get, hx, and_self, if_true, Option.some.injEq] at hget
      subst hget
      have hb1 : b1.addr ≤ addr ∧ addr < b1.addr + b1.size := by rw [haddr, hsize]; exact hx
      simp only [vm_put, hx, and_self, if_true, vm_get, hb1]
    · simp only [vm_get, hx, if_false] at hget
      simp only [vm_put, hx, if_false, vm_get]
      exact ih hget

theorem vm_put_put (l : List block_t) (addr : Nat) (b b1 : block_t)
    (hget : vm_get l addr = some b) (haddr : b1.addr = b.addr) (hsize : b1.size = b.size) :
    vm_put (vm_put l addr b1) addr b = l := by
  induction l with
  | nil => simp [vm_get] at hget
  | cons x xs ih =>
    by_cases hx : x.addr ≤ addr ∧ addr < x.addr + x.size
    · simp only [vm_get, hx, and_self, if_true, Option.some.injEq] at hget
      subst hget
      have hb1 : b1.addr ≤ addr ∧ addr < b1.addr + b1.size := by rw [haddr, hsize]; exact hx
      simp only [vm_put, hx, and_self, if_true, hb1]
    · simp only [vm_get, hx, if_false] at hget
      simp only [vm_put, hx, if_false, ih hget]

theorem assoc_get_append_new {α : Type} (l : List (Nat × α)) (k : Nat) (v : α)
    (h : ∀ e ∈ l, e.1 ≠ k) : assoc_get (l ++ [(k, v)]) k = some v := by
  induction l with
  | nil => simp [assoc_get]
  | cons x xs ih =>
    obtain ⟨i, w⟩ := x
    have hik : ¬ i = k := h (i, w) (List.mem_cons_self _ _)
    simp only [List.cons_append, assoc_get, hik, if_false]
    exact ih (fun e he => h e (List.mem_cons_of_mem _ he))

theorem assoc_erase_append_new {α : Type} (l : List (Nat × α)) (k : Nat) (v : α)
    (h : ∀ e ∈ l, e.1 ≠ k) : assoc_erase (l ++ [(k, v)]) k = l := by
  induction l with
  | nil => simp [assoc_erase]
  | cons x xs ih =>
    obtain ⟨i, w⟩ := x
    have hik : ¬ i = k := h (i, w) (List.mem_cons_self _ _)
    simp only [List.cons_append, assoc_erase, hik, if_false]
    exact congrArg _ (ih (fun e he => h e (List.mem_cons_of_mem _ he)))

/-- A successful attach records the segment under `addr`, where nothing was attached. -/
theorem falloc_ok (K : sys_memory) (b : block_t) (addr size shm flags : Nat)
    (h : (block_t.falloc K b addr size shm flags).1 ≠ false) :
    (block_t.falloc K b addr size shm flags).2 =
      { b with map := b.map ++ [(addr, size, shm)] } ∧
    ∀ e ∈ b.map, e.1 ≠ addr := by
  unfold block_t.falloc at h ⊢
  simp only at h ⊢
  generalize (if flags = K.SYS_MEMORY_PAGE_SIZE_64K then 0x10000 else 0x100000) = page at h ⊢
  by_cases h1 : addr % page ≠ 0
  · rw [if_pos h1] at h
    exact absurd rfl h
  · by_cases h2 : addr < b.addr ∨ b.addr + b.size < addr + size
    · rw [if_neg h1, if_pos h2] at h
      exact absurd rfl h
    · by_cases h3 : (b.map.any (fun e =>
          decide (e.1 = addr) || (decide (e.1 < addr + size) && decide (addr < e.1 + e.2.1))))
          = true
      · rw [if_neg h1, if_neg h2, if_pos h3] at h
        exact absurd rfl h
      · rw [if_neg h1, if_neg h2, if_neg h3]
        refine ⟨rfl, ?_⟩
        intro e he hea
        apply h3
        rw [List.any_eq_true]
        exact ⟨e, he, by simp [hea]⟩

/-- The scan of the directory after a map finds the object that was mapped. -/
theorem idm_select_after_map (l : List (Nat × lv2_memory)) (id : Nat) (m : lv2_memory)
    (c : Nat) (f : lv2_memory → lv2_memory)
    (hm : assoc_get l id = some m) (hid : id ≠ 0)
    (hshm : ∀ e ∈ l, e.2.shm = m.shm → e.1 = id) :
    idm_select (assoc_modify l id (fun _ => { m with counter := c }))
        (fun i x => if x.shm = m.shm then i else 0) =
      some (id, { m with counter := c }, id) ∧
    idm_select_modify (assoc_modify l id (fun _ => { m with counter := c }))
        (fun i x => if x.shm = m.shm then i else 0) f =
      assoc_modify l id (fun _ => f { m with counter := c }) := by
  induction l with
  | nil => simp [assoc_get] at hm
  | cons x xs ih =>
    obtain ⟨i, v⟩ := x
    by_cases hik : i = id
    · subst hik
      simp [assoc_modify, idm_select, idm_select_modify, hid]
    · simp only [assoc_get, hik, if_false] at hm
      have hv : ¬ v.shm = m.shm := fun e => hik (hshm (i, v) (List.mem_cons_self _ _) e)
      have ih1 := ih hm (fun e he => hshm e (List.mem_cons_of_mem _ he))
      simp only [assoc_modify, hik, if_false, idm_select, idm_select_modify, hv, ne_eq,
        not_true_eq_false, ih1.1, ih1.2]
      exact ⟨trivial, trivial⟩

/-! ## Claims C11 to C19 -/

/-- C11 (alignment rule).  For every size, flags, state and answer of `vm::find_map`, the
call of `sys_mmapper_allocate_address` with alignment = 0 has exactly the result of the
call with alignment = 0x10000000: the same return code, the same state afterwards (hence
the same area searched and created) and the same value written through `alloc_addr`.  For
every size that passes size validation (a multiple of 256 MiB, at most `UINT32_MAX`), an
alignment outside {0, 0x10000000, 0x20000000, 0x40000000, 0x80000000} yields
`CELL_EALIGN`, the state as it was and nothing written, whatever `vm::find_map` would
answer. -/
theorem C11_alignment_rule (K : sys_memory)
    (find_map : List block_t → Nat → Nat → Nat → Option (block_t × List block_t))
    (s : State) (size flags alignment : Nat) :
    sys_mmapper_allocate_address K find_map s size flags 0 =
      sys_mmapper_allocate_address K find_map s size flags 0x10000000 ∧
    (size % 0x10000000 = 0 ∧ size ≤ UINT32_MAX →
      ¬ (alignment = 0 ∨ alignment = 0x10000000 ∨ alignment = 0x20000000 ∨
        alignment = 0x40000000 ∨ alignment = 0x80000000) →
      sys_mmapper_allocate_address K find_map s size flags alignment =
        (s, CELL_EALIGN, none)) := by
  constructor
  · unfold sys_mmapper_allocate_address
    simp
  · rintro ⟨h1, h2⟩ hal
    have h3 : ¬ size > UINT32_MAX := by omega
    have h4 : ¬ alignment = 0 := fun h => hal (Or.inl h)
    have h5 : ¬ (alignment = 0x10000000 ∨ alignment = 0x20000000 ∨
        alignment = 0x40000000 ∨ alignment = 0x80000000) := fun h => hal (Or.inr h)
    unfold sys_mmapper_allocate_address
    simp only [h1, ne_eq, not_true_eq_false, if_false, h3, h4]
    rw [if_neg h5]

/-- Witness of C11: with alignment 0 the example `find_map` is asked as with 0x10000000
and the call returns `CELL_OK`; with alignment 0x30000000 the call returns
`CELL_EALIGN`. -/
theorem C11_alignment_rule_witness :
    (0x10000000 % 0x10000000 = 0 ∧ 0x10000000 ≤ UINT32_MAX) ∧
    sys_mmapper_allocate_address K0 find_map_3 quota_state 0x10000000 0x400 0 =
      ({ quota_state with areas := [area_3] }, CELL_OK, some 0x30000000) ∧
    sys_mmapper_allocate_address K0 find_map_3 quota_state 0x10000000 0x400 0x30000000 =
      (quota_state, CELL_EALIGN, none) :=
  ⟨by decide, by decide,
    (C11_alignment_rule K0 find_map_3 quota_state 0x10000000 0x400 0x30000000).2
      (by decide) (by decide)⟩

/-- C12 (page-granularity verdict).  With `c = flags & SYS_MEMORY_PAGE_SIZE_MASK`, both
`sys_mmapper_allocate_shared_memory` and
`sys_mmapper_allocate_shared_memory_from_container` return `CELL_EALIGN` exactly when
(`c` is 0 or the 1 MiB class and `size % 0x100000 != 0`) or (`c` is the 64 KiB class and
`size % 0x10000 != 0`), and `CELL_EINVAL` exactly when `c` is none of 0, the 1 MiB class
and the 64 KiB class.  In both rejected cases the state is as it was (no quota taken, no
object created) and nothing is written through `mem_id`.  Otherwise validation passes:
the first call returns `CELL_OK` when the default container has the quota and
`CELL_ENOMEM` when it has not; the second returns `CELL_OK` when the container `cid`
exists and has the quota. -/
theorem C12_page_granularity (K : sys_memory) (s : State) (unk size cid flags : Nat) :
    (((sys_mmapper_allocate_shared_memory K s unk size flags).2.1 = CELL_EALIGN ↔
        ((flags &&& K.SYS_MEMORY_PAGE_SIZE_MASK = 0 ∨
            flags &&& K.SYS_MEMORY_PAGE_SIZE_MASK = K.SYS_MEMORY_PAGE_SIZE_1M) ∧
          size % 0x100000 ≠ 0) ∨
        (flags &&& K.SYS_MEMORY_PAGE_SIZE_MASK = K.SYS_MEMORY_PAGE_SIZE_64K ∧
          size % 0x10000 ≠ 0)) ∧
      ((sys_mmapper_allocate_shared_memory K s unk size flags).2.1 = CELL_EINVAL ↔
        ¬ (flags &&& K.SYS_MEMORY_PAGE_SIZE_MASK = 0 ∨
          flags &&& K.SYS_MEMORY_PAGE_SIZE_MASK = K.SYS_MEMORY_PAGE_SIZE_1M ∨
          flags &&& K.SYS_MEMORY_PAGE_SIZE_MASK = K.SYS_MEMORY_PAGE_SIZE_64K)) ∧
      ((sys_mmapper_allocate_shared_memory K s unk size flags).2.1 = CELL_EALIGN ∨
        (sys_mmapper_allocate_shared_memory K s unk size flags).2.1 = CELL_EINVAL →
        (sys_mmapper_allocate_shared_memory K s unk size flags).1 = s ∧
        (sys_mmapper_allocate_shared_memory K s unk size flags).2.2 = none) ∧
      ((sys_mmapper_allocate_shared_memory K s unk size flags).2.1 ≠ CELL_EALIGN →
        (sys_mmapper_allocate_shared_memory K s unk size flags).2.1 ≠ CELL_EINVAL →
        (sys_mmapper_allocate_shared_memory K s unk size flags).2.1 =
          if s.dct.used + size ≤ s.dct.total then CELL_OK else CELL_ENOMEM)) ∧
    (((sys_mmapper_allocate_shared_memory_from_container K s unk size cid flags).2.1
          = CELL_EALIGN ↔
        ((flags &&& K.SYS_MEMORY_PAGE_SIZE_MASK = 0 ∨
            flags &&& K.SYS_MEMORY_PAGE_SIZE_MASK = K.SYS_MEMORY_PAGE_SIZE_1M) ∧
          size % 0x100000 ≠ 0) ∨
        (flags &&& K.SYS_MEMORY_PAGE_SIZE_MASK = K.SYS_MEMORY_PAGE_SIZE_64K ∧
          size % 0x10000 ≠ 0)) ∧
      ((sys_mmapper_allocate_shared_memory_from_container K s unk size cid flags).2.1
          = CELL_EINVAL ↔
        ¬ (flags &&& K.SYS_MEMORY_PAGE_SIZE_MASK = 0 ∨
          flags &&& K.SYS_MEMORY_PAGE_SIZE_MASK = K.SYS_MEMORY_PAGE_SIZE_1M ∨
          flags &&& K.SYS_MEMORY_PAGE_SIZE_MASK = K.SYS_MEMORY_PAGE_SIZE_64K)) ∧
      ((sys_mmapper_allocate_shared_memory_from_container K s unk size cid flags).2.1
          = CELL_EALIGN ∨
        (sys_mmapper_allocate_shared_memory_from_container K s unk size cid flags).2.1
          = CELL_EINVAL →
        (sys_mmapper_allocate_shared_memory_from_container K s unk size cid flags).1 = s ∧
        (sys_mmapper_allocate_shared_memory_from_container K s unk size cid flags).2.2
          = none) ∧
      ((sys_mmapper_allocate_shared_memory_from_container K s unk size cid flags).2.1
          ≠ CELL_EALIGN →
        (sys_mmapper_allocate_shared_memory_from_container K s unk size cid flags).2.1
          ≠ CELL_EINVAL →
        (sys_mmapper_allocate_shared_memory_from_container K s unk size cid flags).2.1 =
          match assoc_get s.cts cid with
          | none => CELL_ESRCH
          | some ct => if ct.used + size ≤ ct.total then CELL_OK else CELL_ENOMEM)) := by
  generalize hc : flags &&& K.SYS_MEMORY_PAGE_SIZE_MASK = c
  constructor
  · unfold sys_mmapper_allocate_shared_memory lv2_memory_container.take idm_make
    simp only [hc]
    by_cases h1 : c = 0 ∨ c = K.SYS_MEMORY_PAGE_SIZE_1M
    · have h1' : c = 0 ∨ c = K.SYS_MEMORY_PAGE_SIZE_1M ∨ c = K.SYS_MEMORY_PAGE_SIZE_64K := by
        tauto
      by_cases h2 : size % 0x100000 = 0
      · have h3 : size % 0x10000 = 0 := by omega
        by_cases hq : s.dct.used + size ≤ s.dct.total
        · simp [h1, h1', h2, h3, hq]
        · simp [h1, h1', h2, h3, hq]
      · simp [h1, h1', h2]
    · by_cases h4 : c = K.SYS_MEMORY_PAGE_SIZE_64K
      · have h1' : c = 0 ∨ c = K.SYS_MEMORY_PAGE_SIZE_1M ∨ c = K.SYS_MEMORY_PAGE_SIZE_64K :=
          Or.inr (Or.inr h4)
        by_cases h3 : size % 0x10000 = 0
        · by_cases hq : s.dct.used + size ≤ s.dct.total
          · simp only [h1, if_false, h4, if_true, h3, ne_eq, not_true_eq_false, hq]
            simp [← h4, h1]
          · simp only [h1, if_false, h4, if_true, h3, ne_eq, not_true_eq_false, hq]
            simp [← h4, h1]
        · simp only [h1, if_false, h4, if_true, h3, ne_eq, not_false_eq_true]
          simp [← h4, h1]
      · have h1' : ¬ (c = 0 ∨ c = K.SYS_MEMORY_PAGE_SIZE_1M ∨
            c = K.SYS_MEMORY_PAGE_SIZE_64K) := by tauto
        simp [h1, h1', h4]
  · unfold sys_mmapper_allocate_shared_memory_from_container lv2_memory_container.take
      idm_make idm_get
    simp only [hc]
    by_cases h1 : c = 0 ∨ c = K.SYS_MEMORY_PAGE_SIZE_1M
    · have h1' : c = 0 ∨ c = K.SYS_MEMORY_PAGE_SIZE_1M ∨ c = K.SYS_MEMORY_PAGE_SIZE_64K := by
        tauto
      by_cases h2 : size % 0x100000 = 0
      · have h3 : size % 0x10000 = 0 := by omega
        cases hct : assoc_get s.cts cid with
        | none => simp [h1, h1', h2, h3]
        | some ct =>
          by_cases hq : ct.used + size ≤ ct.total
          · simp [h1, h1', h2, h3, hq]
          · simp [h1, h1', h2, h3, hq]
      · simp [h1, h1', h2]
    · by_cases h4 : c = K.SYS_MEMORY_PAGE_SIZE_64K
      · by_cases h3 : size % 0x10000 = 0
        · cases hct : assoc_get s.cts cid with
          | none =>
            simp only [h1, if_false, h4, if_true, h3, ne_eq, not_true_eq_false]
            simp [← h4, h1]
          | some ct =>
            by_cases hq : ct.used + size ≤ ct.total
            · simp only [h1, if_false, h4, if_true, h3, ne_eq, not_true_eq_false, hq]
              simp [← h4, h1]
            · simp only [h1, if_false, h4, if_true, h3, ne_eq, not_true_eq_false, hq]
              simp [← h4, h1]
        · simp only [h1, if_false, h4, if_true, h3, ne_eq, not_false_eq_true]
          simp [← h4, h1]
      · have h1' : ¬ (c = 0 ∨ c = K.SYS_MEMORY_PAGE_SIZE_1M ∨
            c = K.SYS_MEMORY_PAGE_SIZE_64K) := by tauto
        simp [h1, h1', h4]

/-- Witness of C12 on the example state (3 MiB free in the default container, 1 MiB in
container 7): size = 0x100001 with the 1 MiB class fails with `CELL_EALIGN` and changes
nothing, size = 0x100000 succeeds in both calls. -/
theorem C12_page_granularity_witness :
    (sys_mmapper_allocate_shared_memory K0 quota_state 0 0x100001 0x400).2.1 = CELL_EALIGN ∧
    ((sys_mmapper_allocate_shared_memory K0 quota_state 0 0x100001 0x400).1 = quota_state ∧
      (sys_mmapper_allocate_shared_memory K0 quota_state 0 0x100001 0x400).2.2 = none) ∧
    (sys_mmapper_allocate_shared_memory K0 quota_state 0 0x100000 0x400).2.1 = CELL_OK ∧
    (sys_mmapper_allocate_shared_memory_from_container K0 quota_state 0 0x100000 7
      0x400).2.1 = CELL_OK :=
  ⟨by decide,
    (C12_page_granularity K0 quota_state 0 0x100001 7 0x400).1.2.2.1 (Or.inl (by decide)),
    ((C12_page_granularity K0 quota_state 0 0x100000 7 0x400).1.2.2.2
      (by decide) (by decide)).trans (by decide),
    ((C12_page_granularity K0 quota_state 0 0x100000 7 0x400).2.2.2.2
      (by decide) (by decide)).trans (by decide)⟩

/-- C13 (mapping validation).  For every address for which `vm::get` finds an area, inside
the user window, and every existing object `m`, with `page_alignment` = 0x10000 if the
area has the 64 KiB page flag and 0x100000 otherwise: when `m.align < page_alignment`
`sys_mmapper_map_shared_memory` returns `CELL_EINVAL`; when
`m.align >= page_alignment` and `addr % page_alignment != 0` it returns `CELL_EALIGN`; in
both cases the state is as it was, whatever `falloc` would answer (the attach is not
reached).  Only when `m.align >= page_alignment` and `addr % page_alignment == 0` is the
attach reached, and its answer decides between `CELL_OK` and `CELL_EBUSY`. -/
theorem C13_mapping_validation (K : sys_memory)
    (falloc : block_t → Nat → Nat → Nat → Nat → Bool × block_t)
    (s : State) (addr mem_id flags : Nat) (area : block_t) (m : lv2_memory)
    (hget : vm_get s.areas addr = some area)
    (hwin : 0x20000000 ≤ addr ∧ addr < 0xC0000000)
    (hm : assoc_get s.mems mem_id = some m) :
    (m.align < (if area.flags &&& K.SYS_MEMORY_PAGE_SIZE_64K ≠ 0 then 0x10000 else 0x100000) →
      sys_mmapper_map_shared_memory K falloc s addr mem_id flags = (s, CELL_EINVAL)) ∧
    (¬ m.align < (if area.flags &&& K.SYS_MEMORY_PAGE_SIZE_64K ≠ 0 then 0x10000
        else 0x100000) →
      addr % (if area.flags &&& K.SYS_MEMORY_PAGE_SIZE_64K ≠ 0 then 0x10000 else 0x100000) ≠ 0 →
      sys_mmapper_map_shared_memory K falloc s addr mem_id flags = (s, CELL_EALIGN)) ∧
    (¬ m.align < (if area.flags &&& K.SYS_MEMORY_PAGE_SIZE_64K ≠ 0 then 0x10000
        else 0x100000) →
      addr % (if area.flags &&& K.SYS_MEMORY_PAGE_SIZE_64K ≠ 0 then 0x10000 else 0x100000) = 0 →
      (sys_mmapper_map_shared_memory K falloc s addr mem_id flags).2 =
        if (falloc area addr m.size m.shm
            (if m.align = 0x10000 then K.SYS_MEMORY_PAGE_SIZE_64K
             else K.SYS_MEMORY_PAGE_SIZE_1M)).1 = false
        then CELL_EBUSY else CELL_OK) := by
  have hw : ¬ (addr < 0x20000000 ∨ addr ≥ 0xC0000000) := by omega
  rw [map_shared_memory_eq K falloc s addr mem_id flags area m hget hw hm]
  refine ⟨fun h1 => ?_, fun h1 h2 => ?_, fun h1 h2 => ?_⟩
  · rw [if_pos h1]
  · rw [if_neg h1, if_pos h2]
  · rw [if_neg h1, if_neg (not_not.mpr h2)]
    by_cases hf : (falloc area addr m.size m.shm
        (if m.align = 0x10000 then K.SYS_MEMORY_PAGE_SIZE_64K
         else K.SYS_MEMORY_PAGE_SIZE_1M)).1 = false
    · rw [if_pos hf, if_pos hf]
    · rw [if_neg hf, if_neg hf]

/-- Witness of C13 on the example state, whose area has 1 MiB pages: the 64 KiB object is
refused with `CELL_EINVAL`, the 1 MiB object is refused with `CELL_EALIGN` at 0x30010000
and reaches the attach at 0x30100000. -/
theorem C13_mapping_validation_witness :
    vm_get validation_state.areas 0x30010000 = some area_3 ∧
    sys_mmapper_map_shared_memory K0 (fun b _ _ _ _ => (true, b)) validation_state
      0x30010000 2 0 = (validation_state, CELL_EINVAL) ∧
    sys_mmapper_map_shared_memory K0 (fun b _ _ _ _ => (true, b)) validation_state
      0x30010000 1 0 = (validation_state, CELL_EALIGN) ∧
    (sys_mmapper_map_shared_memory K0 (fun b _ _ _ _ => (true, b)) validation_state
      0x30100000 1 0).2 = CELL_OK :=
  ⟨by decide,
    (C13_mapping_validation K0 (fun b _ _ _ _ => (true, b)) validation_state 0x30010000 2 0
      area_3 mem_64k (by decide) (by decide) (by decide)).1 (by decide),
    (C13_mapping_validation K0 (fun b _ _ _ _ => (true, b)) validation_state 0x30010000 1 0
      area_3 { size := 0x100000, align := 0x100000, flags := 0x400, ct := none, shm := 1,
               counter := 2 } (by decide) (by decide) (by decide)).2.1
      (by decide) (by decide),
    ((C13_mapping_validation K0 (fun b _ _ _ _ => (true, b)) validation_state 0x30100000 1 0
      area_3 { size := 0x100000, align := 0x100000, flags := 0x400, ct := none, shm := 1,
               counter := 2 } (by decide) (by decide) (by decide)).2.2
      (by decide) (by decide)).trans (by decide)⟩

/-- C14 (map and unmap round trip), on the attach, lookup and detach of segments modelled
from the spec.  In a directory where the object under `mem_id` is the only one with its
segment handle, with `mem_id` non-zero and the `u32` counter not saturated: if
`sys_mmapper_map_shared_memory(addr, mem_id, flags)` returns `CELL_OK`, an immediately
following `sys_mmapper_unmap_shared_memory(addr, out)` returns `CELL_OK`, writes
`out = mem_id`, and gives back the state before the map: the counter of the object is
what it was, every other object is unchanged and the segment is detached. -/
theorem C14_map_unmap_round_trip (K : sys_memory) (s : State) (addr mem_id flags : Nat)
    (m : lv2_memory) (hm : assoc_get s.mems mem_id = some m) (hid : mem_id ≠ 0)
    (hshm : ∀ e ∈ s.mems, e.2.shm = m.shm → e.1 = mem_id)
    (hu32 : m.counter + 1 < 2 ^ 32)
    (hmap : (sys_mmapper_map_shared_memory K (block_t.falloc K) s addr mem_id flags).2
      = CELL_OK) :
    sys_mmapper_unmap_shared_memory block_t.get block_t.dealloc
        (sys_mmapper_map_shared_memory K (block_t.falloc K) s addr mem_id flags).1 addr =
      (s, CELL_OK, some mem_id) := by
  -- the map call found an area in the user window
  cases hget : vm_get s.areas addr with
  | none =>
    have : sys_mmapper_map_shared_memory K (block_t.falloc K) s addr mem_id flags
        = (s, CELL_EINVAL) := by
      unfold sys_mmapper_map_shared_memory
      rw [hget]
    rw [this] at hmap
    exact absurd hmap (by simp)
  | some area =>
    by_cases hwin : addr < 0x20000000 ∨ addr ≥ 0xC0000000
    · have : sys_mmapper_map_shared_memory K (block_t.falloc K) s addr mem_id flags
          = (s, CELL_EINVAL) := by
        unfold sys_mmapper_map_shared_memory
        rw [hget]
        simp only
        rw [if_pos hwin]
      rw [this] at hmap
      exact absurd hmap (by simp)
    · rw [map_shared_memory_eq K (block_t.falloc K) s addr mem_id flags area m hget hwin hm]
        at hmap ⊢
      by_cases h1 : m.align < (if area.flags &&& K.SYS_MEMORY_PAGE_SIZE_64K ≠ 0 then 0x10000
          else 0x100000)
      · rw [if_pos h1] at hmap
        exact absurd hmap (by simp)
      · rw [if_neg h1] at hmap ⊢
        by_cases h2 : addr % (if area.flags &&& K.SYS_MEMORY_PAGE_SIZE_64K ≠ 0 then 0x10000
            else 0x100000) ≠ 0
        · rw [if_pos h2] at hmap
          exact absurd hmap (by simp)
        · rw [if_neg h2] at hmap ⊢
          by_cases hf : (block_t.falloc K area addr m.size m.shm
              (if m.align = 0x10000 then K.SYS_MEMORY_PAGE_SIZE_64K
               else K.SYS_MEMORY_PAGE_SIZE_1M)).1 = false
          · rw [if_pos hf] at hmap
            exact absurd hmap (by simp)
          · rw [if_neg hf]
            obtain ⟨harea1, hfree⟩ := falloc_ok K area addr m.size m.shm _ hf
            rw [harea1]
            -- the unmap call
            have hget1 : vm_get (vm_put s.areas addr
                { area with map := area.map ++ [(addr, m.size, m.shm)] }) addr =
                some { area with map := area.map ++ [(addr, m.size, m.shm)] } :=
              vm_get_put s.areas addr area _ hget rfl rfl
            have hlook : assoc_get (area.map ++ [(addr, m.size, m.shm)]) addr =
                some (m.size, m.shm) := assoc_get_append_new area.map addr _ hfree
            have hsel := idm_select_after_map s.mems mem_id m ((m.counter + 1) % 2 ^ 32)
              (fun m => { m with counter := (m.counter + (2 ^ 32 - 1)) % 2 ^ 32 }) hm hid hshm
            unfold sys_mmapper_unmap_shared_memory
            simp only [hget1]
            rw [if_neg hwin]
            simp only [block_t.get, hlook, hsel.1, block_t.dealloc, if_true, hsel.2,
              assoc_erase_append_new area.map addr _ hfree]
            simp only [lv2_memory_inc_dec m (by omega)]
            rw [assoc_modify_const_self _ _ _ hm]
            simp only [Bool.true_eq_false, if_false]
            have hput := vm_put_put s.areas addr area
              { area with map := area.map ++ [(addr, m.size, m.shm)] } hget rfl rfl
            have heta : ({ area with map := area.map } : block_t) = area := rfl
            simp only [heta, hput]

/-- Witness of C14 on the example state: object 1 is mapped at 0x30100000 and unmapped
again; the second object of the directory has another segment handle. -/
theorem C14_map_unmap_round_trip_witness :
    (sys_mmapper_map_shared_memory K0 (block_t.falloc K0) round_trip_state
      0x30100000 1 0).2 = CELL_OK ∧
    assoc_get (sys_mmapper_map_shared_memory K0 (block_t.falloc K0) round_trip_state
      0x30100000 1 0).1.mems 1 = some { size := 0x100000, align := 0x100000, flags := 0x400,
                                        ct := none, shm := 1, counter := 3 } ∧
    sys_mmapper_unmap_shared_memory block_t.get block_t.dealloc
        (sys_mmapper_map_shared_memory K0 (block_t.falloc K0) round_trip_state
          0x30100000 1 0).1 0x30100000 =
      (round_trip_state, CELL_OK, some 1) :=
  ⟨by decide, by decide,
    C14_map_unmap_round_trip K0 round_trip_state 0x30100000 1 0
      { size := 0x100000, align := 0x100000, flags := 0x400, ct := none, shm := 1,
        counter := 2 }
      (by decide) (by decide) (by decide) (by decide) (by decide)⟩

/-- C15 (subscription uniqueness).  In every state reached from a state with an empty
subscription table by a finite sequence of
`sys_mmapper_enable_page_fault_notification` and `sys_mmapper_free_address` calls,
whatever they return and whatever the event transport answers, the subscription table
holds at most one entry per `start_addr`. -/
theorem C15_subscription_unique (s0 : State) (h0 : s0.pf_entries = [])
    (calls : List PfCall) (a : Nat) :
    ((run_pf_calls s0 calls).pf_entries.filter
      (fun e => decide (e.start_addr = a))).length ≤ 1 := by
  apply filter_length_le_one_of_nodup
  apply run_pf_calls_nodup
  rw [h0]
  exact List.nodup_nil

/-- Witness of C15 on the example state and sequence: the sequence ends with the one
subscription for 0x50000000. -/
theorem C15_subscription_unique_witness :
    pf_state.pf_entries = [] ∧
    (run_pf_calls pf_state pf_calls).pf_entries =
      [{ start_addr := 0x50000000, event_queue_id := 9, port_id := 3 }] ∧
    ((run_pf_calls pf_state pf_calls).pf_entries.filter
      (fun e => decide (e.start_addr = 0x50000000))).length ≤ 1 :=
  ⟨rfl, by decide, C15_subscription_unique pf_state rfl pf_calls 0x50000000⟩

/-- C16.  On a subscription table that holds at most one entry per `start_addr`, after
every `sys_mmapper_free_address(addr)` call that returns `CELL_OK` the table contains no
entry whose `start_addr` equals `addr`, and it is exactly the list of the entries with a
different `start_addr`, in their original order. -/
theorem C16_free_address_unsubscribes (s : State) (addr : Nat)
    (huniq : ∀ a, (s.pf_entries.filter (fun e => decide (e.start_addr = a))).length ≤ 1)
    (hok : (sys_mmapper_free_address s addr).2 = CELL_OK) :
    (∀ e ∈ (sys_mmapper_free_address s addr).1.pf_entries, e.start_addr ≠ addr) ∧
    (sys_mmapper_free_address s addr).1.pf_entries =
      s.pf_entries.filter (fun e => decide (e.start_addr ≠ addr)) := by
  have heq : (sys_mmapper_free_address s addr).1.pf_entries =
      s.pf_entries.filter (fun e => decide (e.start_addr ≠ addr)) := by
    rw [free_address_pf_entries, if_pos hok]
    exact eraseP_eq_filter_of_nodup s.pf_entries addr
      (nodup_of_filter_length_le_one s.pf_entries huniq)
  refine ⟨?_, heq⟩
  intro e he
  rw [heq, List.mem_filter] at he
  simpa using he.2

/-- Witness of C16 on the example state: the area at 0x30000000 is freed, its
subscription goes and the subscription for 0x50000000 stays. -/
theorem C16_free_address_unsubscribes_witness :
    (sys_mmapper_free_address unmap_state 0x30000000).2 = CELL_OK ∧
    (sys_mmapper_free_address unmap_state 0x30000000).1.pf_entries =
      [{ start_addr := 0x50000000, event_queue_id := 9, port_id := 4 }] :=
  ⟨by decide,
    ((C16_free_address_unsubscribes unmap_state 0x30000000 (by
        intro a
        apply filter_length_le_one_of_nodup
        decide) (by decide)).2).trans (by decide)⟩

/-- C17.  Let `start_addr` be the base of the area that `vm::get` finds for it, inside the
user window, let the event queue exist and let `sys_event_port_create` report anything
but `CELL_EAGAIN`.  If the subscription table holds an entry for this `start_addr`,
`sys_mmapper_enable_page_fault_notification` returns `CELL_EBUSY`, leaves the whole state
as it was, and the calls issued to the event transport are: create, connect, then
disconnect and destroy of the port just created.  If it holds none, the call returns
`CELL_OK`, appends exactly the entry {start_addr, event_queue_id, port_id} and leaves the
port connected. -/
theorem C17_enable_page_fault_notification (E : sys_event) (s : State)
    (start_addr event_queue_id : Nat) (mem : block_t)
    (hget : vm_get s.areas start_addr = some mem) (hbase : start_addr = mem.addr)
    (hwin : 0x20000000 ≤ start_addr ∧ start_addr < 0xC0000000)
    (hqueue : E.queue = true) (hres : E.res ≠ CELL_EAGAIN) :
    ((∃ e ∈ s.pf_entries, e.start_addr = start_addr) →
      sys_mmapper_enable_page_fault_notification E s start_addr event_queue_id =
        (s, CELL_EBUSY, [.create, .connect_local E.port_id event_queue_id,
          .disconnect E.port_id, .destroy E.port_id])) ∧
    ((∀ e ∈ s.pf_entries, e.start_addr ≠ start_addr) →
      sys_mmapper_enable_page_fault_notification E s start_addr event_queue_id =
        ({ s with pf_entries := s.pf_entries ++
            [{ start_addr := start_addr, event_queue_id := event_queue_id,
               port_id := E.port_id }] },
          CELL_OK, [.create, .connect_local E.port_id event_queue_id])) := by
  have hw : ¬ (start_addr ≠ mem.addr ∨ start_addr < 0x20000000 ∨ start_addr ≥ 0xC0000000) := by
    rintro (h | h | h)
    · exact h hbase
    · omega
    · omega
  have hq : ¬ E.queue = false := by rw [hqueue]; simp
  constructor
  · rintro ⟨e, he, hea⟩
    have hany : s.pf_entries.any (fun entry => decide (entry.start_addr = start_addr)) = true := by
      rw [List.any_eq_true]
      exact ⟨e, he, by simpa using hea⟩
    unfold sys_mmapper_enable_page_fault_notification
    rw [hget]
    simp only
    rw [if_neg hw, if_neg hq, if_neg hres, if_pos hany]
  · intro hnone
    have hany : ¬ s.pf_entries.any (fun entry => decide (entry.start_addr = start_addr)) = true := by
      rw [List.any_eq_true]
      rintro ⟨e, he, hea⟩
      exact hnone e he (by simpa using hea)
    unfold sys_mmapper_enable_page_fault_notification
    rw [hget]
    simp only
    rw [if_neg hw, if_neg hq, if_neg hres, if_neg hany]

/-- Witness of C17 on the example states: 0x30000000 is subscribed already in one and not
in the other. -/
theorem C17_enable_page_fault_notification_witness :
    sys_mmapper_enable_page_fault_notification E0 unmap_state 0x30000000 9 =
      (unmap_state, CELL_EBUSY,
        [.create, .connect_local 3 9, .disconnect 3, .destroy 3]) ∧
    sys_mmapper_enable_page_fault_notification E0 pf_state 0x30000000 9 =
      ({ pf_state with pf_entries :=
          [{ start_addr := 0x30000000, event_queue_id := 9, port_id := 3 }] },
        CELL_OK, [.create, .connect_local 3 9]) :=
  ⟨(C17_enable_page_fault_notification E0 unmap_state 0x30000000 9 area_3
      (by decide) (by decide) (by decide) rfl (by decide)).1
      ⟨{ start_addr := 0x30000000, event_queue_id := 9, port_id := 3 }, by decide, rfl⟩,
    (C17_enable_page_fault_notification E0 pf_state 0x30000000 9 area_3
      (by decide) (by decide) (by decide) rfl (by decide)).2 (by decide)⟩

/-- C18.  `mmapper_thread_recover_page_fault(id)`: if the pending-fault table has an
entry for thread `id`, the call returns `CELL_OK` and the table afterwards is the old table
with that entry erased, every other thread keeping its entry; in a table with one entry
per thread, none is left for `id` and a second recover of the same thread returns
`CELL_EINVAL`.  If the table has no entry for `id`, the call returns `CELL_EINVAL` and the
state is unchanged. -/
theorem C18_recover_page_fault (s : State) (id : Nat) :
    (∀ A, assoc_get s.pf_events id = some A →
      mmapper_thread_recover_page_fault s id =
        ({ s with pf_events := assoc_erase s.pf_events id }, CELL_OK) ∧
      (∀ t, t ≠ id →
        assoc_get (mmapper_thread_recover_page_fault s id).1.pf_events t =
          assoc_get s.pf_events t) ∧
      ((assoc_keys s.pf_events).Nodup →
        assoc_get (mmapper_thread_recover_page_fault s id).1.pf_events id = none ∧
        mmapper_thread_recover_page_fault (mmapper_thread_recover_page_fault s id).1 id =
          ((mmapper_thread_recover_page_fault s id).1, CELL_EINVAL))) ∧
    (assoc_get s.pf_events id = none →
      mmapper_thread_recover_page_fault s id = (s, CELL_EINVAL)) := by
  constructor
  · intro A hA
    have hres : mmapper_thread_recover_page_fault s id =
        ({ s with pf_events := assoc_erase s.pf_events id }, CELL_OK) := by
      unfold mmapper_thread_recover_page_fault
      rw [hA]
    rw [hres]
    refine ⟨rfl, ?_, ?_⟩
    · intro t ht
      exact assoc_get_erase_ne s.pf_events id t (fun e => ht e.symm)
    · intro hkeys
      have hnone : assoc_get (assoc_erase s.pf_events id) id = none :=
        assoc_get_erase_self s.pf_events id hkeys
      refine ⟨hnone, ?_⟩
      unfold mmapper_thread_recover_page_fault
      simp only [hnone]
  · intro hnone
    unfold mmapper_thread_recover_page_fault
    rw [hnone]

/-- Witness of C18 on the example state: thread 5 is recovered once, not twice, and
thread 6 has no pending fault. -/
theorem C18_recover_page_fault_witness :
    mmapper_thread_recover_page_fault fault_state 5 = (unmap_state, CELL_OK) ∧
    mmapper_thread_recover_page_fault (mmapper_thread_recover_page_fault fault_state 5).1 5 =
      ((mmapper_thread_recover_page_fault fault_state 5).1, CELL_EINVAL) ∧
    mmapper_thread_recover_page_fault fault_state 6 = (fault_state, CELL_EINVAL) :=
  ⟨by decide,
    (((C18_recover_page_fault fault_state 5).1 0x30001000 (by decide)).2.2 (by decide)).2,
    (C18_recover_page_fault fault_state 6).2 (by decide)⟩

/-- Counterexample to C19 as stated: when the word of the granule is 2^64 - 128,
`vm::reservation_update` makes it 0, which is not 128 greater, and
`vm::reservation_acquire` then returns a smaller value than before. -/
theorem C19_counterexample :
    reservation_acquire g_top 0 128 = 2 ^ 64 - 128 ∧
    reservation_acquire (reservation_update g_top 0 128 false) 0 128 = 0 ∧
    reservation_acquire (reservation_update g_top 0 128 false) 0 128 ≠
      reservation_acquire g_top 0 128 + 128 ∧
    reservation_acquire (reservation_update g_top 0 128 false) 0 128 <
      reservation_acquire g_top 0 128 := by
  decide

/-- C19, amended.  For every address and every prior word `w` of its granule,
`vm::reservation_update` makes the word `(w + 128) mod 2^64`.  Whenever
`w + 128 < 2^64` the word is exactly 128 greater than before, so that
`vm::reservation_acquire` for any address of the same 128-byte granule (index
`addr / 128`) returns 128 more than before, never less.  In every case the lock bit
(bit 0) and the word of every other granule are unchanged. -/
theorem C19_reservation_update (g : Nat → Nat) (addr size : Nat) (lsb : Bool) :
    reservation_acquire (reservation_update g addr size lsb) addr size =
      (reservation_acquire g addr size + 128) % 2 ^ 64 ∧
    (reservation_acquire g addr size + 128 < 2 ^ 64 →
      ∀ addr1 size1, addr1 / 128 = addr / 128 →
        reservation_acquire (reservation_update g addr size lsb) addr1 size1 =
          reservation_acquire g addr1 size1 + 128 ∧
        reservation_acquire g addr1 size1 ≤
          reservation_acquire (reservation_update g addr size lsb) addr1 size1) ∧
    reservation_acquire (reservation_update g addr size lsb) addr size % 2 =
      reservation_acquire g addr size % 2 ∧
    (∀ addr1 size1, addr1 / 128 ≠ addr / 128 →
      reservation_acquire (reservation_update g addr size lsb) addr1 size1 =
        reservation_acquire g addr1 size1) := by
  refine ⟨?_, ?_, ?_, ?_⟩
  · simp [reservation_acquire, reservation_update]
  · intro h addr1 size1 h1
    simp only [reservation_acquire, reservation_update, h1, if_true] at h ⊢
    rw [Nat.mod_eq_of_lt h]
    exact ⟨rfl, Nat.le_add_right _ _⟩
  · simp only [reservation_acquire, reservation_update, if_true]
    omega
  · intro addr1 size1 h1
    simp only [reservation_acquire, reservation_update, h1, if_false]

/-- Witness of C19, amended, on the example table: the stamp 256 of the granule of
address 130 becomes 384, also when read through address 255 of the same granule. -/
theorem C19_reservation_update_witness :
    reservation_acquire g0 130 128 + 128 < 2 ^ 64 ∧ 255 / 128 = 130 / 128 ∧
    reservation_acquire (reservation_update g0 130 128 false) 255 128 = 384 ∧
    reservation_acquire g0 255 128 ≤
      reservation_acquire (reservation_update g0 130 128 false) 255 128 :=
  ⟨by decide, by decide,
    (((C19_reservation_update g0 130 128 false).2.1 (by decide)) 255 128 (by decide)).1,
    (((C19_reservation_update g0 130 128 false).2.1 (by decide)) 255 128 (by decide)).2⟩

/-! ## Lemmas on the writers of `cfmt_append` -/

theorem peek_lt {f : List Char} {i : Nat} (h : peek f i ≠ NUL) : i < f.length := by
  by_contra hc
  exact h (List.getD_eq_default _ _ (by omega))

theorem peek_eq_getElem {f : List Char} {i : Nat} (h : i < f.length) : peek f i = f[i] :=
  List.getD_eq_getElem _ _ h

theorem read_decimal_loop_le (l : List Char) (r : Nat) :
    (read_decimal_loop l r).2 ≤ l.length := by
  induction l generalizing r with
  | nil => simp [read_decimal_loop]
  | cons c cs ih =>
    simp only [read_decimal_loop]
    split
    · simp only [List.length_cons, Nat.add_le_add_iff_right]
      exact ih _
    · simp

theorem str_insert_grows {pre out : List Char} (pos n : Nat) (c : Char)
    (h : pre <+: out) (hp : pre.length ≤ pos) : pre <+: str_insert out pos n c := by
  obtain ⟨t, rfl⟩ := h
  unfold str_insert
  rw [List.take_append_eq_append_take, List.take_of_length_le hp]
  simp only [List.append_assoc]
  exact List.prefix_append _ _

theorem str_resize_grows {pre out : List Char} (n : Nat) (c : Char)
    (h : pre <+: out) (hp : pre.length ≤ n) : pre <+: str_resize out n c := by
  obtain ⟨t, rfl⟩ := h
  unfold str_resize
  rw [List.take_append_eq_append_take, List.take_of_length_le hp]
  simp only [List.append_assoc]
  exact List.prefix_append _ _

theorem write_decimal_loop_eq (n : Nat) (out : List Char) (v : Nat) (m : Int) :
    ∃ t, write_decimal_loop n out v m = out ++ t := by
  induction n generalizing out v m with
  | zero => exact ⟨[], by simp [write_decimal_loop]⟩
  | succ n ih =>
    simp only [write_decimal_loop]
    split
    · obtain ⟨t, ht⟩ := ih (out ++ [decimal_digit (v % 10)]) (v / 10) (m - 1)
      exact ⟨decimal_digit (v % 10) :: t, by rw [ht]; simp⟩
    · exact ⟨_, rfl⟩

theorem getD_append_add (a l : List Char) (k : Nat) (d : Char) :
    (a ++ l).getD (a.length + k) d = l.getD k d := by
  simp [List.getD_eq_getElem?_getD, List.getElem?_append_right]

theorem set_append_add (a l : List Char) (k : Nat) (x : Char) :
    (a ++ l).set (a.length + k) x = a ++ l.set k x := by
  rw [List.set_append_right _ _ (by omega)]
  simp

theorem swap_loop_reverse (n : Nat) (a m b : List Char) (h : m.length ≤ n) :
    swap_loop n (a ++ m ++ b) a.length (a.length + m.length - 1) = a ++ m.reverse ++ b := by
  induction n generalizing a m b with
  | zero =>
    have : m = [] := List.length_eq_zero.mp (by omega)
    subst this
    simp [swap_loop]
  | succ n ih =>
    cases m with
    | nil => simp [swap_loop]
    | cons x t =>
      rcases List.eq_nil_or_concat t with rfl | ⟨t', y, rfl⟩
      · simp [swap_loop]
      · have hlen : t'.length ≤ n := by
          simp only [List.length_cons, List.length_concat] at h
          omega
        have hj : a.length + (x :: t'.concat y).length - 1 = a.length + (t'.length + 1) := by
          simp only [List.length_cons, List.length_concat]
          omega
        have e : a ++ x :: t'.concat y ++ b = a ++ (x :: (t' ++ (y :: b))) := by simp
        rw [hj, e]
        simp only [swap_loop]
        rw [if_pos (by omega)]
        have h0 : (t' ++ y :: b).getD t'.length NUL = y := by
          have := getD_append_add t' (y :: b) 0 NUL
          simpa using this
        have h1 : (a ++ (x :: (t' ++ (y :: b)))).getD (a.length + (t'.length + 1)) NUL = y := by
          rw [getD_append_add, List.getD_cons_succ, h0]
        have h2 : (a ++ (x :: (t' ++ (y :: b)))).getD a.length NUL = x := by
          have := getD_append_add a (x :: (t' ++ (y :: b))) 0 NUL
          simpa using this
        rw [h1, h2]
        have h3 : (a ++ (x :: (t' ++ (y :: b)))).set a.length y = a ++ (y :: (t' ++ (y :: b))) := by
          simp
        have h3b : (t' ++ y :: b).set t'.length x = t' ++ x :: b := by
          simp
        have h4 : (a ++ (y :: (t' ++ (y :: b)))).set (a.length + (t'.length + 1)) x
            = (a ++ [y]) ++ t' ++ (x :: b) := by
          rw [set_append_add, List.set_cons_succ, h3b]
          simp
        rw [h3, h4]
        have h5 := ih (a ++ [y]) t' (x :: b) hlen
        simp only [List.length_append, List.length_singleton] at h5
        have h6 : a.length + (t'.length + 1) - 1 = a.length + 1 + t'.length - 1 := by omega
        rw [h6, h5]
        simp

theorem write_decimal_eq (out : List Char) (v : Nat) (m : Int) (t : List Char)
    (h : write_decimal_loop (m.toNat + 21) out v m = out ++ t) :
    write_decimal out v m = out ++ t.reverse := by
  unfold write_decimal
  rw [h]
  have := swap_loop_reverse (out ++ t).length out t [] (by simp)
  simp only [List.append_nil] at this
  simp only [List.length_append]
  simp only [List.length_append] at this
  exact this

theorem write_decimal_grows (out : List Char) (v : Nat) (m : Int) :
    out <+: write_decimal out v m := by
  obtain ⟨t, ht⟩ := write_decimal_loop_eq (m.toNat + 21) out v m
  rw [write_decimal_eq out v m t ht]
  exact List.prefix_append _ _

theorem bit_width_spec (n x : Nat) (h : x < 2 ^ n) :
    x < 2 ^ bit_width n x ∧ (x ≠ 0 → 2 ^ (bit_width n x - 1) ≤ x ∧ 1 ≤ bit_width n x) ∧
      bit_width n x ≤ n := by
  induction n generalizing x with
  | zero =>
    have : x = 0 := by simpa using h
    subst this
    simp [bit_width]
  | succ n ih =>
    by_cases hx : x = 0
    · subst hx
      simp [bit_width]
    · have h2 : x / 2 < 2 ^ n := by
        rw [pow_succ] at h
        omega
      obtain ⟨i1, i2, i3⟩ := ih (x / 2) h2
      simp only [bit_width, if_neg hx]
      refine ⟨?_, fun _ => ⟨?_, by omega⟩, by omega⟩
      · rw [pow_succ]
        omega
      · simp only [Nat.add_sub_cancel]
        by_cases hq : x / 2 = 0
        · rw [hq]
          have : bit_width n 0 = 0 := by cases n <;> simp [bit_width]
          rw [this]
          simp
          omega
        · obtain ⟨j1, j2⟩ := i2 hq
          have : 2 ^ bit_width n (x / 2) = 2 ^ (bit_width n (x / 2) - 1) * 2 := by
            rw [← pow_succ]
            congr 1
            omega
          omega

theorem or_one_eq (v : Nat) : v ||| 1 = 2 * (v / 2) + 1 := by
  have h1 : (v ||| 1) % 2 = 1 := Nat.or_mod_two_eq_one.mpr (Or.inr rfl)
  have h2 : (v ||| 1) / 2 = v / 2 := by
    rw [Nat.or_div_two]
    simp
  omega

theorem or_one_lt (v : Nat) (h : v < 2 ^ 64) : v ||| 1 < 2 ^ 64 := by
  rw [or_one_eq]
  omega

theorem digits_len_of_bounds {b m x : Nat} (hb : 1 < b) (hm : 0 < m) (lo : b ^ (m - 1) ≤ x)
    (hi : x < b ^ m) : (Nat.digits b x).length = m := by
  have hx : x ≠ 0 := by
    have : 0 < b ^ (m - 1) := pow_pos (by omega) _
    omega
  have h1 : x < b ^ (Nat.digits b x).length := Nat.lt_base_pow_length_digits hb
  have h2 : b ^ (Nat.digits b x).length ≤ b * x := Nat.base_pow_length_digits_le b x hb hx
  have h3 : m - 1 < (Nat.digits b x).length := by
    by_contra hc
    have : b ^ (Nat.digits b x).length ≤ b ^ (m - 1) := Nat.pow_le_pow_right (by omega) (by omega)
    omega
  have h4 : (Nat.digits b x).length < m + 1 := by
    by_contra hc
    have h5 : b ^ (m + 1) ≤ b ^ (Nat.digits b x).length := Nat.pow_le_pow_right (by omega) (by omega)
    have h6 : b * x < b ^ (m + 1) := by
      rw [pow_succ, Nat.mul_comm]
      exact Nat.mul_lt_mul_of_pos_right hi (by omega)
    omega
  omega

theorem digits_len_or_one (b v : Nat) (hb : 1 < b) (h2 : 2 ∣ b) (hv : v ≠ 0) :
    (Nat.digits b (v ||| 1)).length = (Nat.digits b v).length := by
  have hpos : 0 < v ||| 1 := by rw [or_one_eq]; omega
  have e1 : Nat.digits b (v ||| 1) = (v ||| 1) % b :: Nat.digits b ((v ||| 1) / b) :=
    Nat.digits_def' hb hpos
  have e2 : Nat.digits b v = v % b :: Nat.digits b (v / b) :=
    Nat.digits_def' hb (Nat.pos_of_ne_zero hv)
  rw [e1, e2]
  have : (v ||| 1) / b = v / b := by
    obtain ⟨c, rfl⟩ := h2
    rw [or_one_eq, ← Nat.div_div_eq_div_mul, ← Nat.div_div_eq_div_mul]
    congr 1
    omega
  simp [this]

/-- The number of hexadecimal digits that `write_hex` reserves covers the value. -/
theorem hex_len_spec (v : Nat) (h : v < 2 ^ 64) :
    (v = 0 → 64 / 4 - cntlz64 (v ||| 1) / 4 = 1) ∧
      (v ≠ 0 → (Nat.digits 16 v).length = 64 / 4 - cntlz64 (v ||| 1) / 4) := by
  obtain ⟨i1, i2, i3⟩ := bit_width_spec 64 (v ||| 1) (or_one_lt v h)
  have hne : v ||| 1 ≠ 0 := by rw [or_one_eq]; omega
  obtain ⟨j1, j2⟩ := i2 hne
  constructor
  · intro h0
    subst h0
    decide
  · intro hv
    rw [← digits_len_or_one 16 v (by omega) (by decide) hv]
    unfold cntlz64
    generalize bit_width 64 (v ||| 1) = w at *
    apply digits_len_of_bounds (by omega) (by omega)
    · have e : (16 : Nat) ^ (64 / 4 - (64 - w) / 4 - 1) = 2 ^ (4 * (64 / 4 - (64 - w) / 4 - 1)) := by
        rw [pow_mul]
        norm_num
      rw [e]
      exact le_trans (Nat.pow_le_pow_right (by omega) (by omega)) j1
    · have e : (16 : Nat) ^ (64 / 4 - (64 - w) / 4) = 2 ^ (4 * (64 / 4 - (64 - w) / 4)) := by
        rw [pow_mul]
        norm_num
      rw [e]
      exact lt_of_lt_of_le i1 (Nat.pow_le_pow_right (by omega) (by omega))

/-- The number of octal digits that `write_octal` reserves covers the value. -/
theorem octal_len_spec (v : Nat) (h : v < 2 ^ 64) :
    (v = 0 → 66 / 3 - (cntlz64 (v ||| 1) + 2) / 3 = 1) ∧
      (v ≠ 0 → (Nat.digits 8 v).length = 66 / 3 - (cntlz64 (v ||| 1) + 2) / 3) := by
  obtain ⟨i1, i2, i3⟩ := bit_width_spec 64 (v ||| 1) (or_one_lt v h)
  have hne : v ||| 1 ≠ 0 := by rw [or_one_eq]; omega
  obtain ⟨j1, j2⟩ := i2 hne
  constructor
  · intro h0
    subst h0
    decide
  · intro hv
    rw [← digits_len_or_one 8 v (by omega) (by decide) hv]
    unfold cntlz64
    generalize bit_width 64 (v ||| 1) = w at *
    apply digits_len_of_bounds (by omega) (by omega)
    · have e : (8 : Nat) ^ (66 / 3 - (64 - w + 2) / 3 - 1) = 2 ^ (3 * (66 / 3 - (64 - w + 2) / 3 - 1)) := by
        rw [pow_mul]
        norm_num
      rw [e]
      exact le_trans (Nat.pow_le_pow_right (by omega) (by omega)) j1
    · have e : (8 : Nat) ^ (66 / 3 - (64 - w + 2) / 3) = 2 ^ (3 * (66 / 3 - (64 - w + 2) / 3)) := by
        rw [pow_mul]
        norm_num
      rw [e]
      exact lt_of_lt_of_le i1 (Nat.pow_le_pow_right (by omega) (by omega))

theorem digits_msb_step (b : Nat) (digit : Nat → Char) (v : Nat) (hb : 1 < b) (hv : v ≠ 0) :
    digits_msb b digit v = digits_msb b digit (v / b) ++ [digit (v % b)] := by
  unfold digits_msb
  rw [Nat.digits_def' hb (by omega)]
  simp

theorem digits_msb_length (b : Nat) (digit : Nat → Char) (v : Nat) :
    (digits_msb b digit v).length = (Nat.digits b v).length := by
  simp [digits_msb]

/-- The reverse-order loop writes the digits of the value over the last characters. -/
theorem write_rev_spec (b : Nat) (digit : Nat → Char) (hb : 1 < b) (n : Nat)
    (pre done : List Char) (v : Nat) (hv : v < 2 ^ n)
    (hlen : (Nat.digits b v).length ≤ pre.length) :
    write_rev b digit n (pre ++ done) done.length v =
      pre.take (pre.length - (Nat.digits b v).length) ++ digits_msb b digit v ++ done := by
  induction n generalizing pre done v with
  | zero =>
    have : v = 0 := by simpa using hv
    subst this
    simp [write_rev, digits_msb]
  | succ n ih =>
    by_cases h0 : v = 0
    · subst h0
      simp [write_rev, digits_msb]
    · have hd := Nat.digits_def' hb (Nat.pos_of_ne_zero h0)
      rw [hd] at hlen
      simp only [List.length_cons] at hlen
      rcases List.eq_nil_or_concat pre with rfl | ⟨pre', a, rfl⟩
      · simp at hlen
      · simp only [List.concat_eq_append, List.length_append, List.length_singleton] at hlen ⊢
        simp only [write_rev, if_neg h0]
        rw [if_pos (by simp only [List.length_append, List.length_singleton]; omega)]
        have hidx : (pre' ++ [a] ++ done).length - 1 - done.length = pre'.length + 0 := by
          simp only [List.length_append, List.length_singleton]
          omega
        have hset : (pre' ++ [a] ++ done).set (pre'.length + 0) (digit (v % b))
            = pre' ++ (digit (v % b) :: done) := by
          rw [List.append_assoc, set_append_add]
          simp
        rw [hidx, hset]
        have hv2 : v / b < 2 ^ n := by
          have : v / b ≤ v / 2 := Nat.div_le_div_left hb (by omega)
          rw [pow_succ] at hv
          omega
        have := ih pre' (digit (v % b) :: done) (v / b) hv2 (by omega)
        simp only [List.length_cons] at this
        rw [this, digits_msb_step b digit v hb h0, hd]
        simp only [List.length_cons]
        have e : pre'.length + 1 - ((Nat.digits b (v / b)).length + 1)
            = pre'.length - (Nat.digits b (v / b)).length := by omega
        rw [e, List.take_append_of_le_length (by omega)]
        simp

theorem write_hex_spec (out : List Char) (v : Nat) (upper : Bool) (mn : Nat) (h : v < 2 ^ 64) :
    write_hex out v upper mn =
      out ++ List.replicate (max mn (64 / 4 - cntlz64 (v ||| 1) / 4) - (Nat.digits 16 v).length) '0'
        ++ digits_msb 16 (hex_digit upper) v := by
  unfold write_hex
  have hl : (Nat.digits 16 v).length ≤ max mn (64 / 4 - cntlz64 (v ||| 1) / 4) := by
    by_cases h0 : v = 0
    · subst h0
      simp
    · rw [(hex_len_spec v h).2 h0]
      exact le_max_right _ _
  have := write_rev_spec 16 (hex_digit upper) (by omega) 64
    (out ++ List.replicate (max mn (64 / 4 - cntlz64 (v ||| 1) / 4)) '0') [] v h
    (by simp only [List.length_append, List.length_replicate]; omega)
  simp only [List.append_nil, List.length_nil] at this
  rw [this]
  congr 1
  simp only [List.length_append, List.length_replicate]
  rw [List.take_append_eq_append_take, List.take_of_length_le (by omega)]
  simp only [List.take_replicate]
  congr 2
  omega

theorem write_octal_spec (out : List Char) (v : Nat) (mn : Nat) (h : v < 2 ^ 64) :
    write_octal out v mn =
      out ++ List.replicate (max mn (66 / 3 - (cntlz64 (v ||| 1) + 2) / 3) - (Nat.digits 8 v).length) '0'
        ++ digits_msb 8 octal_digit v := by
  unfold write_octal
  have hl : (Nat.digits 8 v).length ≤ max mn (66 / 3 - (cntlz64 (v ||| 1) + 2) / 3) := by
    by_cases h0 : v = 0
    · subst h0
      simp
    · rw [(octal_len_spec v h).2 h0]
      exact le_max_right _ _
  have := write_rev_spec 8 octal_digit (by omega) 64
    (out ++ List.replicate (max mn (66 / 3 - (cntlz64 (v ||| 1) + 2) / 3)) '0') [] v h
    (by simp only [List.length_append, List.length_replicate]; omega)
  simp only [List.append_nil, List.length_nil] at this
  rw [this]
  congr 1
  simp only [List.length_append, List.length_replicate]
  rw [List.take_append_eq_append_take, List.take_of_length_le (by omega)]
  simp only [List.take_replicate]
  congr 2
  omega

theorem write_hex_grows (out : List Char) (v : Nat) (upper : Bool) (mn : Nat) (h : v < 2 ^ 64) :
    out <+: write_hex out v upper mn := by
  rw [write_hex_spec out v upper mn h, List.append_assoc]
  exact List.prefix_append _ _

theorem write_octal_grows (out : List Char) (v : Nat) (mn : Nat) (h : v < 2 ^ 64) :
    out <+: write_octal out v mn := by
  rw [write_octal_spec out v mn h, List.append_assoc]
  exact List.prefix_append _ _

/-- The first loop of `write_decimal` ends by its own condition within `n + 1` rounds when
the value has at most `n + 1` digits and the minimum size is at most `n + 1`: more rounds
give the same text. -/
theorem write_decimal_loop_fuel (n j : Nat) (out : List Char) (v : Nat) (m : Int)
    (hv : v < 10 ^ (n + 1)) (hm : m ≤ n + 1) :
    write_decimal_loop (n + 1 + j) out v m = write_decimal_loop (n + 1) out v m := by
  induction n generalizing out v m with
  | zero =>
    have h10 : v / 10 = 0 := by omega
    have e : 0 + 1 + j = j + 1 := by omega
    rw [e]
    simp only [write_decimal_loop]
    rw [if_neg (by omega), if_neg (by omega)]
  | succ n ih =>
    have e : n + 1 + 1 + j = (n + 1 + j) + 1 := by omega
    rw [e, write_decimal_loop, write_decimal_loop]
    split
    · have hv2 : v / 10 < 10 ^ (n + 1) := by
        rw [pow_succ] at hv
        omega
      exact ih _ _ _ hv2 (by push_cast at hm ⊢; omega)
    · rfl

/-- The rounds that `write_decimal` allows for its first loop are enough for every 64-bit
value and every minimum size. -/
theorem write_decimal_fuel (j : Nat) (out : List Char) (v : Nat) (m : Int) (hv : v < 2 ^ 64) :
    write_decimal_loop (m.toNat + 21 + j) out v m = write_decimal_loop (m.toNat + 21) out v m := by
  have h1 : (2 : Nat) ^ 64 ≤ 10 ^ 21 := by norm_num
  have h2 : (10 : Nat) ^ 21 ≤ 10 ^ (m.toNat + 20 + 1) := Nat.pow_le_pow_right (by omega) (by omega)
  exact write_decimal_loop_fuel (m.toNat + 20) j out v m (by omega) (by push_cast; omega)

/-- The model of `utils::cntlz64` counts the leading zero bits: a non-zero 64-bit value
lies between the powers of two that its count fixes. -/
theorem cntlz64_spec (x : Nat) (h0 : x ≠ 0) (h : x < 2 ^ 64) :
    cntlz64 x ≤ 63 ∧ 2 ^ (63 - cntlz64 x) ≤ x ∧ x < 2 ^ (64 - cntlz64 x) := by
  obtain ⟨i1, i2, i3⟩ := bit_width_spec 64 x h
  obtain ⟨j1, j2⟩ := i2 h0
  unfold cntlz64
  have e1 : 63 - (64 - bit_width 64 x) = bit_width 64 x - 1 := by omega
  have e2 : 64 - (64 - bit_width 64 x) = bit_width 64 x := by omega
  rw [e1, e2]
  exact ⟨by omega, j1, i1⟩

/-! ## Lemmas on the cases of the switch and on the main loop -/

theorem shape_cont {σ : Type} {f : List Char} {s s' : cfmt_state σ} (d : Nat)
    (h1 : s'.out = s.out) (h2 : s'.fmt = s.fmt + d) (h3 : s'.ctx.size = s.ctx.size + d)
    (h4 : s.fmt ≤ f.length → s.fmt + d ≤ f.length) : step_shape f s s' :=
  Or.inl ⟨h1, d, h2, h3, h4⟩

theorem shape_done {σ : Type} {f : List Char} {s s' : cfmt_state σ}
    (h1 : s'.ctx = cfmt_context.zero) (h2 : s'.fmt = s.fmt) (h3 : s.out <+: s'.out) :
    step_shape f s s' :=
  Or.inr (Or.inl ⟨h1, h2, h3⟩)

theorem shape_drop {σ : Type} (f : List Char) (s : cfmt_state σ) :
    step_shape f s (drop_sequence f s) :=
  Or.inr (Or.inr rfl)

theorem read_decimal_shape {σ : Type} (f : List Char) (s : cfmt_state σ) (r : Nat) :
    s.fmt ≤ f.length → s.fmt + (read_decimal_loop (f.drop s.fmt) r).2 ≤ f.length := by
  intro h
  have := read_decimal_loop_le (f.drop s.fmt) r
  simp only [List.length_drop] at this
  omega

theorem case_width_shape {σ : Type} (f : List Char) (ch : Char) (s : cfmt_state σ) :
    step_shape f s (case_width f ch s) := by
  unfold case_width
  split
  · exact shape_drop f s
  · exact shape_cont _ rfl rfl rfl (read_decimal_shape f s _)

theorem case_star_shape {σ : Type} (P : cfmt_src σ) (f : List Char) (s : cfmt_state σ) :
    step_shape f s (case_star P f s) := by
  unfold case_star
  split
  · exact shape_drop f s
  · exact shape_cont 0 rfl rfl rfl (fun h => h)

theorem case_dot_shape {σ : Type} (P : cfmt_src σ) (f : List Char) (s : cfmt_state σ) :
    step_shape f s (case_dot P f s) := by
  unfold case_dot
  split
  · exact shape_drop f s
  · split
    · exact shape_cont _ rfl rfl rfl (read_decimal_shape f s _)
    · split
      · rename_i hstar
        split
        · exact shape_drop f s
        · refine shape_cont 1 rfl rfl rfl (fun _ => ?_)
          have : s.fmt < f.length := peek_lt (by rw [hstar]; decide)
          omega
      · exact shape_cont 0 rfl rfl rfl (fun h => h)

theorem case_double_shape {σ : Type} (f : List Char) (ch : Char) (a b : Nat) (s : cfmt_state σ)
    (hch : ch ≠ NUL) : step_shape f s (case_double f ch a b s) := by
  unfold case_double
  split
  · exact shape_drop f s
  · split
    · rename_i hp
      refine shape_cont 1 rfl rfl rfl (fun _ => ?_)
      have : s.fmt < f.length := peek_lt (by rw [hp]; exact hch)
      omega
    · exact shape_cont 0 rfl rfl rfl (fun h => h)

theorem case_single_shape {σ : Type} (f : List Char) (ty : Nat) (s : cfmt_state σ) :
    step_shape f s (case_single f ty s) := by
  unfold case_single
  split
  · exact shape_drop f s
  · exact shape_cont 0 rfl rfl rfl (fun h => h)

theorem pad_field_grows {pre out : List Char} (ctx : cfmt_context) (start : Nat) (c : Char)
    (h : pre <+: out) (hs : pre.length ≤ start) : pre <+: pad_field ctx start c out := by
  unfold pad_field
  split
  · apply str_insert_grows _ _ _ h
    have := h.length_le
    split <;> omega
  · exact h

theorem case_c_shape {σ : Type} (P : cfmt_src σ) (f : List Char) (s : cfmt_state σ) :
    step_shape f s (case_c P f s) := by
  unfold case_c
  split
  · exact shape_drop f s
  · refine shape_done rfl rfl ?_
    simp only [finish_arg]
    split
    · exact str_insert_grows _ _ _ (List.prefix_append _ _) (by omega)
    · exact List.prefix_append _ _

theorem string_field_grows {σ : Type} (P : cfmt_src σ) (s : cfmt_state σ) :
    s.out <+: string_field P s := by
  unfold string_field
  split
  · exact str_resize_grows _ _ (List.prefix_append _ _) (by omega)
  · exact List.prefix_append _ _

theorem case_s_shape {σ : Type} (P : cfmt_src σ) (f : List Char) (s : cfmt_state σ) :
    step_shape f s (case_s P f s) := by
  unfold case_s
  split
  · exact shape_drop f s
  · exact shape_done rfl rfl (pad_field_grows _ _ _ (string_field_grows P s) (le_refl _))

theorem signed_field_grows (ctx : cfmt_context) (ty val : Nat) (out : List Char) :
    out <+: signed_field ctx ty val out := by
  unfold signed_field
  split
  · exact (List.prefix_append _ _).trans (write_decimal_grows _ _ _)
  · exact List.prefix_refl _

theorem signed_pad_grows {pre out : List Char} (ctx : cfmt_context) (ty val start : Nat)
    (h : pre <+: out) (hs : pre.length ≤ start) : pre <+: signed_pad ctx ty val start out := by
  unfold signed_pad
  have := h.length_le
  split
  · split
    · exact str_insert_grows _ _ _ h (by omega)
    · apply str_insert_grows _ _ _ h
      split <;> omega
  · exact h

theorem case_d_shape {σ : Type} (P : cfmt_src σ) (f : List Char) (s : cfmt_state σ) :
    step_shape f s (case_d P f s) := by
  unfold case_d
  split
  · exact shape_drop f s
  · exact shape_done rfl rfl (signed_pad_grows _ _ _ _ (signed_field_grows _ _ _ _) (le_refl _))

theorem masked_val_lt {σ : Type} (P : cfmt_src σ) (s : cfmt_state σ) : masked_val P s < 2 ^ 64 := by
  unfold masked_val
  exact lt_of_le_of_lt Nat.and_le_left (Nat.mod_lt _ (by norm_num))

theorem octal_field_grows (ctx : cfmt_context) (val : Nat) (out : List Char)
    (h : val < 2 ^ 64) : out <+: octal_field ctx val out := by
  unfold octal_field
  split
  · split
    · exact (List.prefix_append _ _).trans (write_octal_grows _ _ _ h)
    · exact List.prefix_append _ _
  · split
    · exact write_octal_grows _ _ _ h
    · exact List.prefix_refl _

theorem case_o_shape {σ : Type} (P : cfmt_src σ) (f : List Char) (s : cfmt_state σ) :
    step_shape f s (case_o P f s) := by
  unfold case_o
  split
  · exact shape_drop f s
  · exact shape_done rfl rfl
      (pad_field_grows _ _ _ (octal_field_grows _ _ _ (masked_val_lt P s)) (le_refl _))

theorem hex_field_grows (ctx : cfmt_context) (ch : Char) (val : Nat) (out : List Char)
    (h : val < 2 ^ 64) : out <+: hex_field ctx ch val out := by
  unfold hex_field
  split
  · split
    · rw [List.append_assoc]
      exact (List.prefix_append _ _).trans (write_hex_grows _ _ _ _ h)
    · exact List.prefix_append _ _
  · split
    · exact write_hex_grows _ _ _ _ h
    · exact List.prefix_refl _

theorem hex_pad_grows {pre out : List Char} (ctx : cfmt_context) (val start : Nat)
    (h : pre <+: out) (hs : pre.length ≤ start) : pre <+: hex_pad ctx val start out := by
  unfold hex_pad
  have := h.length_le
  split
  · split
    · exact str_insert_grows _ _ _ h (by omega)
    · apply str_insert_grows _ _ _ h
      split <;> omega
  · exact h

theorem case_x_shape {σ : Type} (P : cfmt_src σ) (f : List Char) (ch : Char) (s : cfmt_state σ) :
    step_shape f s (case_x P f ch s) := by
  unfold case_x
  split
  · exact shape_drop f s
  · exact shape_done rfl rfl
      (hex_pad_grows _ _ _ (hex_field_grows _ _ _ _ (masked_val_lt P s)) (le_refl _))

theorem unsigned_field_grows (ctx : cfmt_context) (val : Nat) (out : List Char) :
    out <+: unsigned_field ctx val out := by
  unfold unsigned_field
  split
  · exact write_decimal_grows _ _ _
  · exact List.prefix_refl _

theorem case_u_shape {σ : Type} (P : cfmt_src σ) (f : List Char) (s : cfmt_state σ) :
    step_shape f s (case_u P f s) := by
  unfold case_u
  split
  · exact shape_drop f s
  · exact shape_done rfl rfl (pad_field_grows _ _ _ (unsigned_field_grows _ _ _) (le_refl _))

theorem case_p_shape {σ : Type} (P : cfmt_src σ) (f : List Char) (s : cfmt_state σ) :
    step_shape f s (case_p P f s) := by
  unfold case_p
  split
  · exact shape_drop f s
  · exact shape_done rfl rfl
      (pad_field_grows _ _ _ (write_hex_grows _ _ _ _ (Nat.mod_lt _ (by norm_num))) (le_refl _))

theorem case_float_shape {σ : Type} (P : cfmt_src σ) (f : List Char) (s : cfmt_state σ) :
    step_shape f s (case_float P f s) := by
  unfold case_float
  split
  · exact shape_drop f s
  · exact shape_done rfl rfl (List.prefix_append _ _)

theorem shape_ite {σ : Type} {c : Prop} [Decidable c] {f : List Char} {s a b : cfmt_state σ}
    (ha : c → step_shape f s a) (hb : ¬ c → step_shape f s b) :
    step_shape f s (if c then a else b) := by
  split
  · exact ha (by assumption)
  · exact hb (by assumption)

/-- Every case of the switch has one of the three outcomes. -/
theorem cfmt_switch_shape {σ : Type} (P : cfmt_src σ) (f : List Char) (ch : Char)
    (s : cfmt_state σ) : step_shape f s (cfmt_switch P f ch s) := by
  unfold cfmt_switch
  refine shape_ite (fun h => ?_) (fun _ => ?_)
  · exact shape_cont 0 rfl rfl rfl (fun h => h)
  refine shape_ite (fun h => ?_) (fun _ => ?_)
  · exact shape_cont 0 rfl rfl rfl (fun h => h)
  refine shape_ite (fun h => ?_) (fun _ => ?_)
  · exact shape_cont 0 rfl rfl rfl (fun h => h)
  refine shape_ite (fun h => ?_) (fun _ => ?_)
  · exact shape_cont 0 rfl rfl rfl (fun h => h)
  refine shape_ite (fun h => ?_) (fun _ => ?_)
  · exact shape_cont 0 rfl rfl rfl (fun h => h)
  refine shape_ite (fun h => ?_) (fun _ => ?_)
  · exact case_width_shape f ch s
  refine shape_ite (fun h => ?_) (fun _ => ?_)
  · exact case_star_shape P f s
  refine shape_ite (fun h => ?_) (fun _ => ?_)
  · exact case_dot_shape P f s
  refine shape_ite (fun h => ?_) (fun _ => ?_)
  · exact case_double_shape f ch _ _ s (by rw [h]; decide)
  refine shape_ite (fun h => ?_) (fun _ => ?_)
  · exact case_double_shape f ch _ _ s (by rw [h]; decide)
  refine shape_ite (fun h => ?_) (fun _ => ?_)
  · exact case_single_shape f _ s
  refine shape_ite (fun h => ?_) (fun _ => ?_)
  · exact case_single_shape f _ s
  refine shape_ite (fun h => ?_) (fun _ => ?_)
  · exact case_single_shape f _ s
  refine shape_ite (fun h => ?_) (fun _ => ?_)
  · exact case_c_shape P f s
  refine shape_ite (fun h => ?_) (fun _ => ?_)
  · exact case_s_shape P f s
  refine shape_ite (fun h => ?_) (fun _ => ?_)
  · exact case_d_shape P f s
  refine shape_ite (fun h => ?_) (fun _ => ?_)
  · exact case_o_shape P f s
  refine shape_ite (fun h => ?_) (fun _ => ?_)
  · exact case_x_shape P f ch s
  refine shape_ite (fun h => ?_) (fun _ => ?_)
  · exact case_u_shape P f s
  refine shape_ite (fun h => ?_) (fun _ => ?_)
  · exact case_p_shape P f s
  refine shape_ite (fun h => ?_) (fun _ => ?_)
  · exact case_float_shape P f s
  exact shape_drop f s

theorem step_shape_grows {σ : Type} {f : List Char} {s s' : cfmt_state σ}
    (h : step_shape f s s') : s.out <+: s'.out := by
  rcases h with ⟨h1, _⟩ | ⟨_, _, h3⟩ | h
  · rw [h1]
  · exact h3
  · rw [h]
    exact List.prefix_append _ _

theorem step_shape_fmt {σ : Type} {f : List Char} {s s' : cfmt_state σ}
    (h : step_shape f s s') : s.fmt ≤ s'.fmt := by
  rcases h with ⟨_, d, h2, _⟩ | ⟨_, h2, _⟩ | h
  · omega
  · omega
  · rw [h]
    exact le_refl _

theorem cfmt_iter_grows {σ : Type} (P : cfmt_src σ) (f : List Char) (st : cfmt_state σ) :
    st.out <+: (cfmt_iter P f st).out := by
  unfold cfmt_iter
  split_ifs
  · exact List.prefix_refl _
  · exact List.prefix_append _ _
  · exact List.prefix_append _ _
  · exact List.prefix_append _ _
  · have h := step_shape_grows (cfmt_switch_shape P f (peek f st.fmt)
      { st with fmt := st.fmt + 1, ctx := { st.ctx with size := st.ctx.size + 1 } })
    exact h

theorem cfmt_iter_fmt {σ : Type} (P : cfmt_src σ) (f : List Char) (st : cfmt_state σ) :
    st.fmt + 1 ≤ (cfmt_iter P f st).fmt := by
  unfold cfmt_iter
  split_ifs
  · exact le_refl _
  · exact le_refl _
  · exact le_refl _
  · exact le_refl _
  · have h := step_shape_fmt (cfmt_switch_shape P f (peek f st.fmt)
      { st with fmt := st.fmt + 1, ctx := { st.ctx with size := st.ctx.size + 1 } })
    exact h

/-- The main loop reaches the NUL within the rounds it is given, and `out` only grows at
its end. -/
theorem cfmt_loop_some {σ : Type} (P : cfmt_src σ) (f : List Char) (n : Nat)
    (st : cfmt_state σ) (h : f.length + 1 ≤ st.fmt + n) (hn : 1 ≤ n) :
    ∃ st', cfmt_loop P f n st = some st' ∧ st.out <+: st'.out := by
  induction n generalizing st with
  | zero => omega
  | succ n ih =>
    simp only [cfmt_loop]
    split
    · exact ⟨_, rfl, List.prefix_refl _⟩
    · rename_i hp
      have hlt : st.fmt < f.length := peek_lt hp
      have hf := cfmt_iter_fmt P f st
      obtain ⟨st', h1, h2⟩ := ih (cfmt_iter P f st) (by omega) (by omega)
      exact ⟨st', h1, (cfmt_iter_grows P f st).trans h2⟩

theorem cfmt_finish_grows {σ : Type} (f : List Char) (st : cfmt_state σ) :
    st.out <+: (cfmt_finish f st).out := by
  unfold cfmt_finish
  split
  · exact List.prefix_append _ _
  · exact List.prefix_refl _

theorem cfmt_run_some {σ : Type} (P : cfmt_src σ) (f : List Char) (out : List Char) (src : σ) :
    ∃ fin, cfmt_run P f out src = some fin ∧ out <+: fin.out := by
  obtain ⟨st', h1, h2⟩ := cfmt_loop_some P f (f.length + 1) (cfmt_start out src)
    (by simp [cfmt_start]) (by omega)
  refine ⟨cfmt_finish f st', ?_, ?_⟩
  · simp [cfmt_run, h1]
  · exact h2.trans (cfmt_finish_grows f st')

theorem size_t_sub_append (a b : Nat) : (a + b + (2 ^ 64 - a % 2 ^ 64)) % 2 ^ 64 = b % 2 ^ 64 := by
  omega

/-! ## Lemmas on dropped sequences -/

theorem cfmt_steps_succ {σ : Type} (P : cfmt_src σ) (f : List Char) (k : Nat)
    (s0 st : cfmt_state σ) (h : cfmt_steps P f k s0 = some st) (hp : peek f st.fmt ≠ NUL) :
    cfmt_steps P f (k + 1) s0 = some (cfmt_iter P f st) := by
  induction k generalizing s0 with
  | zero =>
    simp only [cfmt_steps, Option.some.injEq] at h
    subst h
    simp [cfmt_steps, hp]
  | succ k ih =>
    rw [cfmt_steps] at h
    split at h
    · exact absurd h (by simp)
    · rename_i hq
      rw [cfmt_steps, if_neg hq]
      exact ih _ h

theorem drop_take_append_drop (f : List Char) (a b : Nat) (hab : a ≤ b) (hb : b ≤ f.length) :
    (f.take b).drop a ++ f.drop b = f.drop a := by
  have h1 : (f.take b).length = b := by simp [hb]
  have h2 := @List.drop_append_of_le_length _ (f.take b) (f.drop b) a (by omega)
  rw [List.take_append_drop] at h2
  exact h2.symm

theorem size_dropped_pos : 1 < size_dropped := by
  unfold size_dropped
  norm_num

/-- One round of the main loop keeps the invariant. -/
theorem cfmt_iter_inv {σ : Type} (P : cfmt_src σ) (f : List Char) (hf : f.length < size_dropped)
    (s0 st : cfmt_state σ) (hreach : ∃ k, cfmt_steps P f k s0 = some st)
    (hinv : seq_inv P f s0 st) (hp : peek f st.fmt ≠ NUL) :
    seq_inv P f s0 (cfmt_iter P f st) := by
  have hlt : st.fmt < f.length := peek_lt hp
  have hget : f[st.fmt]? = some (peek f st.fmt) := by
    rw [peek_eq_getElem hlt, List.getElem?_eq_getElem hlt]
  have hdrop : f.drop st.fmt = peek f st.fmt :: f.drop (st.fmt + 1) := by
    rw [peek_eq_getElem hlt]
    exact List.drop_eq_getElem_cons hlt
  obtain ⟨hle, hcases⟩ := hinv
  unfold cfmt_iter
  by_cases h0 : st.ctx.size = 0
  · rw [if_pos h0]
    by_cases hpc : peek f st.fmt = '%'
    · rw [if_pos hpc]
      refine ⟨by simpa using hlt, Or.inr ⟨st, ⟨hreach, h0, by rw [hget, hpc]⟩, Or.inl ?_⟩⟩
      exact ⟨by simp, size_dropped_pos, rfl, rfl⟩
    · rw [if_neg hpc]
      exact ⟨by simpa using hlt, Or.inl h0⟩
  · rw [if_neg h0]
    by_cases h1 : st.ctx.size = 1 ∧ peek f st.fmt = '%'
    · rw [if_pos h1]
      exact ⟨by simpa using hlt, Or.inl rfl⟩
    · rw [if_neg h1]
      rcases hcases with hz | ⟨s, hs, hmid | hdr⟩
      · exact absurd hz h0
      · obtain ⟨_, hsz, hfmt, hout⟩ := hmid
        rw [if_neg (by omega)]
        have hshape := cfmt_switch_shape P f (peek f st.fmt)
          { st with fmt := st.fmt + 1, ctx := { st.ctx with size := st.ctx.size + 1 } }
        generalize cfmt_switch P f (peek f st.fmt)
          { st with fmt := st.fmt + 1, ctx := { st.ctx with size := st.ctx.size + 1 } } = st'
          at hshape ⊢
        rcases hshape with ⟨e1, d, e2, e3, e4⟩ | ⟨e1, e2, _⟩ | e
        · simp only at e1 e2 e3 e4
          have := e4 (by omega)
          refine ⟨by omega, Or.inr ⟨s, hs, Or.inl ⟨by omega, by omega, by omega, ?_⟩⟩⟩
          rw [e1, hout]
        · simp only at e2
          exact ⟨by omega, Or.inl (by rw [e1]; rfl)⟩
        · rw [e]
          refine ⟨by simpa [drop_sequence] using hlt, Or.inr ⟨s, hs, Or.inr ⟨rfl, ?_⟩⟩⟩
          simp only [drop_sequence]
          have e5 : st.fmt + 1 - (st.ctx.size + 1) = s.fmt := by omega
          rw [e5, hout, List.append_assoc,
            drop_take_append_drop f s.fmt (st.fmt + 1) (by omega) (by omega)]
      · obtain ⟨hsz, hout⟩ := hdr
        rw [if_pos hsz]
        refine ⟨by simpa using hlt, Or.inr ⟨s, hs, Or.inr ⟨hsz, ?_⟩⟩⟩
        simp only
        rw [← hout, hdrop]
        simp

/-- A run that ends in dropped mode has appended, from the `%` of the dropped sequence
on, the rest of the format string. -/
theorem cfmt_loop_dropped {σ : Type} (P : cfmt_src σ) (f : List Char)
    (hf : f.length < size_dropped) (hnul : NUL ∉ f) (s0 : cfmt_state σ) (n : Nat)
    (st pre : cfmt_state σ) (hreach : ∃ k, cfmt_steps P f k s0 = some st)
    (hinv : seq_inv P f s0 st) (hl : cfmt_loop P f n st = some pre)
    (hd : (cfmt_finish f pre).ctx.size = size_dropped) :
    ∃ s, seq_start P f s0 s ∧ (cfmt_finish f pre).out = s.out ++ f.drop s.fmt := by
  induction n generalizing st with
  | zero => simp [cfmt_loop] at hl
  | succ n ih =>
    rw [cfmt_loop] at hl
    split at hl
    · rename_i hpk
      simp only [Option.some.injEq] at hl
      subst hl
      obtain ⟨hle, hcases⟩ := hinv
      have hlen : st.fmt = f.length := by
        by_contra hne
        have hlt : st.fmt < f.length := by omega
        apply hnul
        rw [← hpk, peek_eq_getElem hlt]
        exact List.getElem_mem _
      unfold cfmt_finish at hd ⊢
      simp only at hd ⊢
      by_cases hc : st.ctx.size ≠ 0 ∧ st.ctx.size ≠ size_dropped
      · rw [if_pos hc]
        rcases hcases with hz | ⟨s, hs, hmid | hdr⟩
        · exact absurd hz hc.1
        · obtain ⟨_, hsz, hfmt, hout⟩ := hmid
          refine ⟨s, hs, ?_⟩
          simp only [drop_sequence, Nat.add_sub_cancel]
          have e5 : st.fmt - st.ctx.size = s.fmt := by omega
          rw [e5, hout, hlen, List.take_length]
        · exact absurd hdr.1 hc.2
      · rw [if_neg hc] at hd ⊢
        simp only at hd
        rcases hcases with hz | ⟨s, hs, hmid | hdr⟩
        · rw [hz] at hd
          exact absurd hd (by unfold size_dropped; norm_num)
        · exact absurd hd (by omega)
        · refine ⟨s, hs, ?_⟩
          have := hdr.2
          rw [hlen, List.drop_length, List.append_nil] at this
          exact this
    · rename_i hpk
      obtain ⟨k, hk⟩ := hreach
      exact ih (cfmt_iter P f st) ⟨k + 1, cfmt_steps_succ P f k s0 st hk hpk⟩
        (cfmt_iter_inv P f hf s0 st ⟨k, hk⟩ hinv hpk) hl

/-! ## Lemmas on the digits of a written number -/

theorem size_t_sub_self (a : Nat) : (a + (2 ^ 64 - a % 2 ^ 64)) % 2 ^ 64 = 0 := by
  omega

/-- The first loop of `write_decimal` without a minimum size pushes the decimal digits of
the value, least significant first, and a single `0` for the value 0. -/
theorem write_decimal_loop_spec (n : Nat) (out : List Char) (v : Nat) (m : Int) (hm : m ≤ 1)
    (hv : v < 10 ^ (n + 1)) :
    write_decimal_loop (n + 1) out v m =
      out ++ (if v = 0 then [decimal_digit 0] else (Nat.digits 10 v).map decimal_digit) := by
  induction n generalizing out v m with
  | zero =>
    have h10 : v / 10 = 0 := by omega
    simp only [write_decimal_loop]
    rw [if_neg (by omega)]
    by_cases h0 : v = 0
    · subst h0
      simp
    · rw [if_neg h0, Nat.digits_def' (by omega) (Nat.pos_of_ne_zero h0), h10]
      simp
  | succ n ih =>
    rw [write_decimal_loop]
    by_cases h10 : v / 10 = 0
    · rw [if_neg (by omega)]
      by_cases h0 : v = 0
      · subst h0
        simp
      · rw [if_neg h0, Nat.digits_def' (by omega) (Nat.pos_of_ne_zero h0), h10]
        simp
    · rw [if_pos (Or.inr h10)]
      have h0 : v ≠ 0 := by omega
      have hv2 : v / 10 < 10 ^ (n + 1) := by
        rw [pow_succ] at hv
        omega
      rw [ih _ _ (m - 1) (by omega) hv2, if_neg h10, if_neg h0,
        Nat.digits_def' (by omega) (Nat.pos_of_ne_zero h0)]
      simp

theorem write_decimal_spec (out : List Char) (v : Nat) (hv : v < 2 ^ 64) :
    write_decimal out v 0 =
      out ++ (if v = 0 then [decimal_digit 0] else digits_msb 10 decimal_digit v) := by
  have h := write_decimal_loop_spec 20 out v 0 (by omega)
    (lt_of_lt_of_le hv (by norm_num))
  rw [write_decimal_eq out v 0 _ h]
  split
  · simp
  · rfl

/-- The first loop of `write_decimal` pushes the decimal digits of the value, least
significant first, and then zeros up to the minimum size; the value 0 without a minimum
size gives one zero. -/
theorem write_decimal_loop_prec (n : Nat) (out : List Char) (v : Nat) (m : Int)
    (hv : v < 10 ^ (n + 1)) (hm : m ≤ n + 1) :
    write_decimal_loop (n + 1) out v m =
      out ++ (Nat.digits 10 v).map decimal_digit ++
        List.replicate (max m.toNat 1 - (Nat.digits 10 v).length) '0' := by
  have h00 : decimal_digit 0 = '0' := rfl
  induction n generalizing out v m with
  | zero =>
    have h10 : v / 10 = 0 := by omega
    simp only [write_decimal_loop]
    rw [if_neg (by omega)]
    have hmax : max m.toNat 1 = 1 := by omega
    rw [hmax]
    by_cases h0 : v = 0
    · subst h0
      simp [h00]
    · rw [Nat.digits_def' (by omega) (Nat.pos_of_ne_zero h0), h10]
      simp
  | succ n ih =>
    rw [write_decimal_loop]
    split
    · rename_i hc
      have hv2 : v / 10 < 10 ^ (n + 1) := by
        rw [pow_succ] at hv
        omega
      rw [ih _ _ (m - 1) hv2 (by push_cast at hm ⊢; omega)]
      by_cases h0 : v = 0
      · subst h0
        have hm2 : 2 ≤ m := by omega
        have e1 : max (m - 1).toNat 1 = (m - 1).toNat := by omega
        have e2 : max m.toNat 1 = (m - 1).toNat + 1 := by omega
        simp only [Nat.zero_div, Nat.zero_mod, Nat.digits_zero, List.map_nil, List.length_nil,
          Nat.sub_zero, List.append_nil, e1, e2, h00, List.replicate_succ, List.append_assoc,
          List.singleton_append]
      · rw [Nat.digits_def' (by omega) (Nat.pos_of_ne_zero h0)]
        simp only [List.map_cons, List.length_cons, List.append_assoc, List.singleton_append]
        congr 3
        by_cases h10 : v / 10 = 0
        · have : (Nat.digits 10 (v / 10)).length = 0 := by rw [h10]; simp
          omega
        · have : (Nat.digits 10 (v / 10)).length ≠ 0 := by
            intro hl
            exact h10 (Nat.digits_eq_nil_iff_eq_zero.mp (List.length_eq_zero.mp hl))
          omega
    · rename_i hc
      have h10 : v / 10 = 0 := by omega
      have hmax : max m.toNat 1 = 1 := by omega
      rw [hmax]
      by_cases h0 : v = 0
      · subst h0
        simp [h00]
      · rw [Nat.digits_def' (by omega) (Nat.pos_of_ne_zero h0), h10]
        simp

/-- The text of `write_decimal` for a 64-bit value and a minimum size `p`: the decimal
digits of the value, padded with zeros on the left to `p` characters (to one character
when `p` is 0). -/
theorem write_decimal_prec (out : List Char) (v p : Nat) (hv : v < 2 ^ 64) :
    write_decimal out v p =
      out ++ List.replicate (max p 1 - (Nat.digits 10 v).length) '0' ++
        digits_msb 10 decimal_digit v := by
  have h1 : (2 : Nat) ^ 64 ≤ 10 ^ 21 := by norm_num
  have h2 : (10 : Nat) ^ 21 ≤ 10 ^ (p + 20 + 1) := Nat.pow_le_pow_right (by omega) (by omega)
  have h := write_decimal_loop_prec (p + 20) out v (p : Int) (by omega) (by push_cast; omega)
  have e : ((p : Int).toNat + 21) = p + 20 + 1 := by simp
  rw [List.append_assoc] at h
  rw [write_decimal_eq out v p _ (by rw [e]; exact h)]
  simp [digits_msb, List.append_assoc]

/-- The digits of case `'u'` for an explicit precision: a precision of at least 1 pads
with zeros as C does, the precision 0 gives no character for any value. -/
theorem unsigned_field_prec (ctx : cfmt_context) (val : Nat) (out : List Char)
    (hv : val < 2 ^ 64) (hd : ctx.dot = true) :
    (1 ≤ ctx.prec → unsigned_field ctx val out =
        out ++ List.replicate (ctx.prec - (Nat.digits 10 val).length) '0' ++
          digits_msb 10 decimal_digit val) ∧
      (ctx.prec = 0 → unsigned_field ctx val out = out) := by
  constructor
  · intro hp
    unfold unsigned_field
    rw [if_pos (Or.inr (by omega)), write_decimal_prec out val ctx.prec hv]
    have : max ctx.prec 1 = ctx.prec := by omega
    rw [this]
  · intro hp
    unfold unsigned_field
    rw [if_neg (by simp [hd, hp])]

theorem parse_digits_msb (b : Nat) (digit : Nat → Char) (v : Nat) (hb : 1 < b)
    (hd : ∀ d, d < b → digit_val (digit d) = d) : parse_base b (digits_msb b digit v) = v := by
  unfold parse_base digits_msb
  rw [List.foldl_reverse]
  have key : ∀ L : List Nat, (∀ d ∈ L, d < b) →
      List.foldr (fun c acc => acc * b + digit_val c) 0 (L.map digit) = Nat.ofDigits b L := by
    intro L
    induction L with
    | nil => intro _; simp
    | cons d L ih =>
      intro hL
      simp only [List.map_cons, List.foldr_cons, Nat.ofDigits_cons]
      rw [ih (fun x hx => hL x (List.mem_cons_of_mem _ hx)), hd d (hL d (List.mem_cons_self _ _))]
      ring
  rw [key _ (fun d h => Nat.digits_lt_base hb h), Nat.ofDigits_digits]

theorem digits_msb_mem (b : Nat) (digit : Nat → Char) (v : Nat) (hb : 1 < b) (c : Char)
    (hc : c ∈ digits_msb b digit v) : ∃ d, d < b ∧ c = digit d := by
  unfold digits_msb at hc
  rw [List.mem_reverse, List.mem_map] at hc
  obtain ⟨d, hd, rfl⟩ := hc
  exact ⟨d, Nat.digits_lt_base hb hd, rfl⟩

theorem digits_msb_head (b : Nat) (digit : Nat → Char) (v : Nat) (hb : 1 < b) (hv : v ≠ 0) :
    ∃ d, d ≠ 0 ∧ d < b ∧ (digits_msb b digit v).head? = some (digit d) := by
  have hne : Nat.digits b v ≠ [] := Nat.digits_ne_nil_iff_ne_zero.mpr hv
  refine ⟨(Nat.digits b v).getLast hne, Nat.getLast_digit_ne_zero b hv,
    Nat.digits_lt_base hb (List.getLast_mem hne), ?_⟩
  unfold digits_msb
  rw [List.head?_reverse, List.getLast?_map, List.getLast?_eq_getLast _ hne]
  rfl

theorem hex_digit_val (upper : Bool) (d : Nat) (hd : d < 16) :
    digit_val (hex_digit upper d) = d := by
  cases upper <;> interval_cases d <;> rfl

theorem hex_digit_mem (d : Nat) (hd : d < 16) :
    hex_digit false d ∈ hex_lower ∧ hex_digit true d ∈ hex_upper := by
  interval_cases d <;> exact ⟨by decide, by decide⟩

theorem hex_digit_ne_zero (upper : Bool) (d : Nat) (hd : d < 16) (h0 : d ≠ 0) :
    hex_digit upper d ≠ '0' := by
  cases upper <;> interval_cases d <;> first | exact absurd rfl h0 | decide

theorem hex_digit_upper (d : Nat) (hd : d < 16) :
    hex_digit true d = (hex_digit false d).toUpper := by
  interval_cases d <;> rfl

theorem octal_digit_val (d : Nat) (hd : d < 8) : digit_val (octal_digit d) = d := by
  interval_cases d <;> rfl

theorem octal_digit_mem (d : Nat) (hd : d < 8) :
    octal_digit d ∈ ['0', '1', '2', '3', '4', '5', '6', '7'] := by
  interval_cases d <;> decide

theorem octal_digit_ne_zero (d : Nat) (hd : d < 8) (h0 : d ≠ 0) : octal_digit d ≠ '0' := by
  interval_cases d <;> first | exact absurd rfl h0 | decide

theorem decimal_digit_val (d : Nat) (hd : d < 10) : digit_val (decimal_digit d) = d := by
  interval_cases d <;> rfl

theorem decimal_digit_ne (d : Nat) (hd : d < 10) :
    decimal_digit d ≠ '-' ∧ (d ≠ 0 → decimal_digit d ≠ '0') := by
  interval_cases d <;> exact ⟨by decide, by decide⟩

/-! ## Runs on `%llx`, `%llo` and `%lld` -/

theorem run_llx {σ : Type} (P : cfmt_src σ) (src : σ) (out : List Char) (c : Char)
    (hc : c = 'x' ∨ c = 'X') (ht : P.test src 0 = true) (hl : P.size_llong = 8)
    (hm : P.int_max 8 = 2 ^ 64 - 1) :
    cfmt_append P ['%', 'l', 'l', c] out src =
      some (write_hex out (P.get_u64 src 0 % 2 ^ 64) (decide (c = 'X')) 0,
        ((write_hex out (P.get_u64 src 0 % 2 ^ 64) (decide (c = 'X')) 0).length
          + (2 ^ 64 - out.length % 2 ^ 64)) % 2 ^ 64) := by
  have hmask : ∀ x : Nat,
      x % 18446744073709551616 &&& 18446744073709551615 = x % 18446744073709551616 := by
    intro x
    have := Nat.and_pow_two_sub_one_eq_mod (x % 2 ^ 64) 64
    simpa using this
  rcases hc with rfl | rfl <;>
  simp [cfmt_append, cfmt_run, cfmt_loop, cfmt_iter, cfmt_switch, cfmt_start, peek,
    cfmt_context.zero, case_double, case_x, hex_pad, hex_field, masked_val, resolve_type,
    int_mask, ht, hl, hm, finish_arg, cfmt_finish, NUL, SPACE, size_dropped, hmask]

theorem run_llo {σ : Type} (P : cfmt_src σ) (src : σ) (out : List Char)
    (ht : P.test src 0 = true) (hl : P.size_llong = 8) (hm : P.int_max 8 = 2 ^ 64 - 1) :
    cfmt_append P ['%', 'l', 'l', 'o'] out src =
      some (write_octal out (P.get_u64 src 0 % 2 ^ 64) 0,
        ((write_octal out (P.get_u64 src 0 % 2 ^ 64) 0).length
          + (2 ^ 64 - out.length % 2 ^ 64)) % 2 ^ 64) := by
  have hmask : ∀ x : Nat,
      x % 18446744073709551616 &&& 18446744073709551615 = x % 18446744073709551616 := by
    intro x
    have := Nat.and_pow_two_sub_one_eq_mod (x % 2 ^ 64) 64
    simpa using this
  simp [cfmt_append, cfmt_run, cfmt_loop, cfmt_iter, cfmt_switch, cfmt_start, peek,
    cfmt_context.zero, case_double, case_o, pad_field, octal_field, masked_val, resolve_type,
    int_mask, ht, hl, hm, finish_arg, cfmt_finish, NUL, SPACE, size_dropped, hmask]

theorem run_lld {σ : Type} (P : cfmt_src σ) (src : σ) (out : List Char)
    (ht : P.test src 0 = true) (hl : P.size_llong = 8) :
    cfmt_append P ['%', 'l', 'l', 'd'] out src =
      some (write_decimal (out ++ (if 2 ^ 63 ≤ P.get_u64 src 0 % 2 ^ 64 then ['-'] else []))
          (if 2 ^ 63 ≤ P.get_u64 src 0 % 2 ^ 64 then (2 ^ 64 - P.get_u64 src 0 % 2 ^ 64) % 2 ^ 64
            else P.get_u64 src 0 % 2 ^ 64) 0,
        ((write_decimal (out ++ (if 2 ^ 63 ≤ P.get_u64 src 0 % 2 ^ 64 then ['-'] else []))
          (if 2 ^ 63 ≤ P.get_u64 src 0 % 2 ^ 64 then (2 ^ 64 - P.get_u64 src 0 % 2 ^ 64) % 2 ^ 64
            else P.get_u64 src 0 % 2 ^ 64) 0).length
          + (2 ^ 64 - out.length % 2 ^ 64)) % 2 ^ 64) := by
  by_cases hneg : 2 ^ 63 ≤ P.get_u64 src 0 % 2 ^ 64 <;>
  simp [cfmt_append, cfmt_run, cfmt_loop, cfmt_iter, cfmt_switch, cfmt_start, peek,
    cfmt_context.zero, case_double, case_d, signed_pad, signed_field, sign_char, resolve_type,
    ht, hl, finish_arg, cfmt_finish, NUL, SPACE, size_dropped, hneg]

theorem size_t_sub_small (a b : Nat) (hb : b < 2 ^ 64) :
    (a + b + (2 ^ 64 - a % 2 ^ 64)) % 2 ^ 64 = b := by
  omega

/-- The text that `write_hex` appends without a minimum number of digits. -/
theorem hex_text (upper : Bool) (out : List Char) (v : Nat) (hv : v < 2 ^ 64) :
    write_hex out v upper 0 =
        out ++ (if v = 0 then ['0'] else digits_msb 16 (hex_digit upper) v) ∧
      (if v = 0 then ['0'] else digits_msb 16 (hex_digit upper) v).length =
        16 - cntlz64 (v ||| 1) / 4 := by
  have e : (64 : Nat) / 4 = 16 := by norm_num
  obtain ⟨l0, l1⟩ := hex_len_spec v hv
  rw [e] at l0 l1
  rw [write_hex_spec out v upper 0 hv, e]
  by_cases h0 : v = 0
  · subst h0
    rw [l0 rfl]
    simp [digits_msb]
  · rw [if_neg h0, digits_msb_length, ← l1 h0]
    simp

/-- The text that `write_octal` appends without a minimum number of digits. -/
theorem octal_text (out : List Char) (v : Nat) (hv : v < 2 ^ 64) :
    write_octal out v 0 = out ++ (if v = 0 then ['0'] else digits_msb 8 octal_digit v) ∧
      (if v = 0 then ['0'] else digits_msb 8 octal_digit v).length =
        22 - (cntlz64 (v ||| 1) + 2) / 3 := by
  have e : (66 : Nat) / 3 = 22 := by norm_num
  obtain ⟨l0, l1⟩ := octal_len_spec v hv
  rw [e] at l0 l1
  rw [write_octal_spec out v 0 hv, e]
  by_cases h0 : v = 0
  · subst h0
    rw [l0 rfl]
    simp [digits_msb]
  · rw [if_neg h0, digits_msb_length, ← l1 h0]
    simp

theorem hex_text_props (upper : Bool) (v : Nat) :
    (∀ c ∈ (if v = 0 then ['0'] else digits_msb 16 (hex_digit upper) v),
        c ∈ (if upper then hex_upper else hex_lower)) ∧
      parse_base 16 (if v = 0 then ['0'] else digits_msb 16 (hex_digit upper) v) = v ∧
      (v ≠ 0 → (if v = 0 then ['0'] else digits_msb 16 (hex_digit upper) v).head? ≠ some '0') := by
  by_cases h0 : v = 0
  · subst h0
    refine ⟨?_, by simp only [if_pos]; decide, fun h => absurd rfl h⟩
    cases upper <;> decide
  · simp only [if_neg h0]
    refine ⟨fun c hc => ?_, parse_digits_msb 16 _ v (by omega) (hex_digit_val upper), fun _ => ?_⟩
    · obtain ⟨d, hd, rfl⟩ := digits_msb_mem 16 _ v (by omega) c hc
      cases upper
      · exact (hex_digit_mem d hd).1
      · exact (hex_digit_mem d hd).2
    · obtain ⟨d, hd0, hd, hh⟩ := digits_msb_head 16 (hex_digit upper) v (by omega) h0
      rw [hh]
      intro hc
      exact hex_digit_ne_zero upper d hd hd0 (Option.some.inj hc)

theorem hex_text_upper (v : Nat) :
    (if v = 0 then ['0'] else digits_msb 16 (hex_digit true) v) =
      (if v = 0 then ['0'] else digits_msb 16 (hex_digit false) v).map Char.toUpper := by
  by_cases h0 : v = 0
  · subst h0
    decide
  · simp only [if_neg h0, digits_msb, List.map_reverse, List.map_map]
    congr 1
    apply List.map_congr_left
    intro d hd
    exact hex_digit_upper d (Nat.digits_lt_base (by omega) hd)

theorem octal_text_props (v : Nat) :
    (∀ c ∈ (if v = 0 then ['0'] else digits_msb 8 octal_digit v),
        c ∈ ['0', '1', '2', '3', '4', '5', '6', '7']) ∧
      parse_base 8 (if v = 0 then ['0'] else digits_msb 8 octal_digit v) = v ∧
      (v ≠ 0 → (if v = 0 then ['0'] else digits_msb 8 octal_digit v).head? ≠ some '0') := by
  by_cases h0 : v = 0
  · subst h0
    exact ⟨by decide, by decide, fun h => absurd rfl h⟩
  · simp only [if_neg h0]
    refine ⟨fun c hc => ?_, parse_digits_msb 8 _ v (by omega) octal_digit_val, fun _ => ?_⟩
    · obtain ⟨d, hd, rfl⟩ := digits_msb_mem 8 _ v (by omega) c hc
      exact octal_digit_mem d hd
    · obtain ⟨d, hd0, hd, hh⟩ := digits_msb_head 8 octal_digit v (by omega) h0
      rw [hh]
      intro hc
      exact octal_digit_ne_zero d hd hd0 (Option.some.inj hc)

theorem decimal_text_props (n : Nat) :
    parse_base 10 (if n = 0 then [decimal_digit 0] else digits_msb 10 decimal_digit n) = n ∧
      (if n = 0 then [decimal_digit 0] else digits_msb 10 decimal_digit n).head? ≠ some '-' ∧
      (n ≠ 0 → (digits_msb 10 decimal_digit n).head? ≠ some '0') := by
  by_cases h0 : n = 0
  · subst h0
    exact ⟨by decide, by decide, fun h => absurd rfl h⟩
  · simp only [if_neg h0]
    obtain ⟨d, hd0, hd, hh⟩ := digits_msb_head 10 decimal_digit n (by omega) h0
    refine ⟨parse_digits_msb 10 _ n (by omega) decimal_digit_val, ?_, fun _ => ?_⟩
    · rw [hh]
      intro hc
      exact (decimal_digit_ne d hd).1 (Option.some.inj hc)
    · rw [hh]
      intro hc
      exact (decimal_digit_ne d hd).2 hd0 (Option.some.inj hc)

/-! ## Claims C21 to C25 -/

/-- C21: `cfmt_append` only appends.  For every provider, every format string, every initial
`out` and every provider state, the call returns, the final `out` is the initial `out`
followed by some text `t`, and the returned `size_t` is the length of `t`, that is the final
size minus the initial size (reduced modulo `2 ^ 64` as every `size_t`).  The floating-point
conversions are covered as far as `std::snprintf` is a parameter that yields the text to
append. -/
theorem C21_append_only {σ : Type} (P : cfmt_src σ) (f : List Char) (out : List Char) (src : σ) :
    ∃ t, cfmt_append P f out src = some (out ++ t, t.length % 2 ^ 64) := by
  obtain ⟨fin, h1, t, h2⟩ := cfmt_run_some P f out src
  refine ⟨t, ?_⟩
  simp only [cfmt_append, h1, Option.map_some', ← h2, List.length_append, size_t_sub_append]

/-- C22: a dropped sequence is emitted untouched and formatting stops.  For a format
string `f` (the characters in front of the NUL, fewer than `size_dropped`), the call
returns, and when it ends in dropped mode (`ctx.size = size_dropped`, which only
`drop_sequence` sets) there is a round of the main loop that stood outside any sequence
(`ctx.size = 0`) at a `%` of `f`, with `out` equal to `s.out` there, such that the final
`out` is `s.out` followed by the raw rest of `f` from that `%` on. -/
theorem C22_dropped_sequence {σ : Type} (P : cfmt_src σ) (f : List Char) (out : List Char)
    (src : σ) (hf : f.length < size_dropped) (hnul : NUL ∉ f) :
    ∃ fin, cfmt_run P f out src = some fin ∧
      (fin.ctx.size = size_dropped →
        ∃ k s, cfmt_steps P f k (cfmt_start out src) = some s ∧ s.ctx.size = 0 ∧
          f[s.fmt]? = some '%' ∧ fin.out = s.out ++ f.drop s.fmt) := by
  obtain ⟨pre, h1, _⟩ := cfmt_loop_some P f (f.length + 1) (cfmt_start out src)
    (by simp [cfmt_start]) (by omega)
  refine ⟨cfmt_finish f pre, by simp [cfmt_run, h1], fun hd => ?_⟩
  obtain ⟨s, ⟨⟨k, hk⟩, hs0, hsp⟩, hout⟩ := cfmt_loop_dropped P f hf hnul (cfmt_start out src)
    (f.length + 1) (cfmt_start out src) pre ⟨0, rfl⟩
    ⟨by simp [cfmt_start], Or.inl rfl⟩ h1 hd
  exact ⟨k, s, hk, hs0, hsp, hout⟩

/-- C22 on the example `a%5-5db` (a repeated width): the call ends in dropped mode, the
round that read the `%` stood at index 1 with `out = a`, and the final `out` is `a`
followed by the format string from the `%` on; the other examples, one for each cause of
a drop, end in dropped mode with the sequence and the rest of the string copied. -/
theorem C22_dropped_sequence_witness :
    ((['a', '%', '5', '-', '5', 'd', 'b'].length < size_dropped ∧
        NUL ∉ ['a', '%', '5', '-', '5', 'd', 'b']) ∧
      ∃ k s, cfmt_steps list_src ['a', '%', '5', '-', '5', 'd', 'b'] k (cfmt_start [] [(1, [])])
            = some s ∧ s.ctx.size = 0 ∧
          ['a', '%', '5', '-', '5', 'd', 'b'][s.fmt]? = some '%' ∧
          (cfmt_run list_src ['a', '%', '5', '-', '5', 'd', 'b'] [] [(1, [])]).map
              (fun fin => fin.out)
            = some (s.out ++ ['a', '%', '5', '-', '5', 'd', 'b'].drop s.fmt)) ∧
    dropped_examples.map run_summary =
      [some (true, ['a', '%', 'n', 'b']),
       some (true, ['a', '%', 'L', 'f', 'b']),
       some (true, ['a', '%', 'q', 'b']),
       some (true, ['a', '%', '5', '-', '5', 'd', 'b']),
       some (true, ['a', '%', '.', '1', '.', '2', 'd', 'b']),
       some (true, ['a', '%', 'h', 'l', 'd', 'b']),
       some (true, ['a', '1', '%', 'd', 'b']),
       some (true, ['a', '1', '%', '5'])] := by
  refine ⟨⟨⟨by decide, by decide⟩, ?_⟩, by decide⟩
  obtain ⟨fin, h1, h2⟩ := C22_dropped_sequence list_src ['a', '%', '5', '-', '5', 'd', 'b'] []
    [(1, [])] (by decide) (by decide)
  have hsz : (cfmt_run list_src ['a', '%', '5', '-', '5', 'd', 'b'] [] [(1, [])]).map
      (fun fin => fin.ctx.size) = some size_dropped := by decide
  rw [h1] at hsz
  obtain ⟨k, s, e1, e2, e3, e4⟩ := h2 (Option.some.inj hsz)
  exact ⟨k, s, e1, e2, e3, by rw [h1, ← e4]; rfl⟩

/-- C23 (evaluation of the code at the failing input): with an explicit precision 0 the
conversions `%.0u` and `%.0d` append nothing at all and return 0, whatever the value of
the argument is.  The guard `if (!ctx.dot || ctx.prec)` skips `write_decimal` for every
value, not only for the value 0. -/
theorem C23_precision_zero_appends_nothing {σ : Type} (P : cfmt_src σ) (src : σ)
    (out : List Char) (ht : P.test src 0 = true) :
    cfmt_append P ['%', '.', '0', 'u'] out src = some (out, 0) ∧
      cfmt_append P ['%', '.', '0', 'd'] out src = some (out, 0) := by
  constructor
  · simp [cfmt_append, cfmt_run, cfmt_loop, cfmt_iter, cfmt_switch, cfmt_start, peek,
      cfmt_context.zero, case_dot, read_decimal, read_decimal_loop, case_u, ht, finish_arg,
      pad_field, unsigned_field, cfmt_finish, NUL, SPACE, size_dropped, UINT_MAX]
    omega
  · simp [cfmt_append, cfmt_run, cfmt_loop, cfmt_iter, cfmt_switch, cfmt_start, peek,
      cfmt_context.zero, case_dot, read_decimal, read_decimal_loop, case_d, ht, finish_arg,
      signed_pad, signed_field, cfmt_finish, NUL, SPACE, size_dropped, UINT_MAX]
    omega

/-- C23, at the failing input: the argument 5 with `%.0u` and with `%.0d` on an empty
`out` gives no character, where C prints `5`. -/
theorem C23_precision_zero_appends_nothing_witness :
    list_src.test [(5, [])] 0 = true ∧
      cfmt_append list_src ['%', '.', '0', 'u'] [] [(5, [])] = some ([], 0) ∧
      cfmt_append list_src ['%', '.', '0', 'd'] [] [(5, [])] = some ([], 0) :=
  ⟨by decide, C23_precision_zero_appends_nothing list_src [(5, [])] [] (by decide)⟩

/-- C24: `%llx`, `%llX` and `%llo` without flags, width and precision.  For every 64-bit
value `v` that the provider holds as argument 0 (the type size of `ll` is 8 and the
8-byte integer type of the mask is unsigned), `%llx` appends a text `t` and returns its
length, where `t` has `16 - cntlz64 (v | 1) / 4` characters, all of them in
`0123456789abcdef`, denotes `v` in base 16, is `0` for `v = 0` and does not start with `0`
otherwise; `%llX` appends the same text in upper case, which denotes `v` too; `%llo`
appends `22 - (cntlz64 (v | 1) + 2) / 3` octal digits that denote `v` in base 8, again `0`
for `v = 0` and without a leading `0` otherwise. -/
theorem C24_hex_octal {σ : Type} (P : cfmt_src σ) (src : σ) (out : List Char) (v : Nat)
    (hv : v < 2 ^ 64) (ht : P.test src 0 = true) (hl : P.size_llong = 8)
    (hm : P.int_max 8 = 2 ^ 64 - 1) (hg : P.get_u64 src 0 = v) :
    (∃ t, cfmt_append P ['%', 'l', 'l', 'x'] out src = some (out ++ t, t.length) ∧
        t.length = 16 - cntlz64 (v ||| 1) / 4 ∧ (∀ c ∈ t, c ∈ hex_lower) ∧
        parse_base 16 t = v ∧ (v = 0 → t = ['0']) ∧ (v ≠ 0 → t.head? ≠ some '0') ∧
        ∃ u, cfmt_append P ['%', 'l', 'l', 'X'] out src = some (out ++ u, u.length) ∧
          u = t.map Char.toUpper ∧ (∀ c ∈ u, c ∈ hex_upper) ∧ parse_base 16 u = v) ∧
      (∃ t, cfmt_append P ['%', 'l', 'l', 'o'] out src = some (out ++ t, t.length) ∧
        t.length = 22 - (cntlz64 (v ||| 1) + 2) / 3 ∧
        (∀ c ∈ t, c ∈ ['0', '1', '2', '3', '4', '5', '6', '7']) ∧
        parse_base 8 t = v ∧ (v = 0 → t = ['0']) ∧ (v ≠ 0 → t.head? ≠ some '0')) := by
  have hmod : P.get_u64 src 0 % 2 ^ 64 = v := by rw [hg]; exact Nat.mod_eq_of_lt hv
  constructor
  · obtain ⟨w1, l1⟩ := hex_text false out v hv
    obtain ⟨w2, l2⟩ := hex_text true out v hv
    obtain ⟨p1, p2, p3⟩ := hex_text_props false v
    obtain ⟨q1, q2, _⟩ := hex_text_props true v
    refine ⟨if v = 0 then ['0'] else digits_msb 16 (hex_digit false) v, ?_, l1, p1, p2,
      fun h0 => by rw [if_pos h0], p3,
      if v = 0 then ['0'] else digits_msb 16 (hex_digit true) v, ?_, hex_text_upper v, q1, q2⟩
    · rw [run_llx P src out 'x' (Or.inl rfl) ht hl hm, hmod]
      have hd : decide (('x' : Char) = 'X') = false := by decide
      rw [hd, w1, List.length_append, size_t_sub_small _ _ (by omega)]
    · rw [run_llx P src out 'X' (Or.inr rfl) ht hl hm, hmod]
      have hd : decide (('X' : Char) = 'X') = true := by decide
      rw [hd, w2, List.length_append, size_t_sub_small _ _ (by omega)]
  · obtain ⟨w1, l1⟩ := octal_text out v hv
    obtain ⟨p1, p2, p3⟩ := octal_text_props v
    refine ⟨if v = 0 then ['0'] else digits_msb 8 octal_digit v, ?_, l1, p1, p2,
      fun h0 => by rw [if_pos h0], p3⟩
    rw [run_llo P src out ht hl hm, hmod, w1, List.length_append,
      size_t_sub_small _ _ (by omega)]

/-- C24 at the value 48879 (`0xbeef`): the hypotheses hold for the example provider, and
the three conversions give `beef`, `BEEF` and `137357`. -/
theorem C24_hex_octal_witness :
    ((48879 < 2 ^ 64 ∧ list_src.test [(48879, [])] 0 = true ∧ list_src.size_llong = 8 ∧
        list_src.int_max 8 = 2 ^ 64 - 1 ∧ list_src.get_u64 [(48879, [])] 0 = 48879) ∧
      cfmt_append list_src ['%', 'l', 'l', 'x'] ['>'] [(48879, [])]
        = some (['>', 'b', 'e', 'e', 'f'], 4) ∧
      cfmt_append list_src ['%', 'l', 'l', 'X'] ['>'] [(48879, [])]
        = some (['>', 'B', 'E', 'E', 'F'], 4) ∧
      cfmt_append list_src ['%', 'l', 'l', 'o'] ['>'] [(48879, [])]
        = some (['>', '1', '3', '7', '3', '5', '7'], 6)) ∧
    ((∃ t, cfmt_append list_src ['%', 'l', 'l', 'x'] ['>'] [(48879, [])]
          = some (['>'] ++ t, t.length) ∧
        t.length = 16 - cntlz64 (48879 ||| 1) / 4 ∧ (∀ c ∈ t, c ∈ hex_lower) ∧
        parse_base 16 t = 48879 ∧ ((48879 : Nat) = 0 → t = ['0']) ∧
        ((48879 : Nat) ≠ 0 → t.head? ≠ some '0') ∧
        ∃ u, cfmt_append list_src ['%', 'l', 'l', 'X'] ['>'] [(48879, [])]
            = some (['>'] ++ u, u.length) ∧
          u = t.map Char.toUpper ∧ (∀ c ∈ u, c ∈ hex_upper) ∧ parse_base 16 u = 48879) ∧
      (∃ t, cfmt_append list_src ['%', 'l', 'l', 'o'] ['>'] [(48879, [])]
          = some (['>'] ++ t, t.length) ∧
        t.length = 22 - (cntlz64 (48879 ||| 1) + 2) / 3 ∧
        (∀ c ∈ t, c ∈ ['0', '1', '2', '3', '4', '5', '6', '7']) ∧
        parse_base 8 t = 48879 ∧ ((48879 : Nat) = 0 → t = ['0']) ∧
        ((48879 : Nat) ≠ 0 → t.head? ≠ some '0'))) :=
  ⟨⟨⟨by decide, by decide, by decide, by decide, by decide⟩, by decide, by decide, by decide⟩,
    C24_hex_octal list_src [(48879, [])] ['>'] 48879 (by decide) (by decide) (by decide)
      (by decide) (by decide)⟩

/-- C25: `%lld` without flags, width and precision.  For every signed 64-bit value `v`
that the provider holds sign-extended as argument 0 (the two's complement `v mod 2 ^ 64`;
the type size of `ll` is 8), `%lld` appends a text `t` and returns its length, where `t`
is a `-` when `v < 0`, followed by the single digit `0` when `v = 0` and else by the
decimal digits of `|v|`, most significant first, without a leading `0`; this holds for
`v = -2 ^ 63` too, and reading `t` back as a signed decimal number gives `v`. -/
theorem C25_signed_decimal {σ : Type} (P : cfmt_src σ) (src : σ) (out : List Char) (v : Int)
    (hlo : -2 ^ 63 ≤ v) (hhi : v < 2 ^ 63) (ht : P.test src 0 = true)
    (hl : P.size_llong = 8) (hg : P.get_u64 src 0 = (v % 2 ^ 64).toNat) :
    ∃ t, cfmt_append P ['%', 'l', 'l', 'd'] out src = some (out ++ t, t.length) ∧
      t = (if v < 0 then ['-'] else []) ++
        (if v = 0 then ['0'] else digits_msb 10 decimal_digit v.natAbs) ∧
      (v ≠ 0 → (digits_msb 10 decimal_digit v.natAbs).head? ≠ some '0') ∧
      parse_signed t = v := by
  have h00 : decimal_digit 0 = '0' := rfl
  obtain ⟨p1, p2, p3⟩ := decimal_text_props v.natAbs
  rw [h00] at p1 p2
  have hz : (v.natAbs = 0) = (v = 0) := by
    apply propext
    omega
  simp only [hz] at p1 p2
  have hlen : (if v = 0 then ['0'] else digits_msb 10 decimal_digit v.natAbs).length ≤ 20 := by
    split
    · simp
    · rw [digits_msb_length]
      by_contra hc
      have h1 : (10 : Nat) ^ (Nat.digits 10 v.natAbs).length ≤ 10 * v.natAbs :=
        Nat.base_pow_length_digits_le 10 v.natAbs (by omega) (by omega)
      have h2 : (10 : Nat) ^ 21 ≤ 10 ^ (Nat.digits 10 v.natAbs).length :=
        Nat.pow_le_pow_right (by omega) (by omega)
      have h3 : (10 : Nat) ^ 21 = 1000000000000000000000 := by norm_num
      omega
  refine ⟨(if v < 0 then ['-'] else []) ++
    (if v = 0 then ['0'] else digits_msb 10 decimal_digit v.natAbs), ?_, rfl,
    fun h => p3 (by omega), ?_⟩
  · rw [run_lld P src out ht hl]
    by_cases hneg : v < 0
    · have hval : P.get_u64 src 0 % 2 ^ 64 = 2 ^ 64 - v.natAbs := by
        rw [hg]
        omega
      have h63 : 2 ^ 63 ≤ P.get_u64 src 0 % 2 ^ 64 := by
        rw [hval]
        omega
      have habs : (2 ^ 64 - (2 ^ 64 - v.natAbs)) % 2 ^ 64 = v.natAbs := by omega
      have hv0 : ¬ v = 0 := by omega
      have hn0 : ¬ v.natAbs = 0 := by omega
      rw [if_pos h63, if_pos h63, hval, habs, write_decimal_spec _ _ (by omega), if_neg hn0,
        if_pos hneg, if_neg hv0, List.append_assoc, List.length_append,
        size_t_sub_small _ _ (by
          have := hlen
          rw [if_neg hv0] at this
          simp only [List.length_append, List.length_singleton]
          omega)]
    · have hval : P.get_u64 src 0 % 2 ^ 64 = v.natAbs := by
        rw [hg]
        omega
      have h63 : ¬ 2 ^ 63 ≤ P.get_u64 src 0 % 2 ^ 64 := by
        rw [hval]
        omega
      have hif : (if v.natAbs = 0 then ['0'] else digits_msb 10 decimal_digit v.natAbs)
          = (if v = 0 then ['0'] else digits_msb 10 decimal_digit v.natAbs) := by
        simp only [hz]
      rw [if_neg h63, if_neg h63, hval, write_decimal_spec _ _ (by omega), if_neg hneg, h00,
        hif, List.append_nil, List.nil_append, List.length_append,
        size_t_sub_small _ _ (by omega)]
  · unfold parse_signed
    by_cases hneg : v < 0
    · have hv0 : ¬ v = 0 := by omega
      rw [if_pos hneg, if_neg hv0] at *
      simp only [List.singleton_append, List.head?_cons, List.tail_cons, if_true]
      rw [p1]
      omega
    · rw [if_neg hneg, List.nil_append, if_neg p2, p1]
      omega

/-- C25 at the least 64-bit value `-2 ^ 63` and at `42`: the hypotheses hold for the example
provider, which holds `2 ^ 63` for `-2 ^ 63`, and the texts are `-9223372036854775808`
and `42`. -/
theorem C25_signed_decimal_witness :
    ((-2 ^ 63 ≤ (-9223372036854775808 : Int) ∧ (-9223372036854775808 : Int) < 2 ^ 63 ∧
        list_src.test [(2 ^ 63, [])] 0 = true ∧ list_src.size_llong = 8 ∧
        list_src.get_u64 [(2 ^ 63, [])] 0 = ((-9223372036854775808 : Int) % 2 ^ 64).toNat) ∧
      cfmt_append list_src ['%', 'l', 'l', 'd'] [] [(2 ^ 63, [])]
        = some (['-', '9', '2', '2', '3', '3', '7', '2', '0', '3', '6', '8', '5', '4', '7',
            '7', '5', '8', '0', '8'], 20) ∧
      cfmt_append list_src ['%', 'l', 'l', 'd'] [] [(42, [])] = some (['4', '2'], 2) ∧
      parse_signed ['-', '9', '2', '2', '3', '3', '7', '2', '0', '3', '6', '8', '5', '4', '7',
            '7', '5', '8', '0', '8'] = -9223372036854775808) ∧
    (∃ t, cfmt_append list_src ['%', 'l', 'l', 'd'] [] [(2 ^ 63, [])] = some ([] ++ t, t.length) ∧
      t = (if (-9223372036854775808 : Int) < 0 then ['-'] else []) ++
        (if (-9223372036854775808 : Int) = 0 then ['0']
          else digits_msb 10 decimal_digit (-9223372036854775808 : Int).natAbs) ∧
      ((-9223372036854775808 : Int) ≠ 0 →
        (digits_msb 10 decimal_digit (-9223372036854775808 : Int).natAbs).head? ≠ some '0') ∧
      parse_signed t = -9223372036854775808) :=
  ⟨⟨⟨by decide, by decide, by decide, by decide, by decide⟩, by decide, by decide, by decide⟩,
    C25_signed_decimal list_src [(2 ^ 63, [])] [] (-9223372036854775808) (by decide) (by decide)
      (by decide) (by decide) (by decide)⟩



end rpcs3
